import Mathlib

/-!
# Blackjack engine (blackjacksite.js): shallow embedding and verified properties

The classes `Card`, `Deck` and `BlackjackGame` of `blackjacksite.js` are
embedded as pure functions over explicit state, and the strategy calculator
(`getPairStrategy`, `getSoftTotalStrategy`, `getHardTotalStrategy`,
`calculateBestMove`) as pure functions on integers.

Modelling conventions

* Card values and totals are naturals. The bankroll and the bet are JavaScript
  numbers, that is IEEE 754 binary64 values: integers are held exactly up to
  `2 ^ 53` in magnitude and rounded to 53 significant bits beyond. The model
  holds them as integers and rounds the result of the debit of `startNewHand`
  and of every credit (`resolveBlackjack`, `finalizeDealerTurn`) with
  `binary64`, round to nearest, ties to even. The debit of `doubleDown` and of
  `splitHand` and the doubling of the bet are exact integer operations in the
  model; they are exact in the source while the bankroll is at most `2 ^ 53`.
  Values beyond the largest finite binary64 number (about `1.8e308`), where
  the source yields `Infinity` and then `NaN`, are outside the model.
* A method of `BlackjackGame` becomes a function from the state before the call
  to the pair (state after the call, `Except GameError Snapshot`): a `throw`
  does not roll anything back, so the state after a failing call is part of the
  model and "the state is unchanged" is a theorem, not a convention.
* `Math.random` is a tape of naturals held next to the engine state; the index
  `Math.floor(Math.random() * (i + 1))` is the next tape entry reduced modulo
  `i + 1` (an exhausted tape yields `0`).
* DOM rendering, animation and timers are not modelled.
-/

namespace Blackjack

/-! ## Card -/

/-- The four suit strings used by `Deck.reset`. -/
inductive Suit
  | Hearts
  | Diamonds
  | Clubs
  | Spades
  deriving DecidableEq, Repr

/-- Class `Card`: a value (1..13 when built by `Deck.reset`) and a suit. -/
structure Card where
  value : Nat
  suit : Suit
  deriving DecidableEq, Repr

instance : Inhabited Card := ⟨⟨0, Suit.Hearts⟩⟩

/-- Method `Card.getBlackjackValue`: Ace as 11, face cards as 10. -/
def Card.getBlackjackValue (c : Card) : Nat :=
  if c.value = 1 then 11 else if c.value > 10 then 10 else c.value

/-! ## Deck -/

/-- Class `Deck`: the array `cards`; the top of the shoe is the last element. -/
structure Deck where
  cards : List Card
  deriving DecidableEq, Repr

/-- The array `suits` of `Deck.reset`, in source order. -/
def suits : List Suit := [Suit.Hearts, Suit.Diamonds, Suit.Clubs, Suit.Spades]

/-- The nested `for` loops of `Deck.reset`: for each suit, values 1 to 13. -/
def freshCards : List Card :=
  suits.flatMap fun s => (List.range 13).map fun v => Card.mk (v + 1) s

/-- The destructuring swap `[cards[i], cards[j]] = [cards[j], cards[i]]`. -/
def swapCards (cards : List Card) (i j : Nat) : List Card :=
  match cards[i]?, cards[j]? with
  | some a, some b => (cards.set i b).set j a
  | _, _ => cards

/-- The loop of `Deck.shuffle` from index `i` down to `1`; each iteration reads
one outcome of `Math.random` from the tape. -/
def shuffleFrom : Nat → List Card → List Nat → List Card × List Nat
  | 0, cards, rnd => (cards, rnd)
  | i + 1, cards, rnd =>
    let j := rnd.headD 0 % (i + 2)
    shuffleFrom i (swapCards cards (i + 1) j) rnd.tail

/-- Method `Deck.shuffle`: `for (let i = cards.length - 1; i > 0; i--)`. -/
def Deck.shuffle (d : Deck) (rnd : List Nat) : Deck × List Nat :=
  let r := shuffleFrom (d.cards.length - 1) d.cards rnd
  (Deck.mk r.1, r.2)

/-- Method `Deck.reset`: rebuild the 52 cards, then shuffle. -/
def Deck.reset (rnd : List Nat) : Deck × List Nat :=
  Deck.shuffle (Deck.mk freshCards) rnd

/-- Method `Deck.draw`: reset when empty, then `pop` the last card.
`pop` on an empty array would give `undefined`; the `default` card stands for
it and is never produced, since a reset shoe holds 52 cards. -/
def Deck.draw (d : Deck) (rnd : List Nat) : Card × Deck × List Nat :=
  let r := if d.cards.length = 0 then Deck.reset rnd else (d, rnd)
  (r.1.cards.getLastD default, Deck.mk r.1.cards.dropLast, r.2)

/-! ## Hand evaluation -/

/-- The `for` loop of `calculateHand`: accumulates `(total, aces)`. -/
def sumHand (hand : List Card) : Nat × Nat :=
  hand.foldl
    (fun acc card =>
      let value := card.getBlackjackValue
      (acc.1 + value, if value = 11 then acc.2 + 1 else acc.2))
    (0, 0)

/-- The loop `while (total > 21 && aces > 0) { total -= 10; aces--; }`. -/
def softenAces : Nat → Nat → Nat
  | total, 0 => total
  | total, aces + 1 => if total > 21 then softenAces (total - 10) aces else total

/-- Method `BlackjackGame.calculateHand`. -/
def calculateHand (hand : List Card) : Nat :=
  let r := sumHand hand
  softenAces r.1 r.2

/-! ### Specification-side quantities for the hand total -/

/-- Value of a card with every Ace counted as 1. -/
def hardValue (c : Card) : Nat :=
  if c.value = 1 then 1 else if c.value ≥ 10 then 10 else c.value

/-- Sum of a hand with every Ace counted as 1. -/
def hardSum (hand : List Card) : Nat := (hand.map hardValue).sum

/-- Number of Aces (rank 1) in a hand. -/
def aceCount (hand : List Card) : Nat := hand.countP fun c => c.value = 1

/-! ## Numbers -/

/-- The gap between neighbouring binary64 values at the magnitude of `a`: the least power
of two `s` with `a / s < 2 ^ 53`, found by halving `a` (at most `fuel` times). -/
def spacing53 : Nat → Nat → Nat
  | 0, _ => 1
  | fuel + 1, a => if a < 2 ^ 53 then 1 else 2 * spacing53 fuel (a / 2)

/-- A natural number rounded to 53 significant bits, to the nearest multiple of the gap
and on a tie to the one with an even quotient: the binary64 value nearest to it. -/
def round53 (a : Nat) : Nat :=
  let s := spacing53 a a
  let q := a / s
  let r := a % s
  if s < 2 * r ∨ (2 * r = s ∧ q % 2 = 1) then (q + 1) * s else q * s

/-- The binary64 value of an integer result (`Infinity` is not represented): what
`+`, `-` and `*` on JavaScript numbers give when the exact result is the integer `n`. -/
def binary64 (n : Int) : Int :=
  if n < 0 then -((round53 n.natAbs : Nat) : Int) else ((round53 n.natAbs : Nat) : Int)

/-! ## Engine state -/

/-- The values taken by the field `gameStatus`. -/
inductive GameStatus
  | idle
  | playing
  | dealer_turn
  | complete
  deriving DecidableEq, Repr

/-- The errors thrown by the engine, named after the kinds of the specification.
`typeError` is the `TypeError` JavaScript raises on a property access through
`undefined` (an index outside an array). -/
inductive GameError
  /-- Message: Invalid bet amount -/
  | invalidBet
  /-- Messages: You cannot bet more than your balance! / Insufficient funds to double
  down. / Insufficient funds to split. -/
  | insufficientFunds
  /-- Messages: Cannot hit: not your turn / Cannot double down: not your turn /
  Cannot split: not your turn -/
  | notYourTurn
  /-- Message: Cannot split: Hand is not a pair. -/
  | notAPair
  /-- Message: Cannot split: Maximum splits reached. -/
  | splitLimitReached
  /-- Property access through undefined. -/
  | typeError
  deriving DecidableEq, Repr

/-- The strings stored under the key `result` of a returned object. -/
inductive Outcome
  | push
  | blackjack
  | dealer_blackjack
  | bust
  | dealer_bust
  | dealer_wins
  | player_wins
  deriving DecidableEq, Repr

/-- The object literal returned by an engine method: every key some method sets, `none`
when the key is absent. In `dealerHand` an entry `none` is the `null` put in place of the
dealer's second card. -/
structure Snapshot where
  result : Option Outcome := none
  message : Option String := none
  playerHand : Option (List Card) := none
  playerHands : Option (List (List Card)) := none
  dealerHand : Option (List (Option Card)) := none
  playerTotal : Option Nat := none
  dealerTotal : Option Nat := none
  dealerUpCard : Option Nat := none
  bustedHand : Option (List Card) := none
  bustedHandIndex : Option Nat := none
  activeHandIndex : Option Nat := none
  splitCount : Option Nat := none
  deriving DecidableEq, Repr

/-- Class `BlackjackGame`: its fields, and `random`, the pending outcomes of `Math.random`.
`playerHands = none` is the JavaScript `null` (no split yet). -/
structure BlackjackGame where
  currency : Int
  deck : Deck
  playerHand : List Card
  dealerHand : List Card
  currentBet : Int
  gameStatus : GameStatus
  playerHands : Option (List (List Card))
  currentHandIndex : Nat
  splitCount : Nat
  random : List Nat
  deriving DecidableEq, Repr

/-- What a method call leaves behind: the state after it, and the returned object or the
error thrown. -/
abbrev Step := BlackjackGame × Except GameError Snapshot

/-- The constructor of `BlackjackGame`. -/
def BlackjackGame.new (rnd : List Nat) : BlackjackGame :=
  let r := Deck.reset rnd
  { currency := 10000, deck := r.1, playerHand := [], dealerHand := [], currentBet := 0,
    gameStatus := GameStatus.idle, playerHands := none, currentHandIndex := 0,
    splitCount := 0, random := r.2 }

/-- The call `this.deck.draw()`: the card drawn and the engine with the shoe updated. -/
def BlackjackGame.draw (g : BlackjackGame) : Card × BlackjackGame :=
  let r := g.deck.draw g.random
  (r.1, { g with deck := r.2.1, random := r.2.2 })

/-- The dealer hand as shown when the second card is withheld: `[this.dealerHand[0], null]`. -/
def hiddenDealerHand (g : BlackjackGame) : List (Option Card) := [g.dealerHand[0]?, none]

/-- `Math.floor(bet * 2.5)` on an integer bet. The product is the exact value `5 * bet / 2`
rounded to binary64; rounding to 53 significant bits commutes with halving, so the product
is `binary64 (bet * 5) / 2` and its floor is the integer quotient. -/
def blackjackPayout (bet : Int) : Int := binary64 (bet * 5) / 2

/-- Method `resolveBlackjack`. -/
def BlackjackGame.resolveBlackjack (g : BlackjackGame) (playerTotal dealerTotal : Nat) : Step :=
  let r : Option Outcome × BlackjackGame :=
    if playerTotal = 21 ∧ dealerTotal = 21 then
      (some Outcome.push, { g with currency := binary64 (g.currency + g.currentBet) })
    else if playerTotal = 21 then
      (some Outcome.blackjack,
        { g with currency := binary64 (g.currency + blackjackPayout g.currentBet) })
    else if dealerTotal = 21 then
      (some Outcome.dealer_blackjack, g)
    else (none, g)
  (r.2, Except.ok
    { result := r.1, playerHand := some r.2.playerHand,
      dealerHand := some (r.2.dealerHand.map some),
      playerTotal := some playerTotal, dealerTotal := some dealerTotal })

/-- Method `startNewHand`. -/
def BlackjackGame.startNewHand (g : BlackjackGame) (bet : Int) : Step :=
  if bet ≤ 0 then (g, Except.error GameError.invalidBet)
  else if bet > g.currency then (g, Except.error GameError.insufficientFunds)
  else
    let g := { g with currentBet := bet }
    let g := { g with currency := binary64 (g.currency - bet) }
    let g := { g with playerHands := none, currentHandIndex := 0,
                      gameStatus := GameStatus.playing }
    let d1 := g.draw
    let d2 := d1.2.draw
    let g := { d2.2 with playerHand := [d1.1, d2.1] }
    let d3 := g.draw
    let d4 := d3.2.draw
    let g := { d4.2 with dealerHand := [d3.1, d4.1] }
    let playerTotal := calculateHand g.playerHand
    let dealerTotal := calculateHand g.dealerHand
    if playerTotal = 21 ∨ dealerTotal = 21 then
      let g := { g with gameStatus := GameStatus.complete }
      g.resolveBlackjack playerTotal dealerTotal
    else
      (g, Except.ok
        { playerHand := some g.playerHand,
          dealerHand := some (g.dealerHand.map some),
          playerTotal := some playerTotal,
          dealerUpCard := some d3.1.getBlackjackValue })

/-- Method `hit`. -/
def BlackjackGame.hit (g : BlackjackGame) : Step :=
  if g.gameStatus ≠ GameStatus.playing then (g, Except.error GameError.notYourTurn)
  else
    match g.playerHands with
    | some hands =>
      match hands[g.currentHandIndex]? with
      | none => (g, Except.error GameError.typeError)
      | some hand =>
        let d := g.draw
        let currentHand := hand ++ [d.1]
        let hands := hands.set g.currentHandIndex currentHand
        let g := { d.2 with playerHands := some hands }
        let playerTotal := calculateHand currentHand
        if playerTotal > 21 then
          if g.currentHandIndex < hands.length - 1 then
            let justBustedIndex := g.currentHandIndex
            let g := { g with currentHandIndex := g.currentHandIndex + 1 }
            (g, Except.ok
              { result := some Outcome.bust,
                bustedHand := some currentHand,
                bustedHandIndex := some justBustedIndex,
                activeHandIndex := some g.currentHandIndex,
                playerHands := g.playerHands,
                dealerHand := some (hiddenDealerHand g) })
          else
            let g := { g with gameStatus := GameStatus.complete }
            (g, Except.ok
              { result := some Outcome.bust,
                bustedHand := some currentHand,
                bustedHandIndex := some g.currentHandIndex,
                activeHandIndex := some g.currentHandIndex,
                playerHands := g.playerHands,
                dealerHand := some (g.dealerHand.map some) })
        else
          (g, Except.ok
            { playerHands := g.playerHands,
              activeHandIndex := some g.currentHandIndex,
              playerTotal := some playerTotal,
              dealerHand := some (hiddenDealerHand g) })
    | none =>
      let d := g.draw
      let g := { d.2 with playerHand := d.2.playerHand ++ [d.1] }
      let playerTotal := calculateHand g.playerHand
      if playerTotal > 21 then
        let g := { g with gameStatus := GameStatus.complete }
        (g, Except.ok
          { result := some Outcome.bust,
            playerHand := some g.playerHand,
            dealerHand := some (g.dealerHand.map some),
            playerTotal := some playerTotal,
            dealerTotal := some (calculateHand g.dealerHand) })
      else
        match g.dealerHand[0]? with
        | none => (g, Except.error GameError.typeError)
        | some upCard =>
          (g, Except.ok
            { playerHand := some g.playerHand,
              dealerHand := some (hiddenDealerHand g),
              playerTotal := some playerTotal,
              dealerUpCard := some upCard.getBlackjackValue })

/-- Method `standInternal`. -/
def BlackjackGame.standInternal (g : BlackjackGame) : Step :=
  let toDealer : Step :=
    let g := { g with gameStatus := GameStatus.dealer_turn }
    (g, Except.ok { dealerHand := some (g.dealerHand.map some),
                    playerHand := some g.playerHand })
  match g.playerHands with
  | some hands =>
    if g.currentHandIndex < hands.length - 1 then
      let g := { g with currentHandIndex := g.currentHandIndex + 1 }
      (g, Except.ok
        { message := some "Next hand",
          activeHandIndex := some g.currentHandIndex,
          playerHands := g.playerHands,
          dealerHand := some (hiddenDealerHand g) })
    else toDealer
  | none => toDealer

/-- Method `stand`: `standInternal` wrapped in DOM updates and the timer that starts the
dealer animation; on the engine state and the returned object it is `standInternal`
(which never throws, and never sets `result` or `multipleResults`). -/
def BlackjackGame.stand (g : BlackjackGame) : Step := g.standInternal

/-- Method `finalizeDealerTurn`. -/
def BlackjackGame.finalizeDealerTurn (g : BlackjackGame) : Step :=
  let dealerTotal := calculateHand g.dealerHand
  let playerTotal := calculateHand g.playerHand
  let r : Outcome × BlackjackGame :=
    if dealerTotal > 21 then
      (Outcome.dealer_bust,
        { g with currency := binary64 (g.currency + binary64 (g.currentBet * 2)) })
    else if dealerTotal > playerTotal then
      (Outcome.dealer_wins, g)
    else if playerTotal > dealerTotal then
      (Outcome.player_wins,
        { g with currency := binary64 (g.currency + binary64 (g.currentBet * 2)) })
    else
      (Outcome.push, { g with currency := binary64 (g.currency + g.currentBet) })
  let g := { r.2 with gameStatus := GameStatus.complete }
  (g, Except.ok
    { result := some r.1,
      dealerHand := some (g.dealerHand.map some),
      playerHand := some g.playerHand,
      playerTotal := some playerTotal,
      dealerTotal := some dealerTotal })

/-- Method `dealerNeedsCard`. -/
def BlackjackGame.dealerNeedsCard (g : BlackjackGame) : Bool :=
  calculateHand g.dealerHand < 17

/-- Method `dealerDrawOneCard`. -/
def BlackjackGame.dealerDrawOneCard (g : BlackjackGame) : BlackjackGame :=
  let d := g.draw
  { d.2 with dealerHand := d.2.dealerHand ++ [d.1] }

/-- Method `doubleDown`. -/
def BlackjackGame.doubleDown (g : BlackjackGame) : Step :=
  if g.currency < g.currentBet then (g, Except.error GameError.insufficientFunds)
  else if g.gameStatus ≠ GameStatus.playing then (g, Except.error GameError.notYourTurn)
  else
    let g := { g with currency := g.currency - g.currentBet }
    let g := { g with currentBet := g.currentBet * 2 }
    match g.playerHands with
    | some hands =>
      match hands[g.currentHandIndex]? with
      | none => (g, Except.error GameError.typeError)
      | some hand =>
        let d := g.draw
        let currentHand := hand ++ [d.1]
        let hands := hands.set g.currentHandIndex currentHand
        let g := { d.2 with playerHands := some hands }
        let playerTotal := calculateHand currentHand
        if playerTotal > 21 then
          let g := { g with gameStatus := GameStatus.complete }
          (g, Except.ok
            { result := some Outcome.bust,
              bustedHand := some currentHand,
              dealerHand := some (g.dealerHand.map some),
              playerHands := g.playerHands,
              playerTotal := some playerTotal })
        else g.stand
    | none =>
      let d := g.draw
      let g := { d.2 with playerHand := d.2.playerHand ++ [d.1] }
      let playerTotal := calculateHand g.playerHand
      if playerTotal > 21 then
        let g := { g with gameStatus := GameStatus.complete }
        (g, Except.ok
          { result := some Outcome.bust,
            playerHand := some g.playerHand,
            dealerHand := some (g.dealerHand.map some),
            playerTotal := some playerTotal,
            dealerTotal := some (calculateHand g.dealerHand) })
      else g.stand

/-- The call `hands.splice(i, 1, a, b)`: one element removed at `i`, `a` and `b` put in
its place. -/
def splice2 (hands : List (List Card)) (i : Nat) (a b : List Card) : List (List Card) :=
  hands.take i ++ [a, b] ++ hands.drop (i + 1)

/-- The hand receiving the actions, as `splitHand` reads it:
`this.playerHands ? this.playerHands[this.currentHandIndex] : this.playerHand`;
`none` is the `undefined` of an index outside `playerHands`. -/
def BlackjackGame.handToSplit (g : BlackjackGame) : Option (List Card) :=
  match g.playerHands with
  | some hands => hands[g.currentHandIndex]?
  | none => some g.playerHand

/-- Method `splitHand`. -/
def BlackjackGame.splitHand (g : BlackjackGame) : Step :=
  if g.splitCount ≥ 3 then (g, Except.error GameError.splitLimitReached)
  else if g.gameStatus ≠ GameStatus.playing then (g, Except.error GameError.notYourTurn)
  else
    let handToSplit := g.handToSplit
    match handToSplit with
    | none => (g, Except.error GameError.typeError)
    | some [c0, c1] =>
      if c0.getBlackjackValue ≠ c1.getBlackjackValue then
        (g, Except.error GameError.notAPair)
      else if g.currency < g.currentBet then
        (g, Except.error GameError.insufficientFunds)
      else
        let g := { g with currency := g.currency - g.currentBet }
        let hands : List (List Card) :=
          match g.playerHands with
          | none => [[c0], [c1]]
          | some hands => splice2 hands g.currentHandIndex [c0] [c1]
        let g := { g with playerHands := some hands }
        match hands[g.currentHandIndex]? with
        | none => (g, Except.error GameError.typeError)
        | some first =>
          let d1 := g.draw
          let hands := hands.set g.currentHandIndex (first ++ [d1.1])
          let g := { d1.2 with playerHands := some hands }
          match hands[g.currentHandIndex + 1]? with
          | none => (g, Except.error GameError.typeError)
          | some second =>
            let d2 := g.draw
            let hands := hands.set (g.currentHandIndex + 1) (second ++ [d2.1])
            let g := { d2.2 with playerHands := some hands }
            let g := { g with splitCount := g.splitCount + 1 }
            (g, Except.ok
              { playerHands := g.playerHands,
                activeHandIndex := some g.currentHandIndex,
                splitCount := some g.splitCount })
    | some _ => (g, Except.error GameError.notAPair)

/-- The assignments and the four draws that open `startNewHand`, up to the computation of
the two totals: the state in which the totals are taken. -/
def BlackjackGame.dealInitial (g : BlackjackGame) (bet : Int) : BlackjackGame :=
  let g := { g with currentBet := bet }
  let g := { g with currency := binary64 (g.currency - bet) }
  let g := { g with playerHands := none, currentHandIndex := 0,
                    gameStatus := GameStatus.playing }
  let d1 := g.draw
  let d2 := d1.2.draw
  let g := { d2.2 with playerHand := [d1.1, d2.1] }
  let d3 := g.draw
  let d4 := d3.2.draw
  { d4.2 with dealerHand := [d3.1, d4.1] }

/-- The cards given by `n` successive calls of `Deck.draw`, in the order drawn, with the
shoe and the tape left behind. -/
def Deck.drawMany : Nat → Deck → List Nat → List Card × Deck × List Nat
  | 0, d, rnd => ([], d, rnd)
  | n + 1, d, rnd =>
    let r := d.draw rnd
    let rest := Deck.drawMany n r.2.1 r.2.2
    (r.1 :: rest.1, rest.2)

/-! ## Specification-side notions for splitting -/

/-- A hand that may be split: exactly two cards with equal blackjack values. -/
def isPair : List Card → Bool
  | [a, b] => a.getBlackjackValue == b.getBlackjackValue
  | _ => false

/-- The sequence of player hands: the split hands, or the single hand. -/
def BlackjackGame.handList (g : BlackjackGame) : List (List Card) :=
  match g.playerHands with
  | some hands => hands
  | none => [g.playerHand]

/-! ## Reading a step -/

/-- The key `result` of the returned object, `none` when absent or when the call threw. -/
def Step.outcome (r : Step) : Option Outcome :=
  match r.2 with
  | Except.ok snap => snap.result
  | Except.error _ => none

/-- The error thrown by the call, `none` when it returned. -/
def Step.thrown (r : Step) : Option GameError :=
  match r.2 with
  | Except.ok _ => none
  | Except.error e => some e

/-- The returned object, `none` when the call threw. -/
def Step.returned (r : Step) : Option Snapshot :=
  match r.2 with
  | Except.ok snap => some snap
  | Except.error _ => none

/-! ## Sequences of calls -/

/-- The calls a client can make on the engine. -/
inductive Action
  | startNewHand (bet : Int)
  | hit
  | stand
  | doubleDown
  | splitHand
  | dealerDrawOneCard
  | finalizeDealerTurn
  deriving DecidableEq, Repr

/-- The engine state after one call (whether it returned or threw). -/
def BlackjackGame.perform (g : BlackjackGame) : Action → BlackjackGame
  | Action.startNewHand bet => (g.startNewHand bet).1
  | Action.hit => g.hit.1
  | Action.stand => g.stand.1
  | Action.doubleDown => g.doubleDown.1
  | Action.splitHand => g.splitHand.1
  | Action.dealerDrawOneCard => g.dealerDrawOneCard
  | Action.finalizeDealerTurn => g.finalizeDealerTurn.1

/-- The engine state after a sequence of calls. -/
def BlackjackGame.run (g : BlackjackGame) (acts : List Action) : BlackjackGame :=
  acts.foldl BlackjackGame.perform g

/-- The calls that play out one unsplit hand once it is dealt: hit, stand, double down and
the dealer's draws. -/
def Action.playsSingleHand : Action → Bool
  | Action.hit => true
  | Action.stand => true
  | Action.doubleDown => true
  | Action.dealerDrawOneCard => true
  | _ => false

/-! ## Concrete states used in the examples -/

/-- Shorthand for a card of hearts. -/
def heart (v : Nat) : Card := Card.mk v Suit.Hearts

/-- An idle engine with bankroll 1000 and the given shoe (top card last). -/
def tableWith (cards : List Card) : BlackjackGame :=
  { currency := 1000, deck := Deck.mk cards, playerHand := [], dealerHand := [],
    currentBet := 0, gameStatus := GameStatus.idle, playerHands := none,
    currentHandIndex := 0, splitCount := 0, random := [] }

/-- A round with a double down: bet 100 on the shoe 9, King, 10, 6, 5 (top last), then
double down. -/
def pushAfterDouble : BlackjackGame :=
  (tableWith [heart 9, heart 13, heart 10, heart 6, heart 5]).run
    [Action.startNewHand 100, Action.doubleDown]

/-- A table whose shoe deals 5, 6 to the player and 7, 9 to the dealer. -/
def holeNine : BlackjackGame := tableWith [heart 9, heart 7, heart 6, heart 5]

/-- The same table with an 8 in place of the 9: only the dealer's second card differs. -/
def holeEight : BlackjackGame := tableWith [heart 8, heart 7, heart 6, heart 5]

/-- A dealt hand waiting for a hit: bet 50 on the shoe King, 9, 7, 6, 5 (top last). -/
def hitTable : BlackjackGame :=
  ((tableWith [heart 13, heart 9, heart 7, heart 6, heart 5]).startNewHand 50).1

/-- A dealt pair of sevens: bet 50 on the shoe 3, 2, 10, 4, 7, 7 (top last), so the player
holds 7, 7 against a dealer 4 up. -/
def splitTable : BlackjackGame :=
  ((tableWith [heart 3, heart 2, heart 10, heart 4, Card.mk 7 Suit.Spades, heart 7]).startNewHand
    50).1

/-- A split round ready for the dealer: bet 50 on the shoe Queen, King, 7, 10, 8, 8 (top
last), split the eights (drawing King and Queen), stand on both hands. -/
def splitRound : BlackjackGame :=
  (tableWith [heart 12, heart 13, heart 7, heart 10, Card.mk 8 Suit.Spades, heart 8]).run
    [Action.startNewHand 50, Action.splitHand, Action.stand, Action.stand]

/-- A finished round with an empty bankroll: all-in bet 1000 on the shoe Ace, King, 6, 5
(top last); the dealer holds King, Ace, a blackjack. -/
def brokeTable : BlackjackGame :=
  ((tableWith [heart 1, heart 13, heart 6, heart 5]).startNewHand 1000).1

/-- A dealt hand waiting for a double down: bet 100 on the shoe 9, King, 10, 6, 5 (top
last). -/
def doubleTable : BlackjackGame :=
  ((tableWith [heart 9, heart 13, heart 10, heart 6, heart 5]).startNewHand 100).1

/-- An idle engine about to bet its whole bankroll 3602879701896399; the shoe deals Ace,
King to the player and 7, 9 to the dealer. -/
def allInTable : BlackjackGame :=
  { tableWith [heart 9, heart 7, heart 13, heart 1] with currency := 3602879701896399 }

/-- An idle engine with bankroll 9007199254740994, that is `2 ^ 53 + 2`; the shoe deals 5, 6
to the player and 7, 9 to the dealer. -/
def highTable : BlackjackGame :=
  { tableWith [heart 9, heart 7, heart 6, heart 5] with currency := 9007199254740994 }

/-- A hand handed over to the dealer with a large bet: from bankroll 6755399441055745, bet
2251799813685248 (`2 ^ 51`) on the shoe 9, 10, King, 10 (top last), then stand; the player
holds 10, King against 10, 9 and the bankroll is 4503599627370497 (`2 ^ 52 + 1`). -/
def highStake : BlackjackGame :=
  ({ tableWith [heart 9, heart 10, heart 13, heart 10] with currency := 6755399441055745 }).run
    [Action.startNewHand 2251799813685248, Action.stand]

/-! ## The dealer's loop -/

/-- The recursion of `animateDealerTurn` up to its call of `finalizeDealerTurn`:
`if (game.dealerNeedsCard()) { game.dealerDrawOneCard(); animateDealerTurn() }`, unrolled at
most `fuel + 1` times; `none` when the dealer still needs a card once the fuel is spent. -/
def BlackjackGame.dealerLoop : Nat → BlackjackGame → Option BlackjackGame
  | 0, g => if g.dealerNeedsCard then none else some g
  | fuel + 1, g =>
    if g.dealerNeedsCard then BlackjackGame.dealerLoop fuel g.dealerDrawOneCard else some g

/-- A round handed over to the dealer: bet 50 on the shoe 5, 6, 10, 9, 10 (top last), then
stand; the dealer holds 10, 6 and the shoe keeps the 5. -/
def dealerTable : BlackjackGame :=
  (tableWith [heart 5, heart 6, heart 10, heart 9, heart 10]).run
    [Action.startNewHand 50, Action.stand]

/-! ## Invariants of the reachable states -/

/-- The split bookkeeping is consistent: at most three splits counted; an unsplit hand has
index 0; a split hand sequence holds at least 2 and at most `splitCount + 1` hands and the
index points into it. -/
def BlackjackGame.splitInvariant (g : BlackjackGame) : Prop :=
  g.splitCount ≤ 3 ∧
  match g.playerHands with
  | none => g.currentHandIndex = 0
  | some hands =>
    2 ≤ hands.length ∧ hands.length ≤ g.splitCount + 1 ∧ g.currentHandIndex < hands.length

/-- Neither the bankroll nor the bet is negative. -/
def BlackjackGame.fundsInvariant (g : BlackjackGame) : Prop :=
  0 ≤ g.currency ∧ 0 ≤ g.currentBet

/-- The number of `splitHand` calls that returned along a sequence of calls. -/
def successfulSplits : BlackjackGame → List Action → Nat
  | _, [] => 0
  | g, a :: rest =>
    (if a = Action.splitHand ∧ g.splitHand.thrown = none then 1 else 0)
      + successfulSplits (g.perform a) rest

/-- A second round after a round with a split: bet 50 on the shoe 9, 7, 6, 5, Queen, King,
7, 10, 8, 8 (top last); the eights are split and both hands stood, the dealer resolves,
and a new hand is dealt at bet 50. -/
def secondRound : BlackjackGame :=
  (tableWith [heart 9, heart 7, heart 6, heart 5, heart 12, heart 13, heart 7, heart 10,
      Card.mk 8 Suit.Spades, heart 8]).run
    [Action.startNewHand 50, Action.splitHand, Action.stand, Action.stand,
      Action.finalizeDealerTurn, Action.startNewHand 50]

/-! ## Strategy calculator -/

/-- The strings stored under the key `move` by the strategy functions. -/
inductive Move
  | hit
  | stand
  | double
  | split
  deriving DecidableEq, Repr

/-- The object `{ move, details }` returned by a strategy function. -/
structure Advice where
  move : Move
  details : String
  deriving DecidableEq, Repr

/-- Function `getPairStrategy`. -/
def getPairStrategy (cardValue dealerCard : Int) : Advice :=
  if cardValue = 11 then
    { move := Move.split, details := "Always split Aces." }
  else if cardValue = 10 then
    { move := Move.stand, details := "Never split 10s." }
  else if cardValue = 9 then
    if dealerCard = 7 ∨ dealerCard = 10 ∨ dealerCard = 11 then
      { move := Move.stand,
        details := "Stand on pair of 9s against dealer " ++ toString dealerCard ++ "." }
    else
      { move := Move.split, details := "Split 9s against dealer " ++ toString dealerCard ++ "." }
  else if cardValue = 8 then
    { move := Move.split, details := "Always split 8s." }
  else if cardValue = 7 then
    if dealerCard ≤ 7 then
      { move := Move.split, details := "Split 7s against dealer " ++ toString dealerCard ++ "." }
    else
      { move := Move.hit,
        details := "Hit on pair of 7s against dealer " ++ toString dealerCard ++ "." }
  else if cardValue = 6 then
    if dealerCard ≤ 6 then
      { move := Move.split, details := "Split 6s against dealer " ++ toString dealerCard ++ "." }
    else
      { move := Move.hit,
        details := "Hit on pair of 6s against dealer " ++ toString dealerCard ++ "." }
  else if cardValue = 5 then
    if dealerCard ≤ 9 then
      { move := Move.double, details := "Double on pair of 5s." }
    else
      { move := Move.hit,
        details := "Hit on pair of 5s against dealer " ++ toString dealerCard ++ "." }
  else if cardValue = 4 then
    if dealerCard = 5 ∨ dealerCard = 6 then
      { move := Move.split, details := "Split 4s against dealer " ++ toString dealerCard ++ "." }
    else
      { move := Move.hit,
        details := "Hit on pair of 4s against dealer " ++ toString dealerCard ++ "." }
  else if cardValue = 3 ∨ cardValue = 2 then
    if dealerCard ≤ 7 then
      { move := Move.split,
        details := "Split " ++ toString cardValue ++ "s against dealer "
          ++ toString dealerCard ++ "." }
    else
      { move := Move.hit,
        details := "Hit on pair of " ++ toString cardValue ++ "s against dealer "
          ++ toString dealerCard ++ "." }
  else
    { move := Move.hit, details := "Hit by default." }

/-- Function `getSoftTotalStrategy`; `none` is the `undefined` returned when no branch
applies. -/
def getSoftTotalStrategy (total dealerCard : Int) : Option Advice :=
  if total ≥ 19 then
    some
      { move := if total = 19 ∧ dealerCard = 6 then Move.double else Move.stand,
        details := "Soft " ++ toString total
          ++ " is strong – stand (or double on 19 vs dealer 6)." }
  else if total = 18 then
    if dealerCard ≥ 9 then
      some { move := Move.hit,
             details := "Dealer shows " ++ toString dealerCard ++ " – hit on soft 18." }
    else if dealerCard ≥ 7 then
      some { move := Move.stand,
             details := "Dealer shows " ++ toString dealerCard ++ " – stand on soft 18." }
    else
      some { move := Move.double,
             details := "Dealer shows " ++ toString dealerCard ++ " – double on soft 18." }
  else if total = 17 then
    some
      { move := if dealerCard ≥ 3 ∧ dealerCard ≤ 6 then Move.double else Move.hit,
        details :=
          if dealerCard ≥ 3 ∧ dealerCard ≤ 6 then "Double on soft 17." else "Hit on soft 17." }
  else if total ≤ 16 then
    some
      { move := if dealerCard ≥ 4 ∧ dealerCard ≤ 6 then Move.double else Move.hit,
        details :=
          if dealerCard ≥ 4 ∧ dealerCard ≤ 6 then "Double on soft " ++ toString total ++ "."
          else "Hit on soft " ++ toString total ++ "." }
  else none

/-- Function `getHardTotalStrategy`. -/
def getHardTotalStrategy (total dealerCard : Int) : Advice :=
  if total ≥ 17 then
    { move := Move.stand, details := "Hard " ++ toString total ++ " is high – stand." }
  else if total ≥ 13 ∧ total ≤ 16 then
    { move := if dealerCard ≥ 7 then Move.hit else Move.stand,
      details :=
        if dealerCard ≥ 7 then "Dealer shows high card – hit on hard " ++ toString total ++ "."
        else "Dealer shows low card – stand on hard " ++ toString total ++ "." }
  else if total = 12 then
    { move := if dealerCard ≥ 4 ∧ dealerCard ≤ 6 then Move.stand else Move.hit,
      details :=
        if dealerCard ≥ 4 ∧ dealerCard ≤ 6 then "Stand on hard 12." else "Hit on hard 12." }
  else if total = 11 then
    { move := Move.double, details := "Double on hard 11." }
  else if total = 10 then
    { move := if dealerCard ≥ 10 then Move.hit else Move.double,
      details := if dealerCard ≥ 10 then "Hit on hard 10." else "Double on hard 10." }
  else if total = 9 then
    { move := if dealerCard ≥ 3 ∧ dealerCard ≤ 6 then Move.double else Move.hit,
      details :=
        if dealerCard ≥ 3 ∧ dealerCard ≤ 6 then "Double on hard 9." else "Hit on hard 9." }
  else
    { move := Move.hit, details := "Hit on hard " ++ toString total ++ "." }

/-- What `calculateBestMove` hands to `getStrategyHTML`: the move, the hand type and the
details. -/
structure BestMove where
  move : Move
  handType : String
  details : String
  deriving DecidableEq, Repr

/-- Function `calculateBestMove` on the three values parsed from the form. It returns
`none` when a value is missing (0, the message asking to select all cards), and throws a
`TypeError` when it destructures an `undefined` strategy. -/
def calculateBestMove (card1 card2 dealerCard : Int) : Except GameError (Option BestMove) :=
  if card1 = 0 ∨ card2 = 0 ∨ dealerCard = 0 then Except.ok none
  else
    let total := card1 + card2
    let hasAce : Bool := card1 = 11 ∨ card2 = 11
    let pair : Bool := card1 = card2
    if pair then
      let r := getPairStrategy card1 dealerCard
      Except.ok (some
        { move := r.move, handType := "Pair of " ++ toString card1 ++ "s",
          details := r.details })
    else if hasAce then
      let total := if total > 21 then total - 10 else total
      match getSoftTotalStrategy total dealerCard with
      | none => Except.error GameError.typeError
      | some r =>
        Except.ok (some
          { move := r.move, handType := "Soft " ++ toString total, details := r.details })
    else
      let r := getHardTotalStrategy total dealerCard
      Except.ok (some
        { move := r.move, handType := "Hard " ++ toString total, details := r.details })

/-- The move recommended by `calculateBestMove`, `none` when nothing is recommended. -/
def recommendedMove (card1 card2 dealerCard : Int) : Option Move :=
  match calculateBestMove card1 card2 dealerCard with
  | Except.ok (some r) => some r.move
  | _ => none

/-- Two split hands with the first one to play: bet 50 on the shoe 10, Queen, King, 7, 10,
8, 8 (top last); the eights are split into 8, King and 8, Queen and a 10 is on top of the
shoe. -/
def splitDoubleTable : BlackjackGame :=
  (tableWith [heart 10, heart 12, heart 13, heart 7, heart 10, Card.mk 8 Suit.Spades,
      heart 8]).run
    [Action.startNewHand 50, Action.splitHand]

/-! ## Index choices of the shuffle -/

/-- The index choices of the loop of `Deck.shuffle` from index `i` down to 1: one choice
per iteration, the choice made at index `k` being at most `k`. -/
def validChoices : Nat → List Nat → Bool
  | 0, js => js.isEmpty
  | _ + 1, [] => false
  | i + 1, j :: rest => decide (j ≤ i + 1) && validChoices i rest

/-- All sequences of index choices of the loop from index `i` down to 1. -/
def choiceSequences : Nat → List (List Nat)
  | 0 => [[]]
  | i + 1 =>
    (List.range (i + 2)).flatMap fun j => (choiceSequences i).map fun rest => j :: rest

/-! ## Hand evaluation: lemmas -/

theorem getBlackjackValue_eq (c : Card) :
    c.getBlackjackValue = hardValue c + 10 * (if c.value = 1 then 1 else 0) := by
  unfold Card.getBlackjackValue hardValue
  split_ifs <;> omega

theorem getBlackjackValue_eq_eleven (c : Card) :
    c.getBlackjackValue = 11 ↔ c.value = 1 := by
  unfold Card.getBlackjackValue
  split_ifs <;> omega

theorem sumHand_foldl (hand : List Card) (t a : Nat) :
    hand.foldl
      (fun acc card =>
        let value := card.getBlackjackValue
        (acc.1 + value, if value = 11 then acc.2 + 1 else acc.2))
      (t, a)
    = (t + hardSum hand + 10 * aceCount hand, a + aceCount hand) := by
  induction hand generalizing t a with
  | nil => simp [hardSum, aceCount]
  | cons c cs ih =>
    simp only [List.foldl_cons, ih]
    by_cases hc : c.value = 1
    · have h11 : c.getBlackjackValue = 11 := (getBlackjackValue_eq_eleven c).2 hc
      have hv : hardValue c = 1 := by simp [hardValue, hc]
      simp [hardSum, aceCount, List.countP_cons, hc, h11, hv]
      constructor <;> omega
    · have h11 : c.getBlackjackValue ≠ 11 := fun h => hc ((getBlackjackValue_eq_eleven c).1 h)
      have hv := getBlackjackValue_eq c
      simp only [hc, if_false] at hv
      simp [hardSum, aceCount, List.countP_cons, hc, h11, hv]
      omega

theorem sumHand_eq (hand : List Card) :
    sumHand hand = (hardSum hand + 10 * aceCount hand, aceCount hand) := by
  have h := sumHand_foldl hand 0 0
  simpa [sumHand] using h

theorem softenAces_spec (h : Nat) : ∀ a : Nat,
    ∃ k, k ≤ a ∧ softenAces (h + 10 * a) a = h + 10 * k ∧
      (21 < h → k = 0) ∧
      (h ≤ 21 → h + 10 * k ≤ 21 ∧ ∀ j, j ≤ a → h + 10 * j ≤ 21 → j ≤ k) := by
  intro a
  induction a with
  | zero => exact ⟨0, le_refl 0, by simp [softenAces], fun _ => rfl, fun hh => ⟨by omega, fun j hj _ => hj⟩⟩
  | succ a ih =>
    obtain ⟨k, hk, hr, hbig, hsmall⟩ := ih
    by_cases hgt : 21 < h + 10 * (a + 1)
    · have hstep : softenAces (h + 10 * (a + 1)) (a + 1) = softenAces (h + 10 * a) a := by
        have e : h + 10 * (a + 1) - 10 = h + 10 * a := by omega
        simp [softenAces, hgt, e]
      refine ⟨k, by omega, by rw [hstep, hr], hbig, fun hh => ⟨(hsmall hh).1, fun j hj hj21 => ?_⟩⟩
      have hja : j ≤ a := by omega
      exact (hsmall hh).2 j hja hj21
    · have hstep : softenAces (h + 10 * (a + 1)) (a + 1) = h + 10 * (a + 1) := by
        simp [softenAces, hgt]
      exact ⟨a + 1, le_refl _, hstep, fun hh => by omega, fun _ => ⟨by omega, fun j hj _ => hj⟩⟩

/-! ## Dealing: lemmas -/

/-- A natural number of at most 53 bits, and `2 ^ 53` itself, is its own rounding. -/
theorem round53_exact (a : Nat) (h : a ≤ 2 ^ 53) : round53 a = a := by
  rcases Nat.lt_or_ge a (2 ^ 53) with h1 | h1
  · have hs : spacing53 a a = 1 := by
      cases a with
      | zero => rfl
      | succ n => simp only [spacing53, if_pos h1]
    simp [round53, hs, Nat.mod_one]
  · have : a = 2 ^ 53 := le_antisymm h h1
    subst this
    decide

/-- Integers of magnitude at most `2 ^ 53` are binary64 values: no rounding. -/
theorem binary64_exact (n : Int) (h1 : -(2 ^ 53) ≤ n) (h2 : n ≤ 2 ^ 53) : binary64 n = n := by
  unfold binary64
  have hn : n.natAbs ≤ 2 ^ 53 := by omega
  rw [round53_exact _ hn]
  split_ifs with h <;> omega

/-- Above `2 ^ 53` only every second integer is a binary64 value, and a tie goes to the
neighbour with the even significand. -/
theorem binary64_ties_to_even :
    binary64 (2 ^ 53 + 1) = 2 ^ 53 ∧ binary64 (2 ^ 53 + 2) = 2 ^ 53 + 2 ∧
    binary64 (2 ^ 53 + 3) = 2 ^ 53 + 4 ∧ binary64 (-(2 ^ 53 + 3)) = -(2 ^ 53 + 4) ∧
    binary64 (2 ^ 54 + 2) = 2 ^ 54 ∧ binary64 (2 ^ 54 + 3) = 2 ^ 54 + 4 ∧
    binary64 (2 ^ 54 + 6) = 2 ^ 54 + 8 := by
  decide

theorem binary64_nonneg (n : Int) (h : 0 ≤ n) : 0 ≤ binary64 n := by
  unfold binary64
  rw [if_neg (by omega)]
  exact Int.ofNat_nonneg _

/-- The exact floor of `2.5 * b` for an integer `b`. -/
theorem floor_two_and_a_half (b : Int) : ⌊(b : ℚ) * 2.5⌋ = 2 * b + b / 2 := by
  have h : (b : ℚ) * 2.5 = ((5 * b : ℤ) : ℚ) / ((2 : ℕ) : ℚ) := by
    push_cast; norm_num; ring
  rw [h, Rat.floor_intCast_div_natCast]
  omega

/-- While `5 * b` is at most `2 ^ 53` the product `b * 2.5` is exact, and its floor is
`2 * b + ⌊b / 2⌋`. -/
theorem blackjackPayout_eq (b : Int) (h1 : 0 ≤ b) (h2 : b * 5 ≤ 2 ^ 53) :
    blackjackPayout b = 2 * b + b / 2 := by
  unfold blackjackPayout
  rw [binary64_exact _ (by omega) h2]
  omega

theorem blackjackPayout_nonneg (b : Int) (h : 0 ≤ b) : 0 ≤ blackjackPayout b := by
  unfold blackjackPayout
  have := binary64_nonneg (b * 5) (by omega)
  omega

theorem startNewHand_eq (g : BlackjackGame) (b : Int) (hpos : 0 < b) (hle : b ≤ g.currency) :
    g.startNewHand b =
      if calculateHand (g.dealInitial b).playerHand = 21 ∨
          calculateHand (g.dealInitial b).dealerHand = 21 then
        BlackjackGame.resolveBlackjack
          { g.dealInitial b with gameStatus := GameStatus.complete }
          (calculateHand (g.dealInitial b).playerHand)
          (calculateHand (g.dealInitial b).dealerHand)
      else
        (g.dealInitial b, Except.ok
          { playerHand := some (g.dealInitial b).playerHand,
            dealerHand := some ((g.dealInitial b).dealerHand.map some),
            playerTotal := some (calculateHand (g.dealInitial b).playerHand),
            dealerUpCard := (g.dealInitial b).dealerHand.head?.map Card.getBlackjackValue }) := by
  have h1 : ¬ b ≤ 0 := by omega
  have h2 : ¬ b > g.currency := by omega
  unfold BlackjackGame.startNewHand
  rw [if_neg h1, if_neg h2]
  rfl

theorem resolveBlackjack_fst (g : BlackjackGame) (p d : Nat) :
    (g.resolveBlackjack p d).1 =
      { g with currency :=
          if p = 21 ∧ d = 21 then binary64 (g.currency + g.currentBet)
          else if p = 21 then binary64 (g.currency + blackjackPayout g.currentBet)
          else g.currency } := by
  unfold BlackjackGame.resolveBlackjack
  split_ifs <;> rfl

theorem resolveBlackjack_outcome (g : BlackjackGame) (p d : Nat) :
    (g.resolveBlackjack p d).outcome =
      if p = 21 ∧ d = 21 then some Outcome.push
      else if p = 21 then some Outcome.blackjack
      else if d = 21 then some Outcome.dealer_blackjack
      else none := by
  unfold BlackjackGame.resolveBlackjack Step.outcome
  split_ifs <;> rfl

theorem resolveBlackjack_returns (g : BlackjackGame) (p d : Nat) :
    ∃ snap, (g.resolveBlackjack p d).2 = Except.ok snap := ⟨_, rfl⟩

/-- On a non-empty shoe `draw` pops the last card and touches nothing else. -/
theorem Deck.draw_concat (rest : List Card) (c : Card) (rnd : List Nat) :
    (Deck.mk (rest ++ [c])).draw rnd = (c, Deck.mk rest, rnd) := by
  simp [Deck.draw]

theorem Deck.drawMany_concat (rest : List Card) (c1 c2 c3 c4 : Card) (rnd : List Nat) :
    Deck.drawMany 4 (Deck.mk (rest ++ [c4, c3, c2, c1])) rnd
      = ([c1, c2, c3, c4], Deck.mk rest, rnd) := by
  have e1 : rest ++ [c4, c3, c2, c1] = (rest ++ [c4, c3, c2]) ++ [c1] := by simp
  have e2 : rest ++ [c4, c3, c2] = (rest ++ [c4, c3]) ++ [c2] := by simp
  have e3 : rest ++ [c4, c3] = (rest ++ [c4]) ++ [c3] := by simp
  simp only [Deck.drawMany]
  rw [e1, Deck.draw_concat]
  simp only []
  rw [e2, Deck.draw_concat]
  simp only []
  rw [e3, Deck.draw_concat]
  simp only []
  rw [Deck.draw_concat]

/-- The state in which `startNewHand` takes the totals, in terms of four successive draws. -/
theorem dealInitial_eq (g : BlackjackGame) (b : Int) :
    g.dealInitial b =
      { g with currentBet := b, currency := binary64 (g.currency - b), playerHands := none,
               currentHandIndex := 0, gameStatus := GameStatus.playing,
               playerHand := (Deck.drawMany 4 g.deck g.random).1.take 2,
               dealerHand := (Deck.drawMany 4 g.deck g.random).1.drop 2,
               deck := (Deck.drawMany 4 g.deck g.random).2.1,
               random := (Deck.drawMany 4 g.deck g.random).2.2 } := by
  simp only [BlackjackGame.dealInitial, Deck.drawMany, BlackjackGame.draw]
  rfl

/-- The state in which `startNewHand` takes the totals, on a shoe of at least four cards. -/
theorem dealInitial_concat (g : BlackjackGame) (b : Int) (rest : List Card)
    (c1 c2 c3 c4 : Card) (h : g.deck.cards = rest ++ [c4, c3, c2, c1]) :
    g.dealInitial b =
      { g with currentBet := b, currency := binary64 (g.currency - b), playerHands := none,
               currentHandIndex := 0, gameStatus := GameStatus.playing,
               playerHand := [c1, c2], dealerHand := [c3, c4], deck := Deck.mk rest } := by
  have hd : g.deck = Deck.mk (rest ++ [c4, c3, c2, c1]) := by
    cases hg : g.deck; simp_all
  rw [dealInitial_eq, hd, Deck.drawMany_concat]
  rfl

theorem dealInitial_frame (g : BlackjackGame) (b : Int) :
    (g.dealInitial b).currency = binary64 (g.currency - b) ∧
    (g.dealInitial b).currentBet = b ∧
    (g.dealInitial b).gameStatus = GameStatus.playing ∧
    (g.dealInitial b).playerHands = none ∧
    (g.dealInitial b).currentHandIndex = 0 ∧
    (g.dealInitial b).splitCount = g.splitCount ∧
    (g.dealInitial b).playerHand.length = 2 ∧
    (g.dealInitial b).dealerHand.length = 2 :=
  ⟨rfl, rfl, rfl, rfl, rfl, rfl, rfl, rfl⟩

/-- The state left by a successful `startNewHand`: the dealt state, with the status and the
bankroll settled by the blackjack check. -/
theorem startNewHand_fst (g : BlackjackGame) (b : Int) (hpos : 0 < b) (hle : b ≤ g.currency) :
    (g.startNewHand b).1 =
      { g.dealInitial b with
        gameStatus :=
          if calculateHand (g.dealInitial b).playerHand = 21 ∨
              calculateHand (g.dealInitial b).dealerHand = 21
          then GameStatus.complete else GameStatus.playing
        currency :=
          if calculateHand (g.dealInitial b).playerHand = 21 ∧
              calculateHand (g.dealInitial b).dealerHand = 21
          then binary64 (binary64 (g.currency - b) + b)
          else if calculateHand (g.dealInitial b).playerHand = 21
          then binary64 (binary64 (g.currency - b) + blackjackPayout b)
          else binary64 (g.currency - b) } := by
  obtain ⟨hc, hb, hs, -⟩ := dealInitial_frame g b
  rw [startNewHand_eq g b hpos hle]
  generalize g.dealInitial b = g4 at hc hb hs ⊢
  rcases g4 with ⟨cur, dk, ph, dh, cb, st, phs, idx, sc, rd⟩
  simp only at hc hb hs
  subst hc hb hs
  by_cases hP : calculateHand ph = 21 <;>
    by_cases hD : calculateHand dh = 21 <;>
    simp [hP, hD, resolveBlackjack_fst]

theorem startNewHand_outcome (g : BlackjackGame) (b : Int) (hpos : 0 < b)
    (hle : b ≤ g.currency) :
    (g.startNewHand b).outcome =
      if calculateHand (g.dealInitial b).playerHand = 21 ∧
          calculateHand (g.dealInitial b).dealerHand = 21 then some Outcome.push
      else if calculateHand (g.dealInitial b).playerHand = 21 then some Outcome.blackjack
      else if calculateHand (g.dealInitial b).dealerHand = 21 then
        some Outcome.dealer_blackjack
      else none := by
  rw [startNewHand_eq g b hpos hle]
  by_cases hP : calculateHand (g.dealInitial b).playerHand = 21 <;>
    by_cases hD : calculateHand (g.dealInitial b).dealerHand = 21 <;>
    first
      | (simp [hP, hD, resolveBlackjack_outcome]; done)
      | (simp [hP, hD, resolveBlackjack_outcome]; rfl)

theorem startNewHand_returns (g : BlackjackGame) (b : Int) (hpos : 0 < b)
    (hle : b ≤ g.currency) :
    ∃ snap, (g.startNewHand b).2 = Except.ok snap := by
  rw [startNewHand_eq g b hpos hle]
  split_ifs
  · exact resolveBlackjack_returns _ _ _
  · exact ⟨_, rfl⟩

/-! ## Playing a hand: lemmas -/

theorem hit_frame (g : BlackjackGame) :
    g.hit.1.currency = g.currency ∧ g.hit.1.currentBet = g.currentBet ∧
    g.hit.1.splitCount = g.splitCount ∧ g.hit.1.dealerHand = g.dealerHand := by
  unfold BlackjackGame.hit
  split_ifs
  · exact ⟨rfl, rfl, rfl, rfl⟩
  · split
    · split
      · exact ⟨rfl, rfl, rfl, rfl⟩
      · simp only []
        split_ifs <;> exact ⟨rfl, rfl, rfl, rfl⟩
    · simp only []
      split_ifs
      · exact ⟨rfl, rfl, rfl, rfl⟩
      · split <;> exact ⟨rfl, rfl, rfl, rfl⟩

theorem stand_frame (g : BlackjackGame) :
    g.stand.1.currency = g.currency ∧ g.stand.1.currentBet = g.currentBet ∧
    g.stand.1.splitCount = g.splitCount ∧ g.stand.1.dealerHand = g.dealerHand ∧
    g.stand.1.playerHand = g.playerHand ∧ g.stand.1.playerHands = g.playerHands ∧
    g.stand.1.deck = g.deck ∧ g.stand.1.random = g.random := by
  unfold BlackjackGame.stand BlackjackGame.standInternal
  split
  · simp only []
    split_ifs <;> exact ⟨rfl, rfl, rfl, rfl, rfl, rfl, rfl, rfl⟩
  · exact ⟨rfl, rfl, rfl, rfl, rfl, rfl, rfl, rfl⟩

theorem doubleDown_stake (g : BlackjackGame) :
    g.doubleDown.1.currency + g.doubleDown.1.currentBet = g.currency + g.currentBet := by
  have hs := fun x : BlackjackGame => (stand_frame x).1
  have hb := fun x : BlackjackGame => (stand_frame x).2.1
  unfold BlackjackGame.doubleDown
  split_ifs
  · rfl
  · rfl
  · simp only []
    split
    · split
      · simp only []; omega
      · split_ifs
        · simp only [BlackjackGame.draw]; omega
        · rw [hs, hb]
          simp only [BlackjackGame.draw]; omega
    · split_ifs
      · simp only [BlackjackGame.draw]; omega
      · rw [hs, hb]
        simp only [BlackjackGame.draw]; omega

theorem perform_stake (g : BlackjackGame) (a : Action) (ha : a.playsSingleHand = true) :
    (g.perform a).currency + (g.perform a).currentBet = g.currency + g.currentBet := by
  cases a <;> simp [Action.playsSingleHand] at ha
  · simp only [BlackjackGame.perform]
    rw [(hit_frame g).1, (hit_frame g).2.1]
  · simp only [BlackjackGame.perform]
    rw [(stand_frame g).1, (stand_frame g).2.1]
  · exact doubleDown_stake g
  · rfl

theorem run_stake (acts : List Action) :
    ∀ g : BlackjackGame, (∀ a ∈ acts, a.playsSingleHand = true) →
      (g.run acts).currency + (g.run acts).currentBet = g.currency + g.currentBet := by
  induction acts with
  | nil => intro g _; rfl
  | cons a as ih =>
    intro g h
    have h1 := perform_stake g a (h a (List.mem_cons_self a as))
    have h2 := ih (g.perform a) (fun x hx => h x (List.mem_cons_of_mem a hx))
    simp only [BlackjackGame.run, List.foldl_cons] at h2 ⊢
    omega

theorem finalizeDealerTurn_fst (g : BlackjackGame) :
    g.finalizeDealerTurn.1 =
      { g with
        gameStatus := GameStatus.complete
        currency :=
          if calculateHand g.dealerHand > 21 then
            binary64 (g.currency + binary64 (g.currentBet * 2))
          else if calculateHand g.dealerHand > calculateHand g.playerHand then g.currency
          else if calculateHand g.playerHand > calculateHand g.dealerHand then
            binary64 (g.currency + binary64 (g.currentBet * 2))
          else binary64 (g.currency + g.currentBet) } := by
  unfold BlackjackGame.finalizeDealerTurn
  simp only []
  split_ifs <;> rfl

theorem finalizeDealerTurn_outcome (g : BlackjackGame) :
    g.finalizeDealerTurn.outcome =
      some (if calculateHand g.dealerHand > 21 then Outcome.dealer_bust
        else if calculateHand g.dealerHand > calculateHand g.playerHand then Outcome.dealer_wins
        else if calculateHand g.playerHand > calculateHand g.dealerHand then Outcome.player_wins
        else Outcome.push) := by
  unfold BlackjackGame.finalizeDealerTurn Step.outcome
  simp only []
  split_ifs <;> rfl

theorem hit_not_playing (g : BlackjackGame) (hs : g.gameStatus ≠ GameStatus.playing) :
    g.hit = (g, Except.error GameError.notYourTurn) := by
  unfold BlackjackGame.hit
  rw [if_pos hs]

/-- The state after `hit` on an unsplit hand. -/
theorem hit_single_fst (g : BlackjackGame) (hs : g.gameStatus = GameStatus.playing)
    (hn : g.playerHands = none) :
    g.hit.1 =
      { g with
        deck := g.draw.2.deck
        random := g.draw.2.random
        playerHand := g.playerHand ++ [g.draw.1]
        gameStatus :=
          if calculateHand (g.playerHand ++ [g.draw.1]) > 21 then GameStatus.complete
          else GameStatus.playing } := by
  rcases g with ⟨cur, dk, ph, dh, cb, st, phs, idx, sc, rd⟩
  simp only at hs hn
  subst hs hn
  unfold BlackjackGame.hit
  simp only [ne_eq, not_true_eq_false, if_false]
  by_cases h : calculateHand (ph ++ [(Deck.draw dk rd).1]) > 21
  · simp [BlackjackGame.draw, h]
  · cases dh <;> simp [BlackjackGame.draw, h]

theorem hit_single_outcome (g : BlackjackGame) (hs : g.gameStatus = GameStatus.playing)
    (hn : g.playerHands = none) (hb : 21 < calculateHand (g.playerHand ++ [g.draw.1])) :
    g.hit.outcome = some Outcome.bust := by
  rcases g with ⟨cur, dk, ph, dh, cb, st, phs, idx, sc, rd⟩
  simp only at hs hn
  subst hs hn
  unfold BlackjackGame.hit Step.outcome
  simp only [ne_eq, not_true_eq_false, if_false]
  simp only [BlackjackGame.draw] at hb
  simp [BlackjackGame.draw, hb]

theorem hit_single_returns (g : BlackjackGame) (hs : g.gameStatus = GameStatus.playing)
    (hn : g.playerHands = none) (hd : g.dealerHand ≠ []) :
    ∃ snap, g.hit.2 = Except.ok snap := by
  rcases g with ⟨cur, dk, ph, dh, cb, st, phs, idx, sc, rd⟩
  simp only at hs hn hd
  subst hs hn
  unfold BlackjackGame.hit
  simp only [ne_eq, not_true_eq_false, if_false]
  by_cases h : calculateHand (ph ++ [(Deck.draw dk rd).1]) > 21
  · simp [BlackjackGame.draw, h]
  · cases dh with
    | nil => exact absurd rfl hd
    | cons a as => simp [BlackjackGame.draw, h]

/-- The state after `hit` on a split hand. -/
theorem hit_split_fst (g : BlackjackGame) (hs : g.gameStatus = GameStatus.playing)
    (hands : List (List Card)) (hand : List Card) (hh : g.playerHands = some hands)
    (hi : hands[g.currentHandIndex]? = some hand) :
    g.hit.1 =
      { g with
        deck := g.draw.2.deck
        random := g.draw.2.random
        playerHands := some (hands.set g.currentHandIndex (hand ++ [g.draw.1]))
        currentHandIndex :=
          if calculateHand (hand ++ [g.draw.1]) > 21 ∧ g.currentHandIndex < hands.length - 1
          then g.currentHandIndex + 1 else g.currentHandIndex
        gameStatus :=
          if calculateHand (hand ++ [g.draw.1]) > 21 ∧ ¬ g.currentHandIndex < hands.length - 1
          then GameStatus.complete else GameStatus.playing } := by
  rcases g with ⟨cur, dk, ph, dh, cb, st, phs, idx, sc, rd⟩
  simp only at hs hh hi
  subst hs hh
  unfold BlackjackGame.hit
  simp only [ne_eq, not_true_eq_false, if_false, hi]
  by_cases h : calculateHand (hand ++ [(Deck.draw dk rd).1]) > 21 <;>
    by_cases h2 : idx < hands.length - 1 <;>
    simp [BlackjackGame.draw, h, h2]

theorem hit_split_outcome (g : BlackjackGame) (hs : g.gameStatus = GameStatus.playing)
    (hands : List (List Card)) (hand : List Card) (hh : g.playerHands = some hands)
    (hi : hands[g.currentHandIndex]? = some hand)
    (hb : 21 < calculateHand (hand ++ [g.draw.1])) :
    g.hit.outcome = some Outcome.bust := by
  rcases g with ⟨cur, dk, ph, dh, cb, st, phs, idx, sc, rd⟩
  simp only at hs hh hi
  subst hs hh
  unfold BlackjackGame.hit Step.outcome
  simp only [ne_eq, not_true_eq_false, if_false, hi]
  simp only [BlackjackGame.draw] at hb
  by_cases h2 : idx < hands.length - 1 <;> simp [BlackjackGame.draw, hb, h2]

theorem hit_split_returns (g : BlackjackGame) (hs : g.gameStatus = GameStatus.playing)
    (hands : List (List Card)) (hand : List Card) (hh : g.playerHands = some hands)
    (hi : hands[g.currentHandIndex]? = some hand) :
    ∃ snap, g.hit.2 = Except.ok snap := by
  rcases g with ⟨cur, dk, ph, dh, cb, st, phs, idx, sc, rd⟩
  simp only at hs hh hi
  subst hs hh
  unfold BlackjackGame.hit
  simp only [ne_eq, not_true_eq_false, if_false, hi]
  by_cases h : calculateHand (hand ++ [(Deck.draw dk rd).1]) > 21 <;>
    by_cases h2 : idx < hands.length - 1 <;>
    simp [BlackjackGame.draw, h, h2]

theorem hit_playing_thrown (g : BlackjackGame) (hs : g.gameStatus = GameStatus.playing) :
    g.hit.thrown = none ∨ g.hit.thrown = some GameError.typeError := by
  rcases g with ⟨cur, dk, ph, dh, cb, st, phs, idx, sc, rd⟩
  simp only at hs
  subst hs
  unfold BlackjackGame.hit Step.thrown
  simp only [ne_eq, not_true_eq_false, if_false]
  cases phs with
  | none =>
    simp only []
    split_ifs
    · simp
    · cases dh <;> simp [BlackjackGame.draw]
  | some hands =>
    simp only []
    cases hi : hands[idx]? with
    | none => simp
    | some hand =>
      simp only []
      split_ifs <;> simp

/-- The object returned by `hit` while the status stays `playing` does not depend on the
dealer's second card. -/
theorem hit_hides_hole_card (g : BlackjackGame) (up c c' : Card)
    (hplay : (BlackjackGame.hit { g with dealerHand := [up, c] }).1.gameStatus
      = GameStatus.playing) :
    (BlackjackGame.hit { g with dealerHand := [up, c'] }).1.gameStatus = GameStatus.playing ∧
    (BlackjackGame.hit { g with dealerHand := [up, c] }).returned
      = (BlackjackGame.hit { g with dealerHand := [up, c'] }).returned := by
  rcases g with ⟨cur, dk, ph, dh, cb, st, phs, idx, sc, rd⟩
  revert hplay
  unfold BlackjackGame.hit Step.returned
  simp only []
  by_cases hs : st = GameStatus.playing
  · subst hs
    simp only [ne_eq, not_true_eq_false, if_false]
    cases phs with
    | none =>
      simp only []
      by_cases h : calculateHand (ph ++ [(Deck.draw dk rd).1]) > 21
      · simp [BlackjackGame.draw, h]
      · simp [BlackjackGame.draw, h, hiddenDealerHand]
    | some hands =>
      simp only []
      cases hi : hands[idx]? with
      | none => simp
      | some hand =>
        by_cases h : calculateHand (hand ++ [(Deck.draw dk rd).1]) > 21 <;>
          by_cases h2 : idx < hands.length - 1 <;>
          simp [BlackjackGame.draw, h, h2, hiddenDealerHand]
  · simp [hs]

/-! ## Splitting: lemmas -/

theorem splice2_getElem (hands : List (List Card)) (i : Nat) (a b : List Card)
    (hi : i ≤ hands.length) :
    (splice2 hands i a b)[i]? = some a ∧ (splice2 hands i a b)[i + 1]? = some b := by
  unfold splice2
  have hl : (hands.take i).length = i := by simp [hi]
  constructor
  · rw [List.append_assoc, List.getElem?_append_right (by omega)]
    simp [hl]
  · rw [List.append_assoc, List.getElem?_append_right (by omega)]
    simp [hl]

theorem splice2_set (hands : List (List Card)) (i : Nat) (a b a' b' : List Card)
    (hi : i ≤ hands.length) :
    ((splice2 hands i a b).set i a').set (i + 1) b' = splice2 hands i a' b' := by
  unfold splice2
  have hl : (hands.take i).length = i := by simp [hi]
  rw [List.append_assoc, List.append_assoc]
  rw [List.set_append_right _ _ (by omega), List.set_append_right _ _ (by omega)]
  simp [hl]

theorem isPair_iff (hand : List Card) :
    isPair hand = true ↔
      ∃ c0 c1, hand = [c0, c1] ∧ c0.getBlackjackValue = c1.getBlackjackValue := by
  match hand with
  | [] => simp [isPair]
  | [a] => simp [isPair]
  | [a, b] =>
    simp only [isPair, beq_iff_eq]
    constructor
    · intro h; exact ⟨a, b, rfl, h⟩
    · rintro ⟨c0, c1, he, h⟩
      simp only [List.cons.injEq, and_true] at he
      rw [he.1, he.2]; exact h
  | a :: b :: c :: rest => simp [isPair]

theorem handToSplit_index (g : BlackjackGame) (hand : List Card)
    (h : g.handToSplit = some hand) (hands : List (List Card)) (hh : g.playerHands = some hands) :
    g.currentHandIndex < hands.length ∧ hands[g.currentHandIndex]? = some hand := by
  unfold BlackjackGame.handToSplit at h
  rw [hh] at h
  simp only at h
  refine ⟨?_, h⟩
  by_contra hc
  rw [List.getElem?_eq_none (by omega)] at h
  exact absurd h (by simp)

/-- The state after a successful `splitHand`. -/
theorem splitHand_fst (g : BlackjackGame) (c1 c2 : Card)
    (hcount : g.splitCount < 3) (hplay : g.gameStatus = GameStatus.playing)
    (hactive : g.handToSplit = some [c1, c2])
    (hpair : c1.getBlackjackValue = c2.getBlackjackValue)
    (hfunds : g.currentBet ≤ g.currency)
    (hidx : g.playerHands = none → g.currentHandIndex = 0) :
    g.splitHand.1 =
      { g with
        currency := g.currency - g.currentBet
        playerHands := some
          (splice2 g.handList g.currentHandIndex [c1, g.draw.1] [c2, g.draw.2.draw.1])
        splitCount := g.splitCount + 1
        deck := g.draw.2.draw.2.deck
        random := g.draw.2.draw.2.random } ∧
    ∃ snap, g.splitHand.2 = Except.ok snap := by
  have h1 : ¬ g.splitCount ≥ 3 := by omega
  have h2 : ¬ g.gameStatus ≠ GameStatus.playing := by simp [hplay]
  have h3 : ¬ c1.getBlackjackValue ≠ c2.getBlackjackValue := by simp [hpair]
  have h4 : ¬ g.currency < g.currentBet := by omega
  unfold BlackjackGame.splitHand
  rw [if_neg h1, if_neg h2]
  simp only [hactive, if_neg h3, if_neg h4]
  cases hph : g.playerHands with
  | none =>
    have h0 := hidx hph
    simp [h0, BlackjackGame.handList, hph, splice2, BlackjackGame.draw]
  | some hands =>
    obtain ⟨hlt, hget⟩ := handToSplit_index g [c1, c2] hactive hands hph
    have hs := splice2_getElem hands g.currentHandIndex [c1] [c2] (by omega)
    have hs2 : ∀ a', ((splice2 hands g.currentHandIndex [c1] [c2]).set g.currentHandIndex
        a')[g.currentHandIndex + 1]? = some [c2] := by
      intro a'
      rw [List.getElem?_set_ne (by omega)]
      exact hs.2
    have hset := fun a' b' =>
      splice2_set hands g.currentHandIndex [c1] [c2] a' b' (by omega)
    simp only [hs.1, BlackjackGame.draw, hs2, hset, BlackjackGame.handList, hph]
    simp

theorem splitHand_limit (g : BlackjackGame) (h : 3 ≤ g.splitCount) :
    g.splitHand = (g, Except.error GameError.splitLimitReached) := by
  unfold BlackjackGame.splitHand
  rw [if_pos h]

theorem splitHand_not_playing (g : BlackjackGame) (hc : g.splitCount < 3)
    (h : g.gameStatus ≠ GameStatus.playing) :
    g.splitHand = (g, Except.error GameError.notYourTurn) := by
  have h1 : ¬ g.splitCount ≥ 3 := by omega
  unfold BlackjackGame.splitHand
  rw [if_neg h1, if_pos h]

theorem splitHand_not_pair (g : BlackjackGame) (hand : List Card) (hc : g.splitCount < 3)
    (hs : g.gameStatus = GameStatus.playing) (hactive : g.handToSplit = some hand)
    (hp : isPair hand = false) :
    g.splitHand = (g, Except.error GameError.notAPair) := by
  have h1 : ¬ g.splitCount ≥ 3 := by omega
  have h2 : ¬ g.gameStatus ≠ GameStatus.playing := by simp [hs]
  unfold BlackjackGame.splitHand
  rw [if_neg h1, if_neg h2]
  simp only [hactive]
  match hand, hp with
  | [], _ => rfl
  | [a], _ => rfl
  | [a, b], hp =>
    have h3 : a.getBlackjackValue ≠ b.getBlackjackValue := by
      simpa [isPair] using hp
    simp only [if_pos h3]
  | a :: b :: c :: rest, _ => rfl

theorem splitHand_no_funds (g : BlackjackGame) (hand : List Card) (hc : g.splitCount < 3)
    (hs : g.gameStatus = GameStatus.playing) (hactive : g.handToSplit = some hand)
    (hp : isPair hand = true) (hf : g.currency < g.currentBet) :
    g.splitHand = (g, Except.error GameError.insufficientFunds) := by
  have h1 : ¬ g.splitCount ≥ 3 := by omega
  have h2 : ¬ g.gameStatus ≠ GameStatus.playing := by simp [hs]
  obtain ⟨c0, c1, rfl, hv⟩ := (isPair_iff hand).1 hp
  have h3 : ¬ c0.getBlackjackValue ≠ c1.getBlackjackValue := by simp [hv]
  unfold BlackjackGame.splitHand
  rw [if_neg h1, if_neg h2]
  simp only [hactive, if_neg h3, if_pos hf]

/-! ## The shoe: lemmas -/

theorem swapCards_perm (cards : List Card) (i j : Nat) : (swapCards cards i j).Perm cards := by
  unfold swapCards
  cases hi : cards[i]? with
  | none => simp
  | some a =>
    cases hj : cards[j]? with
    | none => simp
    | some b =>
      simp only []
      obtain ⟨hil, hia⟩ := List.getElem?_eq_some_iff.1 hi
      obtain ⟨hjl, hjb⟩ := List.getElem?_eq_some_iff.1 hj
      rw [List.perm_iff_count]
      intro x
      have hjl' : j < (cards.set i b).length := by simpa using hjl
      have hb' : (cards.set i b)[j] = b := by
        rw [List.getElem_set]
        split_ifs with h
        · rfl
        · exact hjb
      rw [List.count_set _ _ _ _ hjl', hb', List.count_set _ _ _ _ hil, hia]
      have hmem : a ∈ cards := hia ▸ List.getElem_mem hil
      have hpos : (a == x) = true → 0 < cards.count x := by
        intro h
        have hax : a = x := by simpa using h
        exact List.count_pos_iff.2 (hax ▸ hmem)
      by_cases h1 : (a == x) = true <;> by_cases h2 : (b == x) = true
      · have := hpos h1; simp only [h1, h2, if_true]; omega
      · have := hpos h1; simp only [h1, h2, if_true]; simp; omega
      · simp only [h1, h2, if_true]; simp
      · simp only [h1, h2]; simp

theorem shuffleFrom_perm : ∀ (i : Nat) (cards : List Card) (rnd : List Nat),
    (shuffleFrom i cards rnd).1.Perm cards := by
  intro i
  induction i with
  | zero => intro cards rnd; exact List.Perm.refl _
  | succ i ih =>
    intro cards rnd
    simp only [shuffleFrom]
    exact (ih _ _).trans (swapCards_perm _ _ _)

theorem shuffle_perm (d : Deck) (rnd : List Nat) : (d.shuffle rnd).1.cards.Perm d.cards :=
  shuffleFrom_perm _ _ _

theorem reset_perm (rnd : List Nat) : (Deck.reset rnd).1.cards.Perm freshCards :=
  shuffle_perm _ _

theorem freshCards_length : freshCards.length = 52 := by decide

theorem freshCards_nodup : freshCards.Nodup := by decide

theorem freshCards_rank : ∀ c ∈ freshCards, 1 ≤ c.value ∧ c.value ≤ 13 := by decide

theorem freshCards_mem (v : Nat) (s : Suit) (h1 : 1 ≤ v) (h13 : v ≤ 13) :
    Card.mk v s ∈ freshCards := by
  cases s <;> interval_cases v <;> decide

theorem reset_length (rnd : List Nat) : (Deck.reset rnd).1.cards.length = 52 := by
  rw [(reset_perm rnd).length_eq, freshCards_length]

theorem dropLast_concat_getLastD (l : List Card) (h : l ≠ []) :
    l.dropLast ++ [l.getLastD default] = l := by
  rcases List.eq_nil_or_concat l with h' | ⟨rest, c, rfl⟩
  · exact absurd h' h
  · simp

theorem draw_of_ne_nil (d : Deck) (rnd : List Nat) (h : d.cards ≠ []) :
    (d.draw rnd).2.1.cards ++ [(d.draw rnd).1] = d.cards ∧ (d.draw rnd).2.2 = rnd := by
  have hl : ¬ d.cards.length = 0 := by
    intro h0; exact h (List.length_eq_zero.1 h0)
  unfold Deck.draw
  simp only [hl, if_false]
  exact ⟨dropLast_concat_getLastD _ h, trivial⟩

theorem draw_of_nil (d : Deck) (rnd : List Nat) (h : d.cards = []) :
    (d.draw rnd).2.1.cards ++ [(d.draw rnd).1] = (Deck.reset rnd).1.cards ∧
    (d.draw rnd).2.2 = (Deck.reset rnd).2 ∧
    (d.draw rnd).2.1.cards.length = 51 := by
  have hl : d.cards.length = 0 := by rw [h]; rfl
  have h52 := reset_length rnd
  have hne : (Deck.reset rnd).1.cards ≠ [] := by
    intro h0; rw [h0] at h52; simp at h52
  unfold Deck.draw
  simp only [hl, if_true]
  refine ⟨dropLast_concat_getLastD _ hne, trivial, ?_⟩
  simp [h52]

/-! ## Double down and stand: lemmas -/

theorem doubleDown_no_funds (g : BlackjackGame) (h : g.currency < g.currentBet) :
    g.doubleDown = (g, Except.error GameError.insufficientFunds) := by
  unfold BlackjackGame.doubleDown
  rw [if_pos h]

theorem doubleDown_not_playing (g : BlackjackGame) (hf : g.currentBet ≤ g.currency)
    (hs : g.gameStatus ≠ GameStatus.playing) :
    g.doubleDown = (g, Except.error GameError.notYourTurn) := by
  have h1 : ¬ g.currency < g.currentBet := by omega
  unfold BlackjackGame.doubleDown
  rw [if_neg h1, if_pos hs]

/-- The state after `stand`. -/
theorem stand_fst (g : BlackjackGame) :
    g.stand.1 =
      { g with
        currentHandIndex :=
          match g.playerHands with
          | some hands =>
            if g.currentHandIndex < hands.length - 1 then g.currentHandIndex + 1
            else g.currentHandIndex
          | none => g.currentHandIndex
        gameStatus :=
          match g.playerHands with
          | some hands =>
            if g.currentHandIndex < hands.length - 1 then g.gameStatus
            else GameStatus.dealer_turn
          | none => GameStatus.dealer_turn } := by
  unfold BlackjackGame.stand BlackjackGame.standInternal
  cases hph : g.playerHands with
  | none => rfl
  | some hands =>
    simp only []
    split_ifs <;> rfl

theorem stand_returns (g : BlackjackGame) : ∃ snap, g.stand.2 = Except.ok snap := by
  unfold BlackjackGame.stand BlackjackGame.standInternal
  cases hph : g.playerHands with
  | none => exact ⟨_, rfl⟩
  | some hands =>
    simp only []
    split_ifs <;> exact ⟨_, rfl⟩

/-- The state in which a successful `doubleDown` on an unsplit hand takes the total. -/
theorem doubleDown_single (g : BlackjackGame) (hs : g.gameStatus = GameStatus.playing)
    (hf : g.currentBet ≤ g.currency) (hn : g.playerHands = none) :
    g.doubleDown =
      if calculateHand (g.playerHand ++ [g.draw.1]) > 21 then
        ({ g with
            currency := g.currency - g.currentBet
            currentBet := g.currentBet * 2
            deck := g.draw.2.deck
            random := g.draw.2.random
            playerHand := g.playerHand ++ [g.draw.1]
            gameStatus := GameStatus.complete },
          Except.ok
            { result := some Outcome.bust
              playerHand := some (g.playerHand ++ [g.draw.1])
              dealerHand := some (g.dealerHand.map some)
              playerTotal := some (calculateHand (g.playerHand ++ [g.draw.1]))
              dealerTotal := some (calculateHand g.dealerHand) })
      else
        BlackjackGame.stand
          { g with
            currency := g.currency - g.currentBet
            currentBet := g.currentBet * 2
            deck := g.draw.2.deck
            random := g.draw.2.random
            playerHand := g.playerHand ++ [g.draw.1] } := by
  rcases g with ⟨cur, dk, ph, dh, cb, st, phs, idx, sc, rd⟩
  simp only at hs hf hn
  subst hs hn
  have h1 : ¬ cur < cb := by omega
  unfold BlackjackGame.doubleDown
  simp only [h1, ne_eq, not_true_eq_false, if_false]
  by_cases h : calculateHand (ph ++ [(Deck.draw dk rd).1]) > 21
  · simp [BlackjackGame.draw, h]
  · simp [BlackjackGame.draw, h]

/-- The state in which a successful `doubleDown` on a split hand takes the total. -/
theorem doubleDown_split (g : BlackjackGame) (hs : g.gameStatus = GameStatus.playing)
    (hf : g.currentBet ≤ g.currency)
    (hands : List (List Card)) (hand : List Card) (hh : g.playerHands = some hands)
    (hi : hands[g.currentHandIndex]? = some hand) :
    g.doubleDown =
      if calculateHand (hand ++ [g.draw.1]) > 21 then
        ({ g with
            currency := g.currency - g.currentBet
            currentBet := g.currentBet * 2
            deck := g.draw.2.deck
            random := g.draw.2.random
            playerHands := some (hands.set g.currentHandIndex (hand ++ [g.draw.1]))
            gameStatus := GameStatus.complete },
          Except.ok
            { result := some Outcome.bust
              bustedHand := some (hand ++ [g.draw.1])
              dealerHand := some (g.dealerHand.map some)
              playerHands := some (hands.set g.currentHandIndex (hand ++ [g.draw.1]))
              playerTotal := some (calculateHand (hand ++ [g.draw.1])) })
      else
        BlackjackGame.stand
          { g with
            currency := g.currency - g.currentBet
            currentBet := g.currentBet * 2
            deck := g.draw.2.deck
            random := g.draw.2.random
            playerHands := some (hands.set g.currentHandIndex (hand ++ [g.draw.1])) } := by
  rcases g with ⟨cur, dk, ph, dh, cb, st, phs, idx, sc, rd⟩
  simp only at hs hf hh hi
  subst hs hh
  have h1 : ¬ cur < cb := by omega
  unfold BlackjackGame.doubleDown
  simp only [h1, ne_eq, not_true_eq_false, if_false, hi]
  by_cases h : calculateHand (hand ++ [(Deck.draw dk rd).1]) > 21
  · simp [BlackjackGame.draw, h]
  · simp [BlackjackGame.draw, h]

theorem doubleDown_debit (g : BlackjackGame) (hs : g.gameStatus = GameStatus.playing)
    (hf : g.currentBet ≤ g.currency) :
    g.doubleDown.1.currency = g.currency - g.currentBet ∧
    g.doubleDown.1.currentBet = g.currentBet * 2 := by
  have h1 : ¬ g.currency < g.currentBet := by omega
  have h2 : ¬ g.gameStatus ≠ GameStatus.playing := by simp [hs]
  have hc := fun x : BlackjackGame => (stand_frame x).1
  have hb := fun x : BlackjackGame => (stand_frame x).2.1
  unfold BlackjackGame.doubleDown
  rw [if_neg h1, if_neg h2]
  simp only []
  split
  · split
    · exact ⟨rfl, rfl⟩
    · split_ifs
      · exact ⟨rfl, rfl⟩
      · rw [hc, hb]; exact ⟨rfl, rfl⟩
  · split_ifs
    · exact ⟨rfl, rfl⟩
    · rw [hc, hb]; exact ⟨rfl, rfl⟩

/-! ## The dealer's loop: lemmas -/

theorem calculateHand_bounds (hand : List Card) :
    hardSum hand ≤ calculateHand hand ∧
    (calculateHand hand ≤ 21 ∨ calculateHand hand = hardSum hand) := by
  have hcalc : calculateHand hand
      = softenAces (hardSum hand + 10 * aceCount hand) (aceCount hand) := by
    simp [calculateHand, sumHand_eq]
  obtain ⟨k, _, hr, hbig, hsmall⟩ := softenAces_spec (hardSum hand) (aceCount hand)
  rw [← hcalc] at hr
  refine ⟨by omega, ?_⟩
  by_cases hh : hardSum hand ≤ 21
  · left; have := (hsmall hh).1; omega
  · right; have := hbig (by omega); rw [hr, this]; rfl

theorem hardSum_concat (hand : List Card) (c : Card) :
    hardSum (hand ++ [c]) = hardSum hand + hardValue c := by
  simp [hardSum]

theorem hardValue_bounds (c : Card) : hardValue c ≤ 10 ∧ (1 ≤ c.value → 1 ≤ hardValue c) := by
  unfold hardValue
  split_ifs <;> constructor <;> intros <;> omega

theorem game_draw_valid (g : BlackjackGame) (hdeck : ∀ c ∈ g.deck.cards, 1 ≤ c.value) :
    1 ≤ g.draw.1.value ∧ ∀ c ∈ g.draw.2.deck.cards, 1 ≤ c.value := by
  have hshow : g.draw.1 = (g.deck.draw g.random).1 ∧
      g.draw.2.deck = (g.deck.draw g.random).2.1 := ⟨rfl, rfl⟩
  rw [hshow.1, hshow.2]
  by_cases h : g.deck.cards = []
  · have h1 := (draw_of_nil g.deck g.random h).1
    have hall : ∀ c ∈ (g.deck.draw g.random).2.1.cards ++ [(g.deck.draw g.random).1],
        1 ≤ c.value := by
      rw [h1]
      intro c hc
      exact (freshCards_rank c ((reset_perm g.random).mem_iff.1 hc)).1
    exact ⟨hall _ (by simp), fun c hc => hall c (by simp [hc])⟩
  · have h1 := (draw_of_ne_nil g.deck g.random h).1
    have hall : ∀ c ∈ (g.deck.draw g.random).2.1.cards ++ [(g.deck.draw g.random).1],
        1 ≤ c.value := by
      rw [h1]; exact hdeck
    exact ⟨hall _ (by simp), fun c hc => hall c (by simp [hc])⟩

theorem dealerLoop_of_stands (n : Nat) (g : BlackjackGame)
    (h : 17 ≤ calculateHand g.dealerHand) : g.dealerLoop n = some g := by
  have hn : g.dealerNeedsCard = false := by
    simp [BlackjackGame.dealerNeedsCard]; omega
  cases n <;> simp [BlackjackGame.dealerLoop, hn]

theorem dealerLoop_mono : ∀ (n : Nat) (g g' : BlackjackGame),
    g.dealerLoop n = some g' → ∀ m, n ≤ m → g.dealerLoop m = some g' := by
  intro n
  induction n with
  | zero =>
    intro g g' h m _
    by_cases hn : g.dealerNeedsCard = true
    · simp [BlackjackGame.dealerLoop, hn] at h
    · cases m <;> simp_all [BlackjackGame.dealerLoop]
  | succ n ih =>
    intro g g' h m hm
    obtain ⟨m', rfl⟩ : ∃ m', m = m' + 1 := ⟨m - 1, by omega⟩
    by_cases hn : g.dealerNeedsCard = true
    · simp only [BlackjackGame.dealerLoop, hn, if_true] at h ⊢
      exact ih _ _ h m' (by omega)
    · simp_all [BlackjackGame.dealerLoop]

theorem dealerLoop_spec : ∀ (n : Nat) (g : BlackjackGame),
    (∀ c ∈ g.deck.cards, 1 ≤ c.value) →
    17 ≤ hardSum g.dealerHand + n →
    calculateHand g.dealerHand ≤ 26 →
    ∃ g' drawn, g.dealerLoop n = some g' ∧ g'.dealerHand = g.dealerHand ++ drawn ∧
      drawn.length ≤ n ∧ 17 ≤ calculateHand g'.dealerHand ∧
      calculateHand g'.dealerHand ≤ 26 ∧
      (calculateHand g.dealerHand ≤ 16 → 1 ≤ drawn.length) := by
  intro n
  induction n with
  | zero =>
    intro g _ hsum h26
    have hb := (calculateHand_bounds g.dealerHand).1
    have h17 : 17 ≤ calculateHand g.dealerHand := by omega
    exact ⟨g, [], dealerLoop_of_stands 0 g h17, by simp, by simp, h17, h26, fun h => by omega⟩
  | succ n ih =>
    intro g hdeck hsum h26
    by_cases h17 : 17 ≤ calculateHand g.dealerHand
    · exact ⟨g, [], dealerLoop_of_stands _ g h17, by simp, by simp, h17, h26,
        fun h => by omega⟩
    · have hn : g.dealerNeedsCard = true := by
        simp [BlackjackGame.dealerNeedsCard]; omega
      obtain ⟨hc, hdeck'⟩ := game_draw_valid g hdeck
      have hhand : g.dealerDrawOneCard.dealerHand = g.dealerHand ++ [g.draw.1] := rfl
      have hdk : g.dealerDrawOneCard.deck = g.draw.2.deck := rfl
      have hv := hardValue_bounds g.draw.1
      have hlow := (calculateHand_bounds g.dealerHand).1
      have hnew := calculateHand_bounds (g.dealerHand ++ [g.draw.1])
      have hs := hardSum_concat g.dealerHand g.draw.1
      have hv1 := hv.2 hc
      obtain ⟨g', drawn, hloop, hd, hlen, hlo, hhi, _⟩ :=
        ih g.dealerDrawOneCard (by rw [hdk]; exact hdeck')
          (by rw [hhand, hs]; omega)
          (by rw [hhand]; rcases hnew.2 with h | h <;> omega)
      refine ⟨g', g.draw.1 :: drawn, ?_, ?_, ?_, hlo, hhi, fun _ => by simp⟩
      · simp only [BlackjackGame.dealerLoop, hn, if_true]
        exact hloop
      · rw [hd, hhand]; simp
      · simp; omega

/-! ## Invariants: lemmas -/

theorem startNewHand_rejected (g : BlackjackGame) (bet : Int)
    (h : ¬ (0 < bet ∧ bet ≤ g.currency)) : (g.startNewHand bet).1 = g := by
  unfold BlackjackGame.startNewHand
  by_cases h1 : bet ≤ 0
  · rw [if_pos h1]
  · have h2 : bet > g.currency := by
      by_contra hc
      exact h ⟨by omega, by omega⟩
    rw [if_neg h1, if_pos h2]

theorem splitInvariant_iff (g : BlackjackGame) :
    g.splitInvariant ↔
      g.splitCount ≤ 3 ∧ (g.playerHands = none → g.currentHandIndex = 0) ∧
      ∀ hands, g.playerHands = some hands →
        2 ≤ hands.length ∧ hands.length ≤ g.splitCount + 1 ∧
        g.currentHandIndex < hands.length := by
  unfold BlackjackGame.splitInvariant
  cases g.playerHands <;> simp

theorem getElem_of_lt (hands : List (List Card)) (i : Nat) (h : i < hands.length) :
    ∃ hand, hands[i]? = some hand := ⟨hands[i], List.getElem?_eq_getElem h⟩

theorem invariant_startNewHand (g : BlackjackGame) (bet : Int)
    (hi : g.splitInvariant) (hf : g.fundsInvariant) :
    (g.startNewHand bet).1.splitInvariant ∧ (g.startNewHand bet).1.fundsInvariant := by
  by_cases h : 0 < bet ∧ bet ≤ g.currency
  · obtain ⟨hpos, hle⟩ := h
    obtain ⟨-, hb, -, hhs, hidx, hsc, -, -⟩ := dealInitial_frame g bet
    have hd := binary64_nonneg (g.currency - bet) (by omega)
    have hp := blackjackPayout_nonneg bet (by omega)
    have h1 := binary64_nonneg (binary64 (g.currency - bet) + bet) (by omega)
    have h2 := binary64_nonneg (binary64 (g.currency - bet) + blackjackPayout bet) (by omega)
    rw [splitInvariant_iff] at hi ⊢
    rw [startNewHand_fst g bet hpos hle]
    unfold BlackjackGame.fundsInvariant
    refine ⟨⟨by simp only [hsc]; exact hi.1, fun _ => hidx, fun hands hh => ?_⟩, ?_, ?_⟩
    · simp only [hhs] at hh
      exact absurd hh (by simp)
    · simp only
      split_ifs <;> omega
    · simp only [hb]; omega
  · rw [startNewHand_rejected g bet h]
    exact ⟨hi, hf⟩

theorem invariant_hit (g : BlackjackGame) (hi : g.splitInvariant) (hf : g.fundsInvariant) :
    g.hit.1.splitInvariant ∧ g.hit.1.fundsInvariant := by
  refine ⟨?_, ?_⟩
  · by_cases hs : g.gameStatus = GameStatus.playing
    · rw [splitInvariant_iff] at hi ⊢
      cases hph : g.playerHands with
      | none =>
        rw [hit_single_fst g hs hph]
        refine ⟨hi.1, fun _ => hi.2.1 hph, fun hands hh => ?_⟩
        simp only [hph] at hh
        exact absurd hh (by simp)
      | some hands =>
        obtain ⟨h2, hle, hlt⟩ := hi.2.2 hands hph
        obtain ⟨hand, hget⟩ := getElem_of_lt hands g.currentHandIndex hlt
        rw [hit_split_fst g hs hands hand hph hget]
        refine ⟨hi.1, fun hn => by simp at hn, fun hands' hh => ?_⟩
        simp only [Option.some.injEq] at hh
        subst hh
        simp only [List.length_set]
        refine ⟨h2, hle, ?_⟩
        split_ifs with hc
        · omega
        · exact hlt
    · rw [hit_not_playing g hs]; exact hi
  · unfold BlackjackGame.fundsInvariant at hf ⊢
    rw [(hit_frame g).1, (hit_frame g).2.1]; exact hf

theorem splitInvariant_stand (g : BlackjackGame) (hi : g.splitInvariant) :
    g.stand.1.splitInvariant := by
  rw [splitInvariant_iff] at hi ⊢
  rw [stand_fst]
  cases hph : g.playerHands with
  | none =>
    refine ⟨hi.1, fun _ => hi.2.1 hph, fun hands hh => ?_⟩
    simp only [hph] at hh
    exact absurd hh (by simp)
  | some hands =>
    obtain ⟨h2, hle, hlt⟩ := hi.2.2 hands hph
    refine ⟨hi.1, fun hn => by simp [hph] at hn, fun hands' hh => ?_⟩
    simp only [hph, Option.some.injEq] at hh
    subst hh
    refine ⟨h2, hle, ?_⟩
    simp only
    split_ifs with hc
    · omega
    · exact hlt

theorem invariant_stand (g : BlackjackGame) (hi : g.splitInvariant) (hf : g.fundsInvariant) :
    g.stand.1.splitInvariant ∧ g.stand.1.fundsInvariant := by
  refine ⟨splitInvariant_stand g hi, ?_⟩
  unfold BlackjackGame.fundsInvariant at hf ⊢
  rw [(stand_frame g).1, (stand_frame g).2.1]; exact hf

theorem invariant_doubleDown (g : BlackjackGame) (hi : g.splitInvariant)
    (hf : g.fundsInvariant) :
    g.doubleDown.1.splitInvariant ∧ g.doubleDown.1.fundsInvariant := by
  by_cases hfunds : g.currentBet ≤ g.currency
  · by_cases hs : g.gameStatus = GameStatus.playing
    · refine ⟨?_, ?_⟩
      · have hi' := (splitInvariant_iff g).1 hi
        cases hph : g.playerHands with
        | none =>
          rw [doubleDown_single g hs hfunds hph]
          split_ifs
          · rw [splitInvariant_iff]
            refine ⟨hi'.1, fun _ => hi'.2.1 hph, fun hands hh => ?_⟩
            simp only [hph] at hh
            exact absurd hh (by simp)
          · apply splitInvariant_stand
            rw [splitInvariant_iff]
            refine ⟨hi'.1, fun _ => hi'.2.1 hph, fun hands hh => ?_⟩
            simp only [hph] at hh
            exact absurd hh (by simp)
        | some hands =>
          obtain ⟨h2, hle, hlt⟩ := hi'.2.2 hands hph
          obtain ⟨hand, hget⟩ := getElem_of_lt hands g.currentHandIndex hlt
          rw [doubleDown_split g hs hfunds hands hand hph hget]
          split_ifs
          · rw [splitInvariant_iff]
            refine ⟨hi'.1, fun hn => by simp at hn, fun hands' hh => ?_⟩
            simp only [Option.some.injEq] at hh
            subst hh
            simp only [List.length_set]
            exact ⟨h2, hle, hlt⟩
          · apply splitInvariant_stand
            rw [splitInvariant_iff]
            refine ⟨hi'.1, fun hn => by simp at hn, fun hands' hh => ?_⟩
            simp only [Option.some.injEq] at hh
            subst hh
            simp only [List.length_set]
            exact ⟨h2, hle, hlt⟩
      · obtain ⟨hc, hb⟩ := doubleDown_debit g hs hfunds
        unfold BlackjackGame.fundsInvariant at hf ⊢
        rw [hc, hb]; omega
    · rw [doubleDown_not_playing g hfunds hs]; exact ⟨hi, hf⟩
  · rw [doubleDown_no_funds g (by omega)]; exact ⟨hi, hf⟩

theorem handToSplit_of_invariant (g : BlackjackGame) (hi : g.splitInvariant) :
    (∃ hand, g.handToSplit = some hand) ∧ (g.playerHands = none → g.currentHandIndex = 0) ∧
    g.currentHandIndex < g.handList.length := by
  have hi' := (splitInvariant_iff g).1 hi
  refine ⟨?_, hi'.2.1, ?_⟩
  · cases hph : g.playerHands with
    | none => exact ⟨g.playerHand, by simp [BlackjackGame.handToSplit, hph]⟩
    | some hands =>
      obtain ⟨hand, hget⟩ := getElem_of_lt hands g.currentHandIndex (hi'.2.2 hands hph).2.2
      exact ⟨hand, by simp [BlackjackGame.handToSplit, hph, hget]⟩
  · cases hph : g.playerHands with
    | none => simp [BlackjackGame.handList, hph, hi'.2.1 hph]
    | some hands => simpa [BlackjackGame.handList, hph] using (hi'.2.2 hands hph).2.2

/-- Under the split invariant `splitHand` either throws and leaves the state as it was, or
returns the state of a successful split. -/
theorem splitHand_cases (g : BlackjackGame) (hi : g.splitInvariant) :
    (g.splitHand.1 = g ∧ ∃ e, g.splitHand.thrown = some e) ∨
    (g.splitCount < 3 ∧ g.currentBet ≤ g.currency ∧ g.splitHand.thrown = none ∧
      ∃ c1 c2, g.splitHand.1 =
        { g with
          currency := g.currency - g.currentBet
          playerHands := some
            (splice2 g.handList g.currentHandIndex [c1, g.draw.1] [c2, g.draw.2.draw.1])
          splitCount := g.splitCount + 1
          deck := g.draw.2.draw.2.deck
          random := g.draw.2.draw.2.random }) := by
  obtain ⟨⟨hand, hact⟩, hidx, -⟩ := handToSplit_of_invariant g hi
  by_cases hc : g.splitCount < 3
  · by_cases hs : g.gameStatus = GameStatus.playing
    · cases hp : isPair hand with
      | false =>
        left; rw [splitHand_not_pair g hand hc hs hact hp]; exact ⟨rfl, _, rfl⟩
      | true =>
        by_cases hf : g.currency < g.currentBet
        · left; rw [splitHand_no_funds g hand hc hs hact hp hf]; exact ⟨rfl, _, rfl⟩
        · right
          obtain ⟨c1, c2, rfl, hv⟩ := (isPair_iff hand).1 hp
          obtain ⟨hfst, snap, hok⟩ := splitHand_fst g c1 c2 hc hs hact hv (by omega) hidx
          exact ⟨hc, by omega, by simp [Step.thrown, hok], c1, c2, hfst⟩
    · left; rw [splitHand_not_playing g hc hs]; exact ⟨rfl, _, rfl⟩
  · left; rw [splitHand_limit g (by omega)]; exact ⟨rfl, _, rfl⟩

theorem invariant_splitHand (g : BlackjackGame) (hi : g.splitInvariant)
    (hf : g.fundsInvariant) :
    g.splitHand.1.splitInvariant ∧ g.splitHand.1.fundsInvariant := by
  rcases splitHand_cases g hi with ⟨h, -⟩ | ⟨hc, hfunds, -, c1, c2, h⟩
  · rw [h]; exact ⟨hi, hf⟩
  · obtain ⟨-, -, hlt⟩ := handToSplit_of_invariant g hi
    have hi' := (splitInvariant_iff g).1 hi
    have hlen : g.handList.length ≤ g.splitCount + 1 := by
      cases hph : g.playerHands with
      | none => simp [BlackjackGame.handList, hph]
      | some hands => simpa [BlackjackGame.handList, hph] using (hi'.2.2 hands hph).2.1
    rw [h]
    refine ⟨?_, ?_⟩
    · rw [splitInvariant_iff]
      refine ⟨by simp only; omega, fun hn => by simp at hn, fun hands' hh => ?_⟩
      simp only [Option.some.injEq] at hh
      subst hh
      simp only [splice2, List.length_append, List.length_take, List.length_drop,
        List.length_cons, List.length_nil]
      omega
    · unfold BlackjackGame.fundsInvariant at hf ⊢
      simp only
      omega

theorem invariant_perform (g : BlackjackGame) (a : Action) (hi : g.splitInvariant)
    (hf : g.fundsInvariant) :
    (g.perform a).splitInvariant ∧ (g.perform a).fundsInvariant := by
  cases a with
  | startNewHand bet => exact invariant_startNewHand g bet hi hf
  | hit => exact invariant_hit g hi hf
  | stand => exact invariant_stand g hi hf
  | doubleDown => exact invariant_doubleDown g hi hf
  | splitHand => exact invariant_splitHand g hi hf
  | dealerDrawOneCard => exact ⟨hi, hf⟩
  | finalizeDealerTurn =>
    simp only [BlackjackGame.perform]
    rw [finalizeDealerTurn_fst]
    refine ⟨hi, ?_⟩
    unfold BlackjackGame.fundsInvariant at hf ⊢
    have h1 := binary64_nonneg (g.currentBet * 2) (by omega)
    have h2 := binary64_nonneg (g.currency + binary64 (g.currentBet * 2)) (by omega)
    have h3 := binary64_nonneg (g.currency + g.currentBet) (by omega)
    simp only
    split_ifs <;> omega

theorem invariant_run (acts : List Action) : ∀ g : BlackjackGame,
    g.splitInvariant → g.fundsInvariant →
    (g.run acts).splitInvariant ∧ (g.run acts).fundsInvariant := by
  induction acts with
  | nil => intro g hi hf; exact ⟨hi, hf⟩
  | cons a as ih =>
    intro g hi hf
    obtain ⟨hi', hf'⟩ := invariant_perform g a hi hf
    exact ih (g.perform a) hi' hf'

theorem invariant_new (rnd : List Nat) :
    (BlackjackGame.new rnd).splitInvariant ∧ (BlackjackGame.new rnd).fundsInvariant := by
  refine ⟨(splitInvariant_iff _).2 ⟨Nat.zero_le _, fun _ => rfl, fun hands hh => ?_⟩, ?_⟩
  · exact absurd hh (by simp [BlackjackGame.new])
  · unfold BlackjackGame.fundsInvariant
    exact ⟨by simp [BlackjackGame.new], by simp [BlackjackGame.new]⟩

theorem doubleDown_splitCount (g : BlackjackGame) :
    g.doubleDown.1.splitCount = g.splitCount := by
  have hc := fun x : BlackjackGame => (stand_frame x).2.2.1
  unfold BlackjackGame.doubleDown
  split_ifs
  · rfl
  · rfl
  · simp only []
    split
    · split
      · rfl
      · split_ifs
        · rfl
        · rw [hc]; rfl
    · split_ifs
      · rfl
      · rw [hc]; rfl

theorem perform_splitCount (g : BlackjackGame) (a : Action) (hi : g.splitInvariant) :
    (g.perform a).splitCount
      = g.splitCount + (if a = Action.splitHand ∧ g.splitHand.thrown = none then 1 else 0) := by
  cases a with
  | startNewHand bet =>
    simp only [BlackjackGame.perform, false_and, if_false, reduceCtorEq]
    by_cases h : 0 < bet ∧ bet ≤ g.currency
    · rw [startNewHand_fst g bet h.1 h.2]; exact (dealInitial_frame g bet).2.2.2.2.2.1
    · rw [startNewHand_rejected g bet h]; rfl
  | hit =>
    simp only [BlackjackGame.perform, false_and, if_false, reduceCtorEq]
    exact (hit_frame g).2.2.1
  | stand =>
    simp only [BlackjackGame.perform, false_and, if_false, reduceCtorEq]
    exact (stand_frame g).2.2.1
  | doubleDown =>
    simp only [BlackjackGame.perform, false_and, if_false, reduceCtorEq]
    exact doubleDown_splitCount g
  | splitHand =>
    simp only [BlackjackGame.perform, true_and]
    rcases splitHand_cases g hi with ⟨h, e, he⟩ | ⟨-, -, hn, c1, c2, h⟩
    · rw [h, he]; simp
    · rw [h, hn]; simp
  | dealerDrawOneCard => simp [BlackjackGame.perform]; rfl
  | finalizeDealerTurn =>
    simp only [BlackjackGame.perform, false_and, if_false, reduceCtorEq]
    rw [finalizeDealerTurn_fst]; rfl

theorem run_splitCount (acts : List Action) : ∀ g : BlackjackGame,
    g.splitInvariant → g.fundsInvariant →
    (g.run acts).splitCount = g.splitCount + successfulSplits g acts := by
  induction acts with
  | nil => intro g _ _; rfl
  | cons a as ih =>
    intro g hi hf
    obtain ⟨hi', hf'⟩ := invariant_perform g a hi hf
    have h1 := perform_splitCount g a hi
    have h2 := ih (g.perform a) hi' hf'
    simp only [BlackjackGame.run, List.foldl_cons, successfulSplits] at h2 ⊢
    omega

/-! ## Strategy calculator: lemmas -/

theorem getPairStrategy_move (r d : Int) :
    (getPairStrategy r d).move =
      if r = 11 then Move.split
      else if r = 10 then Move.stand
      else if r = 9 then (if d = 7 ∨ d = 10 ∨ d = 11 then Move.stand else Move.split)
      else if r = 8 then Move.split
      else if r = 7 then (if d ≤ 7 then Move.split else Move.hit)
      else if r = 6 then (if d ≤ 6 then Move.split else Move.hit)
      else if r = 5 then (if d ≤ 9 then Move.double else Move.hit)
      else if r = 4 then (if d = 5 ∨ d = 6 then Move.split else Move.hit)
      else if r = 3 ∨ r = 2 then (if d ≤ 7 then Move.split else Move.hit)
      else Move.hit := by
  unfold getPairStrategy
  simp only [apply_ite Advice.move]

theorem getSoftTotalStrategy_move (t d : Int) :
    (getSoftTotalStrategy t d).map Advice.move =
      some
        (if t ≥ 19 then (if t = 19 ∧ d = 6 then Move.double else Move.stand)
         else if t = 18 then
           (if d ≥ 9 then Move.hit else if d ≥ 7 then Move.stand else Move.double)
         else if t = 17 then (if d ≥ 3 ∧ d ≤ 6 then Move.double else Move.hit)
         else (if d ≥ 4 ∧ d ≤ 6 then Move.double else Move.hit)) := by
  unfold getSoftTotalStrategy
  split_ifs <;> first | rfl | (exfalso; omega)

theorem getHardTotalStrategy_move (t d : Int) :
    (getHardTotalStrategy t d).move =
      if t ≥ 17 then Move.stand
      else if t ≥ 13 ∧ t ≤ 16 then (if d ≥ 7 then Move.hit else Move.stand)
      else if t = 12 then (if d ≥ 4 ∧ d ≤ 6 then Move.stand else Move.hit)
      else if t = 11 then Move.double
      else if t = 10 then (if d ≥ 10 then Move.hit else Move.double)
      else if t = 9 then (if d ≥ 3 ∧ d ≤ 6 then Move.double else Move.hit)
      else Move.hit := by
  unfold getHardTotalStrategy
  split_ifs <;> rfl

theorem soft_table (t d : Int) :
    (∃ a, getSoftTotalStrategy t d = some a) ∧
    (19 ≤ t → ¬ (t = 19 ∧ d = 6) →
      (getSoftTotalStrategy t d).map Advice.move = some Move.stand) ∧
    (t = 19 → d = 6 → (getSoftTotalStrategy t d).map Advice.move = some Move.double) ∧
    (t = 18 → 9 ≤ d → (getSoftTotalStrategy t d).map Advice.move = some Move.hit) ∧
    (t = 18 → (d = 7 ∨ d = 8) →
      (getSoftTotalStrategy t d).map Advice.move = some Move.stand) ∧
    (t = 18 → d ≤ 6 → (getSoftTotalStrategy t d).map Advice.move = some Move.double) ∧
    (t = 17 → 3 ≤ d → d ≤ 6 →
      (getSoftTotalStrategy t d).map Advice.move = some Move.double) ∧
    (t = 17 → (d < 3 ∨ 6 < d) → (getSoftTotalStrategy t d).map Advice.move = some Move.hit) ∧
    (t ≤ 16 → 4 ≤ d → d ≤ 6 →
      (getSoftTotalStrategy t d).map Advice.move = some Move.double) ∧
    (t ≤ 16 → (d < 4 ∨ 6 < d) →
      (getSoftTotalStrategy t d).map Advice.move = some Move.hit) := by
  have hs := getSoftTotalStrategy_move t d
  refine ⟨?_, ?_, ?_, ?_, ?_, ?_, ?_, ?_, ?_, ?_⟩
  · cases h : getSoftTotalStrategy t d with
    | none => rw [h] at hs; simp at hs
    | some a => exact ⟨a, rfl⟩
  all_goals
    intros
    rw [hs]; congr 1
    split_ifs <;> first | rfl | (exfalso; omega)

theorem hard_table (t d : Int) :
    (17 ≤ t → (getHardTotalStrategy t d).move = Move.stand) ∧
    (13 ≤ t → t ≤ 16 → d ≤ 6 → (getHardTotalStrategy t d).move = Move.stand) ∧
    (13 ≤ t → t ≤ 16 → 6 < d → (getHardTotalStrategy t d).move = Move.hit) ∧
    (t = 12 → 4 ≤ d → d ≤ 6 → (getHardTotalStrategy t d).move = Move.stand) ∧
    (t = 12 → (d < 4 ∨ 6 < d) → (getHardTotalStrategy t d).move = Move.hit) ∧
    (t = 11 → (getHardTotalStrategy t d).move = Move.double) ∧
    (t = 10 → 10 ≤ d → (getHardTotalStrategy t d).move = Move.hit) ∧
    (t = 10 → d < 10 → (getHardTotalStrategy t d).move = Move.double) ∧
    (t = 9 → 3 ≤ d → d ≤ 6 → (getHardTotalStrategy t d).move = Move.double) ∧
    (t = 9 → (d < 3 ∨ 6 < d) → (getHardTotalStrategy t d).move = Move.hit) ∧
    (t ≤ 8 → (getHardTotalStrategy t d).move = Move.hit) := by
  have hh := getHardTotalStrategy_move t d
  refine ⟨?_, ?_, ?_, ?_, ?_, ?_, ?_, ?_, ?_, ?_, ?_⟩
  all_goals
    intros
    rw [hh]
    split_ifs <;> first | rfl | (exfalso; omega)

theorem soft_never_split (t d : Int) :
    (getSoftTotalStrategy t d).map Advice.move ≠ some Move.split := by
  rw [getSoftTotalStrategy_move]
  split_ifs <;> simp

theorem hard_never_split (t d : Int) : (getHardTotalStrategy t d).move ≠ Move.split := by
  rw [getHardTotalStrategy_move]
  split_ifs <;> simp

theorem recommendedMove_eq (c1 c2 d : Int) (h1 : c1 ≠ 0) (h2 : c2 ≠ 0) (hd : d ≠ 0) :
    recommendedMove c1 c2 d =
      if c1 = c2 then some (getPairStrategy c1 d).move
      else if c1 = 11 ∨ c2 = 11 then
        (getSoftTotalStrategy (if c1 + c2 > 21 then c1 + c2 - 10 else c1 + c2) d).map
          Advice.move
      else some (getHardTotalStrategy (c1 + c2) d).move := by
  have h0 : ¬ (c1 = 0 ∨ c2 = 0 ∨ d = 0) := by
    rintro (h | h | h) <;> contradiction
  unfold recommendedMove calculateBestMove
  rw [if_neg h0]
  by_cases hp : c1 = c2
  · simp only [hp, decide_True, if_true]
  · by_cases ha : c1 = 11 ∨ c2 = 11
    · simp only [hp, ha, decide_False, decide_True, if_true, if_false, Bool.false_eq_true]
      cases getSoftTotalStrategy (if c1 + c2 > 21 then c1 + c2 - 10 else c1 + c2) d <;> rfl
    · simp only [hp, ha, decide_False, if_false, Bool.false_eq_true]


/-! ## The shuffle as a bijection: lemmas -/

theorem swapCards_length (cards : List Card) (i j : Nat) :
    (swapCards cards i j).length = cards.length := (swapCards_perm cards i j).length_eq

theorem swapCards_getElem? (cards : List Card) (i j k : Nat) (hi : i < cards.length)
    (hj : j < cards.length) :
    (swapCards cards i j)[k]? =
      if k = j then cards[i]? else if k = i then cards[j]? else cards[k]? := by
  unfold swapCards
  rw [List.getElem?_eq_getElem hi, List.getElem?_eq_getElem hj]
  simp only []
  rw [List.getElem?_set, List.getElem?_set]
  by_cases h1 : k = j
  · subst h1
    simp [hi, hj]
  · by_cases h2 : k = i
    · subst h2
      have : ¬ j = k := fun h => h1 h.symm
      simp [h1, this, hi, hj]
    · have h1' : ¬ j = k := fun h => h1 h.symm
      have h2' : ¬ i = k := fun h => h2 h.symm
      simp [h1, h2, h1', h2']

theorem shuffleFrom_length : ∀ (i : Nat) (cards : List Card) (rnd : List Nat),
    (shuffleFrom i cards rnd).1.length = cards.length :=
  fun i cards rnd => (shuffleFrom_perm i cards rnd).length_eq

/-- The loop from index `i` down leaves every position above `i` as it was. -/
theorem shuffleFrom_above : ∀ (i : Nat) (cards : List Card) (rnd : List Nat) (k : Nat),
    i < k → (shuffleFrom i cards rnd).1[k]? = cards[k]? := by
  intro i
  induction i with
  | zero => intro cards rnd k _; rfl
  | succ i ih =>
    intro cards rnd k hk
    simp only [shuffleFrom]
    rw [ih _ _ k (by omega)]
    by_cases hlen : i + 1 < cards.length
    · have hj : rnd.headD 0 % (i + 2) < cards.length := by
        have := Nat.mod_lt (rnd.headD 0) (show 0 < i + 2 by omega)
        omega
      have hjk : rnd.headD 0 % (i + 2) < i + 2 := Nat.mod_lt _ (by omega)
      rw [swapCards_getElem? cards (i + 1) _ k hlen hj]
      rw [if_neg (by omega), if_neg (by omega)]
    · have hnone : cards[i + 1]? = none := List.getElem?_eq_none (by omega)
      simp [swapCards, hnone]

theorem shuffleFrom_step (i : Nat) (cards : List Card) (j : Nat) (rest : List Nat)
    (hj : j ≤ i + 1) :
    shuffleFrom (i + 1) cards (j :: rest) = shuffleFrom i (swapCards cards (i + 1) j) rest := by
  simp only [shuffleFrom, List.headD_cons, List.tail_cons]
  rw [Nat.mod_eq_of_lt (by omega)]

/-- After the loop from index `i + 1`, position `i + 1` holds the card chosen first. -/
theorem shuffleFrom_top (i : Nat) (cards : List Card) (j : Nat) (rest : List Nat)
    (hj : j ≤ i + 1) (hlen : i + 1 < cards.length) :
    (shuffleFrom (i + 1) cards (j :: rest)).1[i + 1]? = cards[j]? := by
  rw [shuffleFrom_step i cards j rest hj, shuffleFrom_above i _ rest (i + 1) (by omega),
    swapCards_getElem? cards (i + 1) j (i + 1) hlen (by omega)]
  by_cases h : i + 1 = j
  · rw [if_pos h, h]
  · rw [if_neg h, if_pos rfl]

theorem validChoices_zero (js : List Nat) (h : validChoices 0 js = true) : js = [] := by
  cases js with
  | nil => rfl
  | cons j rest => simp [validChoices] at h

theorem validChoices_succ (i : Nat) (js : List Nat) (h : validChoices (i + 1) js = true) :
    ∃ j rest, js = j :: rest ∧ j ≤ i + 1 ∧ validChoices i rest = true := by
  cases js with
  | nil => simp [validChoices] at h
  | cons j rest =>
    simp only [validChoices, Bool.and_eq_true, decide_eq_true_eq] at h
    exact ⟨j, rest, rfl, h.1, h.2⟩

/-- Two sequences of valid choices that give the same order are equal. -/
theorem shuffleFrom_injective : ∀ (i : Nat) (cards : List Card) (js js' : List Nat),
    cards.Nodup → (i = 0 ∨ i < cards.length) →
    validChoices i js = true → validChoices i js' = true →
    (shuffleFrom i cards js).1 = (shuffleFrom i cards js').1 → js = js' := by
  intro i
  induction i with
  | zero =>
    intro cards js js' _ _ h h' _
    rw [validChoices_zero js h, validChoices_zero js' h']
  | succ i ih =>
    intro cards js js' hnd hlen h h' heq
    have hlen' : i + 1 < cards.length := by omega
    obtain ⟨j, rest, rfl, hj, hrest⟩ := validChoices_succ i js h
    obtain ⟨j', rest', rfl, hj', hrest'⟩ := validChoices_succ i js' h'
    have htop := shuffleFrom_top i cards j rest hj hlen'
    have htop' := shuffleFrom_top i cards j' rest' hj' hlen'
    rw [heq, htop'] at htop
    have hjj : j' = j := List.getElem?_inj (by omega) hnd htop
    subst hjj
    rw [shuffleFrom_step i cards j' rest hj, shuffleFrom_step i cards j' rest' hj] at heq
    have hnd' : (swapCards cards (i + 1) j').Nodup :=
      (swapCards_perm cards (i + 1) j').nodup_iff.2 hnd
    have := ih (swapCards cards (i + 1) j') rest rest' hnd'
      (Or.inr (by rw [swapCards_length]; omega)) hrest hrest' heq
    rw [this]

/-- In an order of the same cards that agrees with `cards` above position `i`, the card at
position `i` sits in `cards` at a position at most `i`. -/
theorem position_of_target (cards t : List Card) (i : Nat) (hperm : t.Perm cards)
    (hnd : cards.Nodup) (habove : ∀ k, i < k → t[k]? = cards[k]?) (hi : i < cards.length) :
    ∃ j, j ≤ i ∧ cards[j]? = t[i]? := by
  have hlen : t.length = cards.length := hperm.length_eq
  have hit : i < t.length := by omega
  have hmem : t[i] ∈ cards := hperm.mem_iff.1 (List.getElem_mem hit)
  obtain ⟨j, hj, hjeq⟩ := List.getElem_of_mem hmem
  have hndt : t.Nodup := hperm.nodup_iff.2 hnd
  refine ⟨j, ?_, ?_⟩
  · by_contra hc
    have h1 : t[j]? = cards[j]? := habove j (by omega)
    rw [List.getElem?_eq_getElem hj, hjeq, ← List.getElem?_eq_getElem hit] at h1
    have := List.getElem?_inj (by omega) hndt h1
    omega
  · rw [List.getElem?_eq_getElem hj, hjeq, List.getElem?_eq_getElem hit]

/-- Every order of the cards that agrees with `cards` above position `i` is reached by the
loop from index `i` for some sequence of valid choices. -/
theorem shuffleFrom_surjective : ∀ (i : Nat) (cards t : List Card),
    cards.Nodup → (i = 0 ∨ i < cards.length) → t.Perm cards →
    (∀ k, i < k → t[k]? = cards[k]?) →
    ∃ js, validChoices i js = true ∧ (shuffleFrom i cards js).1 = t := by
  intro i
  induction i with
  | zero =>
    intro cards t hnd _ hperm habove
    refine ⟨[], rfl, ?_⟩
    simp only [shuffleFrom]
    apply List.ext_getElem?
    intro k
    cases k with
    | succ k => exact (habove (k + 1) (by omega)).symm
    | zero =>
      by_cases hlen : 0 < cards.length
      · obtain ⟨j, hj, hjeq⟩ := position_of_target cards t 0 hperm hnd habove hlen
        have : j = 0 := by omega
        subst this
        exact hjeq
      · have hc : cards = [] := List.length_eq_zero.1 (by omega)
        subst hc
        have ht : t = [] := hperm.eq_nil
        subst ht
        rfl
  | succ i ih =>
    intro cards t hnd hlen hperm habove
    have hlen' : i + 1 < cards.length := by omega
    obtain ⟨j, hj, hjeq⟩ := position_of_target cards t (i + 1) hperm hnd habove hlen'
    have hnd' : (swapCards cards (i + 1) j).Nodup :=
      (swapCards_perm cards (i + 1) j).nodup_iff.2 hnd
    have hperm' : t.Perm (swapCards cards (i + 1) j) :=
      hperm.trans (swapCards_perm cards (i + 1) j).symm
    have habove' : ∀ k, i < k → t[k]? = (swapCards cards (i + 1) j)[k]? := by
      intro k hk
      rw [swapCards_getElem? cards (i + 1) j k hlen' (by omega)]
      by_cases h1 : k = j
      · have hk1 : k = i + 1 := by omega
        rw [if_pos h1, hk1]
        rw [← hjeq, ← h1, hk1]
      · rw [if_neg h1]
        by_cases h2 : k = i + 1
        · rw [if_pos h2, h2]; exact hjeq.symm
        · rw [if_neg h2]; exact habove k (by omega)
    obtain ⟨js, hval, hres⟩ := ih (swapCards cards (i + 1) j) t hnd'
      (Or.inr (by rw [swapCards_length]; omega)) hperm' habove'
    refine ⟨j :: js, ?_, ?_⟩
    · simp [validChoices, hj, hval]
    · rw [shuffleFrom_step i cards j js hj]; exact hres

theorem choiceSequences_length : ∀ i : Nat, (choiceSequences i).length = (i + 1).factorial := by
  intro i
  induction i with
  | zero => rfl
  | succ i ih =>
    have hf : (List.length ∘ fun j => List.map (fun rest => j :: rest) (choiceSequences i))
        = fun _ => (i + 1).factorial := by
      funext j
      simp [ih]
    simp only [choiceSequences, List.length_flatMap]
    rw [hf, List.map_const', List.sum_const_nat, List.length_range,
      Nat.factorial_succ (i + 1)]

theorem mem_choiceSequences : ∀ (i : Nat) (js : List Nat),
    js ∈ choiceSequences i ↔ validChoices i js = true := by
  intro i
  induction i with
  | zero =>
    intro js
    cases js <;> simp [choiceSequences, validChoices]
  | succ i ih =>
    intro js
    cases js with
    | nil => simp [choiceSequences, validChoices]
    | cons j rest =>
      simp only [choiceSequences, List.mem_flatMap, List.mem_range, List.mem_map,
        List.cons.injEq, validChoices, Bool.and_eq_true, decide_eq_true_eq]
      constructor
      · rintro ⟨a, ha, b, hb, rfl, rfl⟩
        exact ⟨by omega, (ih _).1 hb⟩
      · rintro ⟨hj, hrest⟩
        exact ⟨j, by omega, rest, (ih _).2 hrest, rfl, rfl⟩

theorem choiceSequences_nodup : ∀ i : Nat, (choiceSequences i).Nodup := by
  intro i
  induction i with
  | zero => simp [choiceSequences]
  | succ i ih =>
    simp only [choiceSequences]
    rw [List.nodup_flatMap]
    constructor
    · intro j _
      exact ih.map (fun a b h => (List.cons.inj h).2)
    · refine (List.nodup_range (i + 2)).imp ?_
      intro a b hab
      simp only [Function.onFun, List.disjoint_left, List.mem_map]
      rintro x ⟨r, _, rfl⟩ ⟨r', _, h⟩
      exact hab (List.cons.inj h).1.symm

theorem shuffle_cards (d : Deck) (js : List Nat) :
    (d.shuffle js).1.cards = (shuffleFrom (d.cards.length - 1) d.cards js).1 := rfl

theorem choiceSequences_count (d : Deck) (hnd : d.cards.Nodup) (t : List Card)
    (hperm : t.Perm d.cards) :
    (choiceSequences (d.cards.length - 1)).countP
      (fun js => decide ((d.shuffle js).1.cards = t)) = 1 := by
  have hidx : d.cards.length - 1 = 0 ∨ d.cards.length - 1 < d.cards.length := by omega
  obtain ⟨js, hval, hres⟩ := shuffleFrom_surjective (d.cards.length - 1) d.cards t hnd hidx
    hperm (fun k hk => by
      have h1 : t[k]? = none := List.getElem?_eq_none (by rw [hperm.length_eq]; omega)
      have h2 : d.cards[k]? = none := List.getElem?_eq_none (by omega)
      rw [h1, h2])
  have hmem : js ∈ choiceSequences (d.cards.length - 1) := (mem_choiceSequences _ _).2 hval
  have hcongr : (choiceSequences (d.cards.length - 1)).countP
      (fun js' => decide ((d.shuffle js').1.cards = t))
      = (choiceSequences (d.cards.length - 1)).countP (fun js' => decide (js' = js)) := by
    apply List.countP_congr
    intro js' hjs'
    have hval' := (mem_choiceSequences _ _).1 hjs'
    simp only [decide_eq_true_eq, shuffle_cards]
    constructor
    · intro h
      exact shuffleFrom_injective _ d.cards js' js hnd hidx hval' hval (h.trans hres.symm)
    · intro h
      rw [h]; exact hres
  rw [hcongr]
  have hone := List.count_eq_one_of_mem (choiceSequences_nodup _) hmem
  unfold List.count at hone
  exact hone

/-! ## Settled claims -/

/-- C1: `calculateHand` is total and returns the best blackjack total. With `hardSum` the
sum counting every Ace as 1 and `aceCount` the number of Aces, the empty hand totals 0; the
result is `hardSum` itself when `hardSum > 21`; otherwise it is `hardSum + 10 * k` for the
largest `k ≤ aceCount` that keeps the value at most 21; hence the result is at most 21 or
equals `hardSum`. No assumption on the ranks is needed. -/
theorem calculateHand_best_total (hand : List Card) :
    calculateHand [] = 0 ∧
    (21 < hardSum hand → calculateHand hand = hardSum hand) ∧
    (hardSum hand ≤ 21 →
      ∃ k, k ≤ aceCount hand ∧ calculateHand hand = hardSum hand + 10 * k ∧
        calculateHand hand ≤ 21 ∧
        ∀ j, j ≤ aceCount hand → hardSum hand + 10 * j ≤ 21 →
          hardSum hand + 10 * j ≤ calculateHand hand) ∧
    (calculateHand hand ≤ 21 ∨ calculateHand hand = hardSum hand) := by
  have hcalc : calculateHand hand = softenAces (hardSum hand + 10 * aceCount hand) (aceCount hand) := by
    simp [calculateHand, sumHand_eq]
  obtain ⟨k, hk, hr, hbig, hsmall⟩ := softenAces_spec (hardSum hand) (aceCount hand)
  rw [← hcalc] at hr
  refine ⟨rfl, fun hh => ?_, fun hh => ?_, ?_⟩
  · rw [hr, hbig hh]; rfl
  · refine ⟨k, hk, hr, by rw [hr]; exact (hsmall hh).1, fun j hj hj21 => ?_⟩
    have := (hsmall hh).2 j hj hj21
    rw [hr]; omega
  · by_cases hh : hardSum hand ≤ 21
    · left; rw [hr]; exact (hsmall hh).1
    · right; rw [hr, hbig (by omega)]; rfl

/-- C1 at the hand King, Queen, 5 (no Ace, bust): the total is the plain sum 25. -/
theorem calculateHand_best_total_witness :
    21 < hardSum [Card.mk 13 Suit.Hearts, Card.mk 12 Suit.Spades, Card.mk 5 Suit.Clubs] ∧
    calculateHand [Card.mk 13 Suit.Hearts, Card.mk 12 Suit.Spades, Card.mk 5 Suit.Clubs]
      = hardSum [Card.mk 13 Suit.Hearts, Card.mk 12 Suit.Spades, Card.mk 5 Suit.Clubs] :=
  ⟨by decide, (calculateHand_best_total _).2.1 (by decide)⟩

/-- C2, amended: blackjack resolution at the deal on amounts that binary64 holds exactly.
For an integer bet `b` with `0 < b ≤ B ≤ 2 ^ 53`, `B` the bankroll, when `startNewHand b`
deals a two-card 21: both 21 gives `push` and bankroll `B`; dealer only gives
`dealer_blackjack` and bankroll `B - b`; player only gives `blackjack` and the bankroll
`binary64 (B - b + blackjackPayout b)`, which is `B - b + floor(2.5 b) = B + b + b / 2`
(integer division rounding down) when moreover `5 * b ≤ 2 ^ 53` and
`B + b + b / 2 ≤ 2 ^ 53`; the status is `complete` in the three cases; with `b = 100` and
`B + 150 ≤ 2 ^ 53` a player-only blackjack raises the bankroll by exactly 150. -/
theorem startNewHand_blackjack_resolution (g : BlackjackGame) (b : Int)
    (hpos : 0 < b) (hle : b ≤ g.currency) (hsafe : g.currency ≤ 2 ^ 53) :
    (calculateHand (g.startNewHand b).1.playerHand = 21 →
      calculateHand (g.startNewHand b).1.dealerHand = 21 →
        (g.startNewHand b).1.currency = g.currency ∧
        (g.startNewHand b).outcome = some Outcome.push ∧
        (g.startNewHand b).1.gameStatus = GameStatus.complete) ∧
    (calculateHand (g.startNewHand b).1.playerHand = 21 →
      calculateHand (g.startNewHand b).1.dealerHand ≠ 21 →
        (g.startNewHand b).1.currency = binary64 (g.currency - b + blackjackPayout b) ∧
        (b * 5 ≤ 2 ^ 53 → g.currency + b + b / 2 ≤ 2 ^ 53 →
          (g.startNewHand b).1.currency = g.currency - b + ⌊(b : ℚ) * 2.5⌋ ∧
          (g.startNewHand b).1.currency = g.currency + b + b / 2) ∧
        (g.startNewHand b).outcome = some Outcome.blackjack ∧
        (g.startNewHand b).1.gameStatus = GameStatus.complete) ∧
    (calculateHand (g.startNewHand b).1.playerHand ≠ 21 →
      calculateHand (g.startNewHand b).1.dealerHand = 21 →
        (g.startNewHand b).1.currency = g.currency - b ∧
        (g.startNewHand b).outcome = some Outcome.dealer_blackjack ∧
        (g.startNewHand b).1.gameStatus = GameStatus.complete) ∧
    (b = 100 → g.currency + 150 ≤ 2 ^ 53 →
      calculateHand (g.startNewHand b).1.playerHand = 21 →
      calculateHand (g.startNewHand b).1.dealerHand ≠ 21 →
        (g.startNewHand b).1.currency = g.currency + 150) := by
  have hd : binary64 (g.currency - b) = g.currency - b :=
    binary64_exact _ (by omega) (by omega)
  have hback : binary64 (g.currency - b + b) = g.currency := by
    rw [binary64_exact _ (by omega) (by omega)]; omega
  have hfloor := floor_two_and_a_half b
  have hpay : b * 5 ≤ 2 ^ 53 → g.currency + b + b / 2 ≤ 2 ^ 53 →
      binary64 (g.currency - b + blackjackPayout b) = g.currency + b + b / 2 := by
    intro h5 hsum
    rw [blackjackPayout_eq b (by omega) h5, binary64_exact _ (by omega) (by omega)]
    omega
  have hhundred : b = 100 → g.currency + 150 ≤ 2 ^ 53 →
      binary64 (g.currency - b + blackjackPayout b) = g.currency + 150 := by
    intro hb hsum
    subst hb
    rw [hpay (by omega) (by omega)]
    omega
  rw [startNewHand_outcome g b hpos hle, startNewHand_fst g b hpos hle, hd, hback]
  by_cases hP : calculateHand (g.dealInitial b).playerHand = 21 <;>
    by_cases hD : calculateHand (g.dealInitial b).dealerHand = 21
  · simp [hP, hD]
  · simp only [hP, hD, and_false, if_false, if_true, false_or, true_or, ne_eq,
      not_false_eq_true, not_true_eq_false, true_implies, false_implies, and_true,
      true_and, and_self]
    refine ⟨fun h5 hsum => ?_, hhundred⟩
    rw [hpay h5 hsum, hfloor]
    exact ⟨by omega, rfl⟩
  · simp [hP, hD]
  · simp [hP, hD]

/-- C2 at bet 100 on a shoe dealing Ace, King to the player and 7, 9 to the dealer: the
bankroll goes from 1000 to 1150. -/
theorem startNewHand_blackjack_resolution_witness :
    (0 : Int) < 100 ∧ (100 : Int) ≤ (tableWith [heart 9, heart 7, heart 13, heart 1]).currency ∧
    (tableWith [heart 9, heart 7, heart 13, heart 1]).currency ≤ 2 ^ 53 ∧
    ((tableWith [heart 9, heart 7, heart 13, heart 1]).startNewHand 100).1.currency = 1150 :=
  ⟨by decide, by decide, by decide,
    (startNewHand_blackjack_resolution (tableWith [heart 9, heart 7, heart 13, heart 1]) 100
      (by decide) (by decide) (by decide)).2.2.2 rfl (by decide) (by decide) (by decide)⟩

/-- C2 as stated fails beyond the exact range: with bankroll and bet 3602879701896399, which
both are binary64 values, a player-only blackjack is paid `Math.floor` of the product
`9007199254740997.5` rounded to binary64, that is 9007199254740998, while
`B - b + floor(2.5 b) = B + b + b / 2` is 9007199254740997. -/
theorem startNewHand_blackjack_payout_rounds :
    (0 : Int) < 3602879701896399 ∧ (3602879701896399 : Int) ≤ allInTable.currency ∧
    binary64 3602879701896399 = 3602879701896399 ∧
    calculateHand (allInTable.startNewHand 3602879701896399).1.playerHand = 21 ∧
    calculateHand (allInTable.startNewHand 3602879701896399).1.dealerHand ≠ 21 ∧
    (allInTable.startNewHand 3602879701896399).outcome = some Outcome.blackjack ∧
    (allInTable.startNewHand 3602879701896399).1.currency = 9007199254740998 ∧
    allInTable.currency + 3602879701896399 + 3602879701896399 / 2 = 9007199254740997 ∧
    (allInTable.startNewHand 3602879701896399).1.currency
      ≠ allInTable.currency + 3602879701896399 + 3602879701896399 / 2 := by
  decide

/-- C4: `startNewHand bet` throws InvalidBet when `bet ≤ 0` and InsufficientFunds when
`bet > bankroll` (on a bankroll that is not negative, as the data model has it), leaving
the whole state as it was in both cases, and returns for every `0 < bet ≤ bankroll`. -/
theorem startNewHand_validates_bet (g : BlackjackGame) (bet : Int) :
    (bet ≤ 0 → g.startNewHand bet = (g, Except.error GameError.invalidBet)) ∧
    (0 ≤ g.currency → g.currency < bet →
      g.startNewHand bet = (g, Except.error GameError.insufficientFunds)) ∧
    (0 < bet → bet ≤ g.currency → ∃ snap, (g.startNewHand bet).2 = Except.ok snap) := by
  refine ⟨fun h => ?_, fun h0 h => ?_, fun hpos hle => startNewHand_returns g bet hpos hle⟩
  · unfold BlackjackGame.startNewHand
    rw [if_pos h]
  · have h1 : ¬ bet ≤ 0 := by omega
    have h2 : bet > g.currency := h
    unfold BlackjackGame.startNewHand
    rw [if_neg h1, if_pos h2]

/-- C4 on a table with bankroll 1000: bet 0 is invalid, bet 1001 exceeds the funds, bet
1000 is accepted. -/
theorem startNewHand_validates_bet_witness :
    (tableWith []).startNewHand 0 = (tableWith [], Except.error GameError.invalidBet) ∧
    (tableWith []).startNewHand 1001
      = (tableWith [], Except.error GameError.insufficientFunds) ∧
    (∃ snap, ((tableWith []).startNewHand 1000).2 = Except.ok snap) :=
  ⟨(startNewHand_validates_bet (tableWith []) 0).1 (by decide),
   (startNewHand_validates_bet (tableWith []) 1001).2.1 (by decide) (by decide),
   (startNewHand_validates_bet (tableWith []) 1000).2.2 (by decide) (by decide)⟩

/-- C5, amended: a successful `startNewHand bet` (`0 < bet ≤ bankroll`) returns, sets
`currentBet = bet`, makes four successive draws from the shoe of which the first two form
the player hand and the last two the dealer hand (on a shoe of at least four cards: its
four top cards, the rest of the shoe staying as it was), leaves a single hand
(`playerHands` null, `currentHandIndex` 0); when neither total is 21 the status is
`playing` and the bankroll is `bankroll - bet` rounded to binary64, which is the bankroll
down by exactly `bet` whenever the bankroll is at most `2 ^ 53`; the status is `complete`
exactly when one of the two totals is 21. -/
theorem startNewHand_deals (g : BlackjackGame) (bet : Int)
    (hpos : 0 < bet) (hle : bet ≤ g.currency) :
    (∃ snap, (g.startNewHand bet).2 = Except.ok snap) ∧
    (g.startNewHand bet).1.currentBet = bet ∧
    (g.startNewHand bet).1.playerHand = (Deck.drawMany 4 g.deck g.random).1.take 2 ∧
    (g.startNewHand bet).1.dealerHand = (Deck.drawMany 4 g.deck g.random).1.drop 2 ∧
    (g.startNewHand bet).1.playerHand.length = 2 ∧
    (g.startNewHand bet).1.dealerHand.length = 2 ∧
    (g.startNewHand bet).1.deck = (Deck.drawMany 4 g.deck g.random).2.1 ∧
    (g.startNewHand bet).1.random = (Deck.drawMany 4 g.deck g.random).2.2 ∧
    (∀ rest c1 c2 c3 c4, g.deck.cards = rest ++ [c4, c3, c2, c1] →
      (g.startNewHand bet).1.playerHand = [c1, c2] ∧
      (g.startNewHand bet).1.dealerHand = [c3, c4] ∧
      (g.startNewHand bet).1.deck.cards = rest ∧
      (g.startNewHand bet).1.random = g.random) ∧
    (g.startNewHand bet).1.playerHands = none ∧
    (g.startNewHand bet).1.currentHandIndex = 0 ∧
    (calculateHand (g.startNewHand bet).1.playerHand ≠ 21 →
      calculateHand (g.startNewHand bet).1.dealerHand ≠ 21 →
        (g.startNewHand bet).1.gameStatus = GameStatus.playing ∧
        (g.startNewHand bet).1.currency = binary64 (g.currency - bet) ∧
        (g.currency ≤ 2 ^ 53 → (g.startNewHand bet).1.currency = g.currency - bet)) ∧
    ((g.startNewHand bet).1.gameStatus = GameStatus.complete ↔
      calculateHand (g.startNewHand bet).1.playerHand = 21 ∨
      calculateHand (g.startNewHand bet).1.dealerHand = 21) := by
  obtain ⟨-, hb, -, hhs, hidx, -, hpl, hdl⟩ := dealInitial_frame g bet
  have hph : (g.dealInitial bet).playerHand = (Deck.drawMany 4 g.deck g.random).1.take 2 := by
    rw [dealInitial_eq]
  have hdh : (g.dealInitial bet).dealerHand = (Deck.drawMany 4 g.deck g.random).1.drop 2 := by
    rw [dealInitial_eq]
  have hdk : (g.dealInitial bet).deck = (Deck.drawMany 4 g.deck g.random).2.1 := by
    rw [dealInitial_eq]
  have hrd : (g.dealInitial bet).random = (Deck.drawMany 4 g.deck g.random).2.2 := by
    rw [dealInitial_eq]
  have hcc : ∀ rest c1 c2 c3 c4, g.deck.cards = rest ++ [c4, c3, c2, c1] →
      (g.dealInitial bet).playerHand = [c1, c2] ∧ (g.dealInitial bet).dealerHand = [c3, c4] ∧
      (g.dealInitial bet).deck.cards = rest ∧ (g.dealInitial bet).random = g.random := by
    intro rest c1 c2 c3 c4 h
    rw [dealInitial_concat g bet rest c1 c2 c3 c4 h]
    exact ⟨rfl, rfl, rfl, rfl⟩
  have hexact : g.currency ≤ 2 ^ 53 → binary64 (g.currency - bet) = g.currency - bet :=
    fun h => binary64_exact _ (by omega) (by omega)
  refine ⟨startNewHand_returns g bet hpos hle, ?_⟩
  rw [startNewHand_fst g bet hpos hle]
  generalize g.dealInitial bet = g4 at hb hhs hidx hpl hdl hph hdh hdk hrd hcc ⊢
  refine ⟨hb, hph, hdh, hpl, hdl, hdk, hrd, hcc, hhs, hidx, ?_, ?_⟩
  · intro hP hD
    simp only at hP hD
    simp only [hP, hD, or_self, and_self, if_false, true_and]
    exact hexact
  · simp only
    split_ifs with h <;> simp [h]

/-- C5 at bet 50 on the shoe 2, 3, 9, 7, 6, 5 (top last) with bankroll 1000: the player
holds 5, 6, the dealer 7, 9, the shoe keeps 2, 3, the status is `playing` and the bankroll
is 950. -/
theorem startNewHand_deals_witness :
    ((tableWith [heart 2, heart 3, heart 9, heart 7, heart 6, heart 5]).startNewHand 50).1.playerHand
      = [heart 5, heart 6] ∧
    ((tableWith [heart 2, heart 3, heart 9, heart 7, heart 6, heart 5]).startNewHand 50).1.dealerHand
      = [heart 7, heart 9] ∧
    ((tableWith [heart 2, heart 3, heart 9, heart 7, heart 6, heart 5]).startNewHand 50).1.deck.cards
      = [heart 2, heart 3] ∧
    ((tableWith [heart 2, heart 3, heart 9, heart 7, heart 6, heart 5]).startNewHand 50).1.gameStatus
      = GameStatus.playing ∧
    ((tableWith [heart 2, heart 3, heart 9, heart 7, heart 6, heart 5]).startNewHand 50).1.currency
      = 950 := by
  have h := startNewHand_deals
    (tableWith [heart 2, heart 3, heart 9, heart 7, heart 6, heart 5]) 50 (by decide) (by decide)
  obtain ⟨-, -, -, -, -, -, -, -, hcards, -, -, hplay, -⟩ := h
  obtain ⟨h1, h2, h3, -⟩ := hcards [heart 2, heart 3] (heart 5) (heart 6) (heart 7) (heart 9) rfl
  exact ⟨h1, h2, h3, (hplay (by decide) (by decide)).1,
    (hplay (by decide) (by decide)).2.2 (by decide)⟩

/-- C5 as stated fails beyond the exact range: with bankroll 9007199254740994 and bet 1
(`0 < bet ≤ bankroll`, both binary64 values) the deal leaves neither total at 21 and the
status `playing`, and the bankroll is 9007199254740992, the binary64 value of the
difference 9007199254740993: it is down by 2, not by exactly the bet. -/
theorem startNewHand_debit_rounds :
    (0 : Int) < 1 ∧ (1 : Int) ≤ highTable.currency ∧
    binary64 highTable.currency = highTable.currency ∧
    calculateHand (highTable.startNewHand 1).1.playerHand ≠ 21 ∧
    calculateHand (highTable.startNewHand 1).1.dealerHand ≠ 21 ∧
    (highTable.startNewHand 1).1.gameStatus = GameStatus.playing ∧
    (highTable.startNewHand 1).1.currentBet = 1 ∧
    (highTable.startNewHand 1).1.currency = 9007199254740992 ∧
    (highTable.startNewHand 1).1.currency ≠ highTable.currency - 1 := by
  decide

/-- C3, amended: dealer resolution of a single hand. With `p` the player total (not bust),
`d` the dealer total and `s = currentBet`, `finalizeDealerTurn` sets the status to
`complete` and yields `dealer_bust` if `d > 21`, `dealer_wins` and the bankroll as it was if
`21 ≥ d > p`, `player_wins` if `p > d`, `push` if `p = d` (in every status, `dealer_turn`
included); the bankroll after a win is `bankroll + 2s` and after a push `bankroll + s`, both
rounded to binary64, hence exactly these sums when `0 ≤ bankroll`, `0 ≤ s` and
`bankroll + 2s ≤ 2 ^ 53`. Hence a round on a bankroll of at most `2 ^ 53` that ends in push
and is resolved by one call of `finalizeDealerTurn` leaves the bankroll of before the deal:
at the deal itself (both blackjack), or at the dealer resolution reached from a dealt hand
by any sequence of hit, stand, double down and dealer draws. -/
theorem finalizeDealerTurn_single_hand (g : BlackjackGame)
    (hp : calculateHand g.playerHand ≤ 21) :
    g.finalizeDealerTurn.1.gameStatus = GameStatus.complete ∧
    (21 < calculateHand g.dealerHand →
      g.finalizeDealerTurn.outcome = some Outcome.dealer_bust ∧
      g.finalizeDealerTurn.1.currency = binary64 (g.currency + binary64 (g.currentBet * 2)) ∧
      (0 ≤ g.currency → 0 ≤ g.currentBet → g.currency + 2 * g.currentBet ≤ 2 ^ 53 →
        g.finalizeDealerTurn.1.currency = g.currency + 2 * g.currentBet)) ∧
    (calculateHand g.dealerHand ≤ 21 → calculateHand g.playerHand < calculateHand g.dealerHand →
      g.finalizeDealerTurn.outcome = some Outcome.dealer_wins ∧
      g.finalizeDealerTurn.1.currency = g.currency) ∧
    (calculateHand g.dealerHand < calculateHand g.playerHand →
      g.finalizeDealerTurn.outcome = some Outcome.player_wins ∧
      g.finalizeDealerTurn.1.currency = binary64 (g.currency + binary64 (g.currentBet * 2)) ∧
      (0 ≤ g.currency → 0 ≤ g.currentBet → g.currency + 2 * g.currentBet ≤ 2 ^ 53 →
        g.finalizeDealerTurn.1.currency = g.currency + 2 * g.currentBet)) ∧
    (calculateHand g.playerHand = calculateHand g.dealerHand →
      g.finalizeDealerTurn.outcome = some Outcome.push ∧
      g.finalizeDealerTurn.1.currency = binary64 (g.currency + g.currentBet) ∧
      (0 ≤ g.currency → 0 ≤ g.currentBet → g.currency + g.currentBet ≤ 2 ^ 53 →
        g.finalizeDealerTurn.1.currency = g.currency + g.currentBet)) ∧
    (∀ (g0 : BlackjackGame) (b : Int) (acts : List Action),
      0 < b → b ≤ g0.currency → g0.currency ≤ 2 ^ 53 →
      (∀ a ∈ acts, a.playsSingleHand = true) →
      ((g0.startNewHand b).outcome = some Outcome.push →
        (g0.startNewHand b).1.currency = g0.currency) ∧
      ((g0.startNewHand b).1.gameStatus = GameStatus.playing →
        (((g0.startNewHand b).1.run acts).finalizeDealerTurn).outcome = some Outcome.push →
        (((g0.startNewHand b).1.run acts).finalizeDealerTurn).1.currency = g0.currency)) := by
  have hwin : 0 ≤ g.currency → 0 ≤ g.currentBet → g.currency + 2 * g.currentBet ≤ 2 ^ 53 →
      binary64 (g.currency + binary64 (g.currentBet * 2)) = g.currency + 2 * g.currentBet := by
    intro h0 h1 h2
    rw [binary64_exact (g.currentBet * 2) (by omega) (by omega),
      binary64_exact _ (by omega) (by omega)]
    omega
  have hpush : 0 ≤ g.currency → 0 ≤ g.currentBet → g.currency + g.currentBet ≤ 2 ^ 53 →
      binary64 (g.currency + g.currentBet) = g.currency + g.currentBet :=
    fun h0 h1 h2 => binary64_exact _ (by omega) (by omega)
  rw [finalizeDealerTurn_outcome, finalizeDealerTurn_fst]
  refine ⟨rfl, ?_, ?_, ?_, ?_, ?_⟩
  · intro h
    simp only [gt_iff_lt, h, if_true, true_and]
    exact hwin
  · intro h1 h2
    have : ¬ calculateHand g.dealerHand > 21 := by omega
    simp [this, h2]
  · intro h
    have h1 : ¬ calculateHand g.dealerHand > 21 := by omega
    have h2 : ¬ calculateHand g.dealerHand > calculateHand g.playerHand := by omega
    simp only [gt_iff_lt, h1, h2, h, if_true, if_false, true_and]
    exact hwin
  · intro h
    have h1 : ¬ calculateHand g.dealerHand > 21 := by omega
    simp only [gt_iff_lt, h1, h, lt_self_iff_false, if_false, true_and]
    exact hpush
  · intro g0 b acts hpos hle hsafe hacts
    have hd : binary64 (g0.currency - b) = g0.currency - b :=
      binary64_exact _ (by omega) (by omega)
    have hback : binary64 (g0.currency - b + b) = g0.currency := by
      rw [binary64_exact _ (by omega) (by omega)]; omega
    constructor
    · rw [startNewHand_outcome g0 b hpos hle, startNewHand_fst g0 b hpos hle, hd, hback]
      by_cases hP : calculateHand (g0.dealInitial b).playerHand = 21 <;>
        by_cases hD : calculateHand (g0.dealInitial b).dealerHand = 21 <;>
        simp [hP, hD]
    · intro hplay hpush0
      have hrun := run_stake acts (g0.startNewHand b).1 hacts
      have hcur : (g0.startNewHand b).1.currency = g0.currency - b := by
        rw [startNewHand_fst g0 b hpos hle, hd] at hplay ⊢
        simp only at hplay ⊢
        split_ifs at hplay ⊢ with h1 h2 h3
        all_goals first | rfl | omega
      have hbet : (g0.startNewHand b).1.currentBet = b := by
        rw [startNewHand_fst g0 b hpos hle]; exact (dealInitial_frame g0 b).2.1
      rw [hcur, hbet] at hrun
      generalize (g0.startNewHand b).1.run acts = g1 at hrun hpush0 ⊢
      rw [finalizeDealerTurn_outcome] at hpush0
      rw [finalizeDealerTurn_fst]
      simp only [Option.some.injEq] at hpush0
      simp only
      split_ifs at hpush0 ⊢
      have hsum : g1.currency + g1.currentBet = g0.currency := by omega
      rw [hsum]
      exact binary64_exact _ (by omega) (by omega)

/-- C3 on a round with a double down: bet 100 on 5, 6 against 10, King; the double draws
a 9; 20 against 20 is a push and one call of `finalizeDealerTurn` puts the bankroll back at
1000. -/
theorem finalizeDealerTurn_single_hand_witness :
    calculateHand pushAfterDouble.playerHand ≤ 21 ∧
    calculateHand pushAfterDouble.playerHand = calculateHand pushAfterDouble.dealerHand ∧
    pushAfterDouble.currentBet = 200 ∧
    pushAfterDouble.finalizeDealerTurn.outcome = some Outcome.push ∧
    pushAfterDouble.finalizeDealerTurn.1.currency = pushAfterDouble.currency + pushAfterDouble.currentBet ∧
    pushAfterDouble.finalizeDealerTurn.1.currency = 1000 :=
  ⟨by decide, by decide, by decide,
    ((finalizeDealerTurn_single_hand pushAfterDouble (by decide)).2.2.2.2.1 (by decide)).1,
    ((finalizeDealerTurn_single_hand pushAfterDouble (by decide)).2.2.2.2.1 (by decide)).2.2
      (by decide) (by decide) (by decide),
    ((finalizeDealerTurn_single_hand pushAfterDouble (by decide)).2.2.2.2.2
      (tableWith [heart 9, heart 13, heart 10, heart 6, heart 5]) 100 [Action.doubleDown]
      (by decide) (by decide) (by decide) (by decide)).2 (by decide) (by decide)⟩

/-- C3 as stated fails in two ways. Beyond the exact range: in status `dealer_turn` with
bankroll 4503599627370497 and bet 2251799813685248 (reached by play) the player's 20 beats
the dealer's 19 and the bankroll becomes 9007199254740992, the binary64 value of
`bankroll + 2s = 9007199254740993`. On the double-down round the program runs: after the
double down of `pushAfterDouble` two runs of the dealer animation each end in
`finalizeDealerTurn`; both calls return `push` and the bankroll ends at 1200, not at the
1000 of before the deal. -/
theorem finalizeDealerTurn_credit_rounds :
    highStake.gameStatus = GameStatus.dealer_turn ∧
    highStake.playerHands = none ∧
    calculateHand highStake.playerHand = 20 ∧
    calculateHand highStake.dealerHand = 19 ∧
    highStake.currency = 4503599627370497 ∧
    highStake.currentBet = 2251799813685248 ∧
    highStake.finalizeDealerTurn.outcome = some Outcome.player_wins ∧
    highStake.finalizeDealerTurn.1.currency = 9007199254740992 ∧
    highStake.finalizeDealerTurn.1.currency ≠ highStake.currency + 2 * highStake.currentBet ∧
    (tableWith [heart 9, heart 13, heart 10, heart 6, heart 5]).currency = 1000 ∧
    pushAfterDouble.gameStatus = GameStatus.dealer_turn ∧
    pushAfterDouble.dealerNeedsCard = false ∧
    pushAfterDouble.finalizeDealerTurn.outcome = some Outcome.push ∧
    pushAfterDouble.finalizeDealerTurn.1.finalizeDealerTurn.outcome = some Outcome.push ∧
    pushAfterDouble.finalizeDealerTurn.1.finalizeDealerTurn.1.currency = 1200 := by
  decide

/-- C6 (hidden-card invariant), evaluated on `startNewHand`: two tables that differ only in
the card dealt second to the dealer both end in status `playing`, deal the same player hand
and the same dealer up-card, and yet return different objects, because the key
`dealerHand` holds both dealer cards (`hit` returns the first card and `null`, see
`hit_hides_hole_card`). -/
theorem startNewHand_shows_hole_card :
    (holeNine.startNewHand 50).1.gameStatus = GameStatus.playing ∧
    (holeEight.startNewHand 50).1.gameStatus = GameStatus.playing ∧
    (holeNine.startNewHand 50).1.playerHand = (holeEight.startNewHand 50).1.playerHand ∧
    (holeNine.startNewHand 50).1.dealerHand = [heart 7, heart 9] ∧
    (holeEight.startNewHand 50).1.dealerHand = [heart 7, heart 8] ∧
    (holeNine.startNewHand 50).returned.bind Snapshot.dealerHand
      = some [some (heart 7), some (heart 9)] ∧
    (holeEight.startNewHand 50).returned.bind Snapshot.dealerHand
      = some [some (heart 7), some (heart 8)] ∧
    (holeNine.startNewHand 50).returned ≠ (holeEight.startNewHand 50).returned := by
  decide

/-- C7: `hit` throws NotYourTurn exactly when the status is not `playing`, and then changes
nothing. In status `playing` it leaves bankroll, bet, split count and dealer hand as they
were and appends the card drawn to the active hand: the single hand, or
`playerHands[currentHandIndex]` after a split, every other hand staying as it was. If the
new total is at most 21, status and `currentHandIndex` are unchanged; if it exceeds 21 the
result is `bust` and either `currentHandIndex` advances by one with the status still
`playing` (later split hands remain) or the status becomes `complete` (last or only hand).
On a state with a dealer card and a valid hand index the call returns. -/
theorem hit_spec (g : BlackjackGame) :
    (g.hit.thrown = some GameError.notYourTurn ↔ g.gameStatus ≠ GameStatus.playing) ∧
    (g.gameStatus ≠ GameStatus.playing → g.hit.1 = g) ∧
    (g.hit.1.currency = g.currency ∧ g.hit.1.currentBet = g.currentBet ∧
      g.hit.1.splitCount = g.splitCount ∧ g.hit.1.dealerHand = g.dealerHand) ∧
    (g.gameStatus = GameStatus.playing → g.playerHands = none →
      g.hit.1.playerHand = g.playerHand ++ [g.draw.1] ∧
      g.hit.1.playerHands = none ∧
      g.hit.1.deck = g.draw.2.deck ∧
      g.hit.1.currentHandIndex = g.currentHandIndex ∧
      (calculateHand (g.playerHand ++ [g.draw.1]) ≤ 21 →
        g.hit.1.gameStatus = GameStatus.playing) ∧
      (21 < calculateHand (g.playerHand ++ [g.draw.1]) →
        g.hit.outcome = some Outcome.bust ∧ g.hit.1.gameStatus = GameStatus.complete) ∧
      (g.dealerHand ≠ [] → ∃ snap, g.hit.2 = Except.ok snap)) ∧
    (g.gameStatus = GameStatus.playing →
      ∀ hands hand, g.playerHands = some hands → hands[g.currentHandIndex]? = some hand →
        g.hit.1.playerHands = some (hands.set g.currentHandIndex (hand ++ [g.draw.1])) ∧
        g.hit.1.playerHand = g.playerHand ∧
        g.hit.1.deck = g.draw.2.deck ∧
        (∃ snap, g.hit.2 = Except.ok snap) ∧
        (calculateHand (hand ++ [g.draw.1]) ≤ 21 →
          g.hit.1.gameStatus = GameStatus.playing ∧
          g.hit.1.currentHandIndex = g.currentHandIndex) ∧
        (21 < calculateHand (hand ++ [g.draw.1]) →
          g.hit.outcome = some Outcome.bust ∧
          (g.currentHandIndex + 1 < hands.length →
            g.hit.1.currentHandIndex = g.currentHandIndex + 1 ∧
            g.hit.1.gameStatus = GameStatus.playing) ∧
          (hands.length ≤ g.currentHandIndex + 1 →
            g.hit.1.currentHandIndex = g.currentHandIndex ∧
            g.hit.1.gameStatus = GameStatus.complete))) := by
  refine ⟨⟨fun h hs => ?_, fun hs => ?_⟩, fun hs => ?_, hit_frame g, fun hs hn => ?_,
    fun hs hands hand hh hi => ?_⟩
  · rcases hit_playing_thrown g hs with h' | h' <;> rw [h'] at h <;> simp at h
  · rw [hit_not_playing g hs]; rfl
  · rw [hit_not_playing g hs]
  · have hfst := hit_single_fst g hs hn
    refine ⟨by rw [hfst], by rw [hfst]; exact hn, by rw [hfst], by rw [hfst], fun h => ?_,
      fun h => ⟨hit_single_outcome g hs hn h, ?_⟩, hit_single_returns g hs hn⟩
    · have h' : ¬ calculateHand (g.playerHand ++ [g.draw.1]) > 21 := by omega
      rw [hfst]; simp [h']
    · rw [hfst]; simp [h]
  · have hfst := hit_split_fst g hs hands hand hh hi
    refine ⟨by rw [hfst], by rw [hfst], by rw [hfst], hit_split_returns g hs hands hand hh hi,
      fun h => ?_, fun h => ⟨hit_split_outcome g hs hands hand hh hi h, fun h2 => ?_, fun h2 => ?_⟩⟩
    · have h' : ¬ calculateHand (hand ++ [g.draw.1]) > 21 := by omega
      rw [hfst]; simp [h']
    · have h2' : g.currentHandIndex < hands.length - 1 := by omega
      rw [hfst]; simp [h, h2']
    · have h2' : ¬ g.currentHandIndex < hands.length - 1 := by omega
      rw [hfst]; simp [h, h2']

/-- C7 on the table 5, 6 against 7, 9 with a King on top of the shoe: the hit draws the
King, the total 21 keeps the status `playing`, the bankroll stays at 950. -/
theorem hit_spec_witness :
    hitTable.gameStatus = GameStatus.playing ∧ hitTable.playerHands = none ∧
    hitTable.hit.1.playerHand = [heart 5, heart 6, heart 13] ∧
    hitTable.hit.1.gameStatus = GameStatus.playing ∧
    hitTable.hit.1.currency = 950 :=
  ⟨by decide, by decide,
    ((hit_spec hitTable).2.2.2.1 (by decide) (by decide)).1,
    ((hit_spec hitTable).2.2.2.1 (by decide) (by decide)).2.2.2.2.1 (by decide),
    (hit_spec hitTable).2.2.1.1⟩

/-- C8: `splitHand` throws the first applicable error, leaving the state as it was:
SplitLimitReached if `splitCount ≥ 3`; else NotYourTurn if the status is not `playing`;
else NotAPair unless the active hand has exactly two cards of equal blackjack value (10 and
King are a pair, three cards never are); else InsufficientFunds if the bankroll is below
`currentBet`. It returns exactly when none of the four conditions holds. The active hand
is `hand` (the hand index is valid, and is 0 while the hand is unsplit). -/
theorem splitHand_validates (g : BlackjackGame) (hand : List Card)
    (hactive : g.handToSplit = some hand)
    (hidx : g.playerHands = none → g.currentHandIndex = 0) :
    (3 ≤ g.splitCount → g.splitHand = (g, Except.error GameError.splitLimitReached)) ∧
    (g.splitCount < 3 → g.gameStatus ≠ GameStatus.playing →
      g.splitHand = (g, Except.error GameError.notYourTurn)) ∧
    (g.splitCount < 3 → g.gameStatus = GameStatus.playing → isPair hand = false →
      g.splitHand = (g, Except.error GameError.notAPair)) ∧
    (g.splitCount < 3 → g.gameStatus = GameStatus.playing → isPair hand = true →
      g.currency < g.currentBet →
      g.splitHand = (g, Except.error GameError.insufficientFunds)) ∧
    ((∃ snap, g.splitHand.2 = Except.ok snap) ↔
      g.splitCount < 3 ∧ g.gameStatus = GameStatus.playing ∧ isPair hand = true ∧
      g.currentBet ≤ g.currency) ∧
    (∀ s1 s2, isPair [Card.mk 10 s1, Card.mk 13 s2] = true) ∧
    (∀ a b c rest, isPair (a :: b :: c :: rest) = false) := by
  refine ⟨splitHand_limit g, splitHand_not_playing g,
    fun hc hs hp => splitHand_not_pair g hand hc hs hactive hp,
    fun hc hs hp hf => splitHand_no_funds g hand hc hs hactive hp hf,
    ⟨fun ⟨snap, hok⟩ => ?_, fun ⟨hc, hs, hp, hf⟩ => ?_⟩,
    fun _ _ => rfl, fun _ _ _ _ => rfl⟩
  · by_cases hc : g.splitCount < 3
    · by_cases hs : g.gameStatus = GameStatus.playing
      · cases hp : isPair hand with
        | false =>
          rw [splitHand_not_pair g hand hc hs hactive hp] at hok
          exact absurd hok (by simp)
        | true =>
          by_cases hf : g.currency < g.currentBet
          · rw [splitHand_no_funds g hand hc hs hactive hp hf] at hok
            exact absurd hok (by simp)
          · exact ⟨hc, hs, rfl, by omega⟩
      · rw [splitHand_not_playing g hc hs] at hok
        exact absurd hok (by simp)
    · rw [splitHand_limit g (by omega)] at hok
      exact absurd hok (by simp)
  · obtain ⟨c0, c1, rfl, hv⟩ := (isPair_iff hand).1 hp
    exact (splitHand_fst g c0 c1 hc hs hactive hv hf hidx).2


/-- C8 on a dealt pair of sevens with bankroll 950 and bet 50: the split returns. -/
theorem splitHand_validates_witness :
    splitTable.handToSplit = some [heart 7, Card.mk 7 Suit.Spades] ∧
    (splitTable.playerHands = none → splitTable.currentHandIndex = 0) ∧
    ∃ snap, splitTable.splitHand.2 = Except.ok snap :=
  ⟨by decide, fun _ => rfl,
    (splitHand_validates splitTable [heart 7, Card.mk 7 Suit.Spades] (by decide)
      (fun _ => rfl)).2.2.2.2.1.2 ⟨by decide, by decide, by decide, by decide⟩⟩

/-- C9: a successful `splitHand` on the active hand `[c1, c2]` at position `i` debits the
bankroll by `currentBet`, leaves `currentBet` and `currentHandIndex` as they were, adds one
to `splitCount`, and puts the two hands `[c1, d1]` and `[c2, d2]` (`d1`, `d2` the next two
cards drawn, in that order) in place of position `i` of the hand sequence, the other hands
keeping their order: the number of hands grows by one. -/
theorem splitHand_effect (g : BlackjackGame) (c1 c2 : Card)
    (hcount : g.splitCount < 3) (hplay : g.gameStatus = GameStatus.playing)
    (hactive : g.handToSplit = some [c1, c2])
    (hpair : c1.getBlackjackValue = c2.getBlackjackValue)
    (hfunds : g.currentBet ≤ g.currency)
    (hidx : g.playerHands = none → g.currentHandIndex = 0) :
    (∃ snap, g.splitHand.2 = Except.ok snap) ∧
    g.splitHand.1.currency = g.currency - g.currentBet ∧
    g.splitHand.1.currentBet = g.currentBet ∧
    g.splitHand.1.currentHandIndex = g.currentHandIndex ∧
    g.splitHand.1.splitCount = g.splitCount + 1 ∧
    g.handList[g.currentHandIndex]? = some [c1, c2] ∧
    g.splitHand.1.playerHands = some
      (g.handList.take g.currentHandIndex ++ [[c1, g.draw.1], [c2, g.draw.2.draw.1]]
        ++ g.handList.drop (g.currentHandIndex + 1)) ∧
    g.splitHand.1.handList.length = g.handList.length + 1 ∧
    g.splitHand.1.deck = g.draw.2.draw.2.deck ∧
    g.splitHand.1.dealerHand = g.dealerHand ∧
    g.splitHand.1.gameStatus = g.gameStatus := by
  obtain ⟨hfst, hok⟩ := splitHand_fst g c1 c2 hcount hplay hactive hpair hfunds hidx
  have hget : g.handList[g.currentHandIndex]? = some [c1, c2] := by
    cases hph : g.playerHands with
    | none =>
      have h0 := hidx hph
      simp only [BlackjackGame.handToSplit, hph] at hactive
      simp only [Option.some.injEq] at hactive
      simp [BlackjackGame.handList, hph, h0, hactive]
    | some hands =>
      simpa [BlackjackGame.handList, hph] using
        (handToSplit_index g [c1, c2] hactive hands hph).2
  have hlt : g.currentHandIndex < g.handList.length := by
    by_contra hc
    rw [List.getElem?_eq_none (by omega)] at hget
    exact absurd hget (by simp)
  refine ⟨hok, by rw [hfst], by rw [hfst], by rw [hfst], by rw [hfst], hget, by rw [hfst]; rfl,
    ?_, by rw [hfst], by rw [hfst], by rw [hfst]⟩
  rw [hfst]
  simp only [BlackjackGame.handList, splice2, List.length_append, List.length_take,
    List.length_drop, List.length_cons, List.length_nil]
  simp only [BlackjackGame.handList] at hlt
  omega

/-- C9 on the scenario bankroll 1000, bet 50, player 7, 7 against a dealer 4: after the
deal and the split the bankroll is 900, there are two hands of two cards, and `splitCount`
is 1. -/
theorem splitHand_effect_witness :
    splitTable.currency = 950 ∧ splitTable.currentBet = 50 ∧
    splitTable.playerHand = [heart 7, Card.mk 7 Suit.Spades] ∧
    splitTable.splitHand.1.currency = 900 ∧
    splitTable.splitHand.1.splitCount = 1 ∧
    splitTable.splitHand.1.playerHands
      = some [[heart 7, heart 2], [Card.mk 7 Suit.Spades, heart 3]] ∧
    splitTable.splitHand.1.handList.length = 2 :=
  ⟨by decide, by decide, by decide,
    (splitHand_effect splitTable (heart 7) (Card.mk 7 Suit.Spades) (by decide) (by decide)
      (by decide) (by decide) (by decide) (fun _ => rfl)).2.1,
    (splitHand_effect splitTable (heart 7) (Card.mk 7 Suit.Spades) (by decide) (by decide)
      (by decide) (by decide) (by decide) (fun _ => rfl)).2.2.2.2.1,
    (splitHand_effect splitTable (heart 7) (Card.mk 7 Suit.Spades) (by decide) (by decide)
      (by decide) (by decide) (by decide) (fun _ => rfl)).2.2.2.2.2.2.1,
    (splitHand_effect splitTable (heart 7) (Card.mk 7 Suit.Spades) (by decide) (by decide)
      (by decide) (by decide) (by decide) (fun _ => rfl)).2.2.2.2.2.2.2.1⟩

/-- C10, evaluated on the code: after a split `finalizeDealerTurn` does not look at
`playerHands`. It scores the field `playerHand`, which still holds the pair of before the
split, returns a single `result` and credits `currentBet` at most once. On the round
`splitRound` (bet 50, eights split into 8, King and 8, Queen, both stood at 18 against a
dealer 17) it returns `dealer_wins` and leaves the bankroll at 900, that is 100 below the
bankroll of before the deal, where one result per hand and 1100 are expected. -/
theorem finalizeDealerTurn_ignores_split_hands :
    splitRound.gameStatus = GameStatus.dealer_turn ∧
    splitRound.playerHands
      = some [[heart 8, heart 13], [Card.mk 8 Suit.Spades, heart 12]] ∧
    splitRound.playerHand = [heart 8, Card.mk 8 Suit.Spades] ∧
    splitRound.handList.map calculateHand = [18, 18] ∧
    calculateHand splitRound.dealerHand = 17 ∧
    splitRound.dealerNeedsCard = false ∧
    splitRound.currency = 900 ∧
    splitRound.finalizeDealerTurn.outcome = some Outcome.dealer_wins ∧
    splitRound.finalizeDealerTurn.1.currency = 900 ∧
    (∀ (g : BlackjackGame) (hs : Option (List (List Card))),
      (BlackjackGame.finalizeDealerTurn { g with playerHands := hs }).outcome
        = g.finalizeDealerTurn.outcome ∧
      (BlackjackGame.finalizeDealerTurn { g with playerHands := hs }).1.currency
        = g.finalizeDealerTurn.1.currency) := by
  refine ⟨by decide, by decide, by decide, by decide, by decide, by decide, by decide,
    by decide, by decide, fun g hs => ?_⟩
  rw [finalizeDealerTurn_outcome, finalizeDealerTurn_outcome, finalizeDealerTurn_fst,
    finalizeDealerTurn_fst]
  exact ⟨rfl, rfl⟩

/-- C19: whatever indices the shuffle picks (any tape of random outcomes), `Deck.reset`
leaves a shoe of exactly 52 cards in which each of the 13 ranks x 4 suits occurs exactly
once (every card has a rank from 1 to 13, no card twice); `shuffle` only permutes the cards
it is given. -/
theorem reset_full_deck (rnd : List Nat) :
    (Deck.reset rnd).1.cards.length = 52 ∧
    (∀ (v : Nat) (s : Suit), 1 ≤ v → v ≤ 13 →
      (Deck.reset rnd).1.cards.count (Card.mk v s) = 1) ∧
    (∀ c ∈ (Deck.reset rnd).1.cards, 1 ≤ c.value ∧ c.value ≤ 13) ∧
    (Deck.reset rnd).1.cards.Nodup ∧
    (∀ (d : Deck) (tape : List Nat), (d.shuffle tape).1.cards.Perm d.cards) := by
  have hp := reset_perm rnd
  refine ⟨reset_length rnd, fun v s h1 h13 => ?_, fun c hc => ?_, ?_, shuffle_perm⟩
  · rw [hp.count_eq]
    exact List.count_eq_one_of_mem freshCards_nodup (freshCards_mem v s h1 h13)
  · exact freshCards_rank c (hp.mem_iff.1 hc)
  · exact hp.nodup_iff.2 freshCards_nodup

/-- C19 on the empty tape: the reset shoe holds the Ace of hearts exactly once. -/
theorem reset_full_deck_witness :
    (1 : Nat) ≤ 1 ∧ (1 : Nat) ≤ 13 ∧ (Deck.reset []).1.cards.count (heart 1) = 1 :=
  ⟨by decide, by decide, (reset_full_deck []).2.1 1 Suit.Hearts (by decide) (by decide)⟩

/-- C20: `Deck.draw` always returns a card of the shoe. On a non-empty shoe it returns the
last card and leaves the other cards in place (one card fewer, no random outcome
consumed); on an empty shoe it first resets and returns the last card of the reset shoe,
leaving 51 cards. -/
theorem draw_spec (d : Deck) (rnd : List Nat) :
    (d.cards ≠ [] →
      (d.draw rnd).2.1.cards ++ [(d.draw rnd).1] = d.cards ∧
      (d.draw rnd).2.1.cards.length + 1 = d.cards.length ∧
      (d.draw rnd).2.2 = rnd) ∧
    (d.cards = [] →
      (d.draw rnd).2.1.cards ++ [(d.draw rnd).1] = (Deck.reset rnd).1.cards ∧
      (d.draw rnd).2.1.cards.length = 51 ∧
      (d.draw rnd).2.2 = (Deck.reset rnd).2) ∧
    ((d.draw rnd).1 ∈ d.cards ∨ (d.draw rnd).1 ∈ (Deck.reset rnd).1.cards) := by
  refine ⟨fun h => ?_, fun h => ?_, ?_⟩
  · obtain ⟨h1, h2⟩ := draw_of_ne_nil d rnd h
    refine ⟨h1, ?_, h2⟩
    rw [← h1]; simp
  · obtain ⟨h1, h2, h3⟩ := draw_of_nil d rnd h
    exact ⟨h1, h3, h2⟩
  · by_cases h : d.cards = []
    · right
      rw [← (draw_of_nil d rnd h).1]; simp
    · left
      have h1 := (draw_of_ne_nil d rnd h).1
      rw [← h1]; simp


/-- C20 on the shoe 2, 3 (the 3 is drawn, the 2 stays) and on the empty shoe (51 cards
stay). -/
theorem draw_spec_witness :
    ((Deck.mk [heart 2, heart 3]).draw []).2.1.cards ++ [((Deck.mk [heart 2, heart 3]).draw []).1]
      = [heart 2, heart 3] ∧
    ((Deck.mk []).draw []).2.1.cards.length = 51 :=
  ⟨((draw_spec (Deck.mk [heart 2, heart 3]) []).1 (by decide)).1,
   ((draw_spec (Deck.mk []) []).2.1 rfl).2.1⟩

/-- C11, evaluated on the code: `doubleDown` tests the funds before the status. In the
finished round `brokeTable` (status `complete`, bankroll 0, bet 1000) it throws
InsufficientFunds where NotYourTurn is expected, while `splitHand` in the same state throws
NotYourTurn. In general: InsufficientFunds whenever the bankroll is below `currentBet`,
whatever the status; NotYourTurn when the funds suffice and the status is not `playing`;
the state is left as it was in both cases. -/
theorem doubleDown_checks_funds_first :
    brokeTable.gameStatus = GameStatus.complete ∧
    brokeTable.currency = 0 ∧ brokeTable.currentBet = 1000 ∧
    brokeTable.doubleDown = (brokeTable, Except.error GameError.insufficientFunds) ∧
    brokeTable.splitHand = (brokeTable, Except.error GameError.notYourTurn) ∧
    (∀ g : BlackjackGame, g.currency < g.currentBet →
      g.doubleDown = (g, Except.error GameError.insufficientFunds)) ∧
    (∀ g : BlackjackGame, g.currentBet ≤ g.currency → g.gameStatus ≠ GameStatus.playing →
      g.doubleDown = (g, Except.error GameError.notYourTurn)) :=
  ⟨by decide, by decide, by decide, doubleDown_no_funds brokeTable (by decide),
    splitHand_not_playing brokeTable (by decide) (by decide),
    doubleDown_no_funds, doubleDown_not_playing⟩

/-- C12: a successful `doubleDown` (status `playing`, bankroll at least `currentBet = b`)
debits the bankroll by exactly `b`, sets `currentBet` to `2b` and appends the card drawn to
the active hand. If the new total is at most 21 the call is `stand` on that state: status
`dealer_turn` for a single or last hand, next hand with status `playing` otherwise. If a
single hand busts the result is `bust`, the status `complete` and nothing is paid (the
bankroll stays at the old bankroll minus `b`). -/
theorem doubleDown_effect (g : BlackjackGame) (hs : g.gameStatus = GameStatus.playing)
    (hf : g.currentBet ≤ g.currency) :
    g.doubleDown.1.currency = g.currency - g.currentBet ∧
    g.doubleDown.1.currentBet = 2 * g.currentBet ∧
    (g.playerHands = none →
      g.doubleDown.1.playerHand = g.playerHand ++ [g.draw.1] ∧
      g.doubleDown.1.deck = g.draw.2.deck ∧
      g.doubleDown.1.playerHands = none ∧
      (∃ snap, g.doubleDown.2 = Except.ok snap) ∧
      (calculateHand (g.playerHand ++ [g.draw.1]) ≤ 21 →
        g.doubleDown =
          BlackjackGame.stand
            { g with
              currency := g.currency - g.currentBet
              currentBet := g.currentBet * 2
              deck := g.draw.2.deck
              random := g.draw.2.random
              playerHand := g.playerHand ++ [g.draw.1] } ∧
        g.doubleDown.1.gameStatus = GameStatus.dealer_turn ∧
        g.doubleDown.1.currentHandIndex = g.currentHandIndex) ∧
      (21 < calculateHand (g.playerHand ++ [g.draw.1]) →
        g.doubleDown.outcome = some Outcome.bust ∧
        g.doubleDown.1.gameStatus = GameStatus.complete ∧
        g.doubleDown.1.currency = g.currency - g.currentBet)) ∧
    (∀ hands hand, g.playerHands = some hands → hands[g.currentHandIndex]? = some hand →
      g.doubleDown.1.playerHands
        = some (hands.set g.currentHandIndex (hand ++ [g.draw.1])) ∧
      g.doubleDown.1.playerHand = g.playerHand ∧
      g.doubleDown.1.deck = g.draw.2.deck ∧
      (∃ snap, g.doubleDown.2 = Except.ok snap) ∧
      (calculateHand (hand ++ [g.draw.1]) ≤ 21 →
        g.doubleDown =
          BlackjackGame.stand
            { g with
              currency := g.currency - g.currentBet
              currentBet := g.currentBet * 2
              deck := g.draw.2.deck
              random := g.draw.2.random
              playerHands := some (hands.set g.currentHandIndex (hand ++ [g.draw.1])) } ∧
        (g.currentHandIndex + 1 < hands.length →
          g.doubleDown.1.currentHandIndex = g.currentHandIndex + 1 ∧
          g.doubleDown.1.gameStatus = GameStatus.playing) ∧
        (hands.length ≤ g.currentHandIndex + 1 →
          g.doubleDown.1.currentHandIndex = g.currentHandIndex ∧
          g.doubleDown.1.gameStatus = GameStatus.dealer_turn))) := by
  obtain ⟨hc, hb⟩ := doubleDown_debit g hs hf
  refine ⟨hc, by rw [hb]; ring, fun hn => ?_, fun hands hand hh hi => ?_⟩
  · have hd := doubleDown_single g hs hf hn
    by_cases h : calculateHand (g.playerHand ++ [g.draw.1]) > 21
    · rw [if_pos h] at hd
      have h' : ¬ calculateHand (g.playerHand ++ [g.draw.1]) ≤ 21 := by omega
      refine ⟨by rw [hd], by rw [hd], by rw [hd]; exact hn, ⟨_, by rw [hd]⟩,
        fun h2 => absurd h2 h', fun _ => ⟨by rw [hd]; rfl, by rw [hd], hc⟩⟩
    · rw [if_neg h] at hd
      have h' : ¬ 21 < calculateHand (g.playerHand ++ [g.draw.1]) := h
      refine ⟨by rw [hd, stand_fst], by rw [hd, stand_fst], by rw [hd, stand_fst]; exact hn,
        by rw [hd]; exact stand_returns _,
        fun _ => ⟨hd, by rw [hd, stand_fst]; simp [hn], by rw [hd, stand_fst]; simp [hn]⟩,
        fun h2 => absurd h2 h'⟩
  · have hd := doubleDown_split g hs hf hands hand hh hi
    by_cases h : calculateHand (hand ++ [g.draw.1]) > 21
    · rw [if_pos h] at hd
      have h' : ¬ calculateHand (hand ++ [g.draw.1]) ≤ 21 := by omega
      exact ⟨by rw [hd], by rw [hd], by rw [hd], ⟨_, by rw [hd]⟩, fun h2 => absurd h2 h'⟩
    · rw [if_neg h] at hd
      refine ⟨by rw [hd, stand_fst], by rw [hd, stand_fst], by rw [hd, stand_fst],
        by rw [hd]; exact stand_returns _, fun _ => ⟨hd, fun h2 => ?_, fun h2 => ?_⟩⟩
      · have h3 : g.currentHandIndex < hands.length - 1 := by omega
        rw [hd, stand_fst]; simp [h3, hs]
      · have h3 : ¬ g.currentHandIndex < hands.length - 1 := by omega
        rw [hd, stand_fst]; simp [h3]


/-- C12 on bet 100 with 5, 6 against 10, King and a 9 on top of the shoe: the bankroll goes
from 900 to 800, the bet to 200, the hand to 5, 6, 9 and the status to `dealer_turn`. -/
theorem doubleDown_effect_witness :
    doubleTable.gameStatus = GameStatus.playing ∧ doubleTable.currentBet ≤ doubleTable.currency ∧
    doubleTable.doubleDown.1.currency = 800 ∧
    doubleTable.doubleDown.1.currentBet = 200 ∧
    doubleTable.doubleDown.1.playerHand = [heart 5, heart 6, heart 9] ∧
    doubleTable.doubleDown.1.gameStatus = GameStatus.dealer_turn :=
  ⟨by decide, by decide,
    (doubleDown_effect doubleTable (by decide) (by decide)).1,
    (doubleDown_effect doubleTable (by decide) (by decide)).2.1,
    ((doubleDown_effect doubleTable (by decide) (by decide)).2.2.1 (by decide)).1,
    (((doubleDown_effect doubleTable (by decide) (by decide)).2.2.1 (by decide)).2.2.2.2.1
      (by decide)).2.1⟩

/-- C17: `stand` in status `playing`. If the hand is split and hands remain after the
active one, `currentHandIndex` grows by exactly one and the status stays `playing`;
otherwise (single hand, or last split hand) the status becomes `dealer_turn` and the index
stays. In both cases the call returns, no card is drawn (shoe and random tape as they
were) and bankroll, bet, split count and all hands are unchanged. -/
theorem stand_spec (g : BlackjackGame) (hs : g.gameStatus = GameStatus.playing) :
    (∀ hands, g.playerHands = some hands → g.currentHandIndex + 1 < hands.length →
      g.stand.1.currentHandIndex = g.currentHandIndex + 1 ∧
      g.stand.1.gameStatus = GameStatus.playing) ∧
    ((g.playerHands = none ∨
        ∃ hands, g.playerHands = some hands ∧ hands.length ≤ g.currentHandIndex + 1) →
      g.stand.1.gameStatus = GameStatus.dealer_turn ∧
      g.stand.1.currentHandIndex = g.currentHandIndex) ∧
    (g.stand.1.deck = g.deck ∧ g.stand.1.random = g.random ∧
      g.stand.1.currency = g.currency ∧ g.stand.1.currentBet = g.currentBet ∧
      g.stand.1.splitCount = g.splitCount ∧ g.stand.1.playerHand = g.playerHand ∧
      g.stand.1.playerHands = g.playerHands ∧ g.stand.1.dealerHand = g.dealerHand) ∧
    (∃ snap, g.stand.2 = Except.ok snap) := by
  refine ⟨fun hands hh hlt => ?_, fun h => ?_, ?_, stand_returns g⟩
  · have h3 : g.currentHandIndex < hands.length - 1 := by omega
    rw [stand_fst]; simp [hh, h3, hs]
  · rcases h with hn | ⟨hands, hh, hle⟩
    · rw [stand_fst]; simp [hn]
    · have h3 : ¬ g.currentHandIndex < hands.length - 1 := by omega
      rw [stand_fst]; simp [hh, h3]
  · rw [stand_fst]; exact ⟨rfl, rfl, rfl, rfl, rfl, rfl, rfl, rfl⟩

/-- C17 on a dealt single hand (the stand hands over to the dealer) and on the first of
two split hands (the stand moves to the second hand). -/
theorem stand_spec_witness :
    hitTable.gameStatus = GameStatus.playing ∧
    hitTable.stand.1.gameStatus = GameStatus.dealer_turn ∧
    splitTable.splitHand.1.gameStatus = GameStatus.playing ∧
    (BlackjackGame.stand splitTable.splitHand.1).1.currentHandIndex = 1 ∧
    (BlackjackGame.stand splitTable.splitHand.1).1.gameStatus = GameStatus.playing :=
  ⟨by decide,
    ((stand_spec hitTable (by decide)).2.1 (Or.inl (by decide))).1,
    by decide,
    ((stand_spec splitTable.splitHand.1 (by decide)).1
      [[heart 7, heart 2], [Card.mk 7 Suit.Spades, heart 3]] (by decide) (by decide)).1,
    ((stand_spec splitTable.splitHand.1 (by decide)).1
      [[heart 7, heart 2], [Card.mk 7 Suit.Spades, heart 3]] (by decide) (by decide)).2⟩

/-- C18, evaluated on the code: `stand` has no status test. It never throws; on an idle
table, on a new game and on the finished round `brokeTable` it returns and moves the status
to `dealer_turn`, where NotYourTurn and an unchanged state are expected (`hit` in the same
idle state throws NotYourTurn). -/
theorem stand_has_no_status_guard :
    (tableWith []).gameStatus = GameStatus.idle ∧
    (tableWith []).stand.thrown = none ∧
    (tableWith []).stand.1.gameStatus = GameStatus.dealer_turn ∧
    (tableWith []).hit.thrown = some GameError.notYourTurn ∧
    brokeTable.gameStatus = GameStatus.complete ∧
    brokeTable.stand.thrown = none ∧
    brokeTable.stand.1.gameStatus = GameStatus.dealer_turn ∧
    (∀ rnd, (BlackjackGame.new rnd).gameStatus = GameStatus.idle ∧
      (BlackjackGame.new rnd).stand.1.gameStatus = GameStatus.dealer_turn) ∧
    (∀ g : BlackjackGame, g.stand.thrown = none) := by
  refine ⟨by decide, by decide, by decide, by decide, by decide, by decide, by decide,
    fun rnd => ⟨rfl, ?_⟩, fun g => ?_⟩
  · rw [stand_fst]; rfl
  · obtain ⟨snap, h⟩ := stand_returns g
    simp [Step.thrown, h]

/-- C13: the dealer's draw loop. `dealerNeedsCard` is true exactly when the dealer total is
below 17. From a two-card dealer hand, with every card of rank at least 1 (in the hand and
in the shoe, whatever its order), the loop `while dealerNeedsCard: dealerDrawOneCard`
terminates after at most 15 draws (fuel 15, and any larger fuel, gives the same final
state); it ends with a dealer total between 17 and 26, draws nothing when the dealer
starts at 17 or more and at least one card when the dealer starts at 16 or less. -/
theorem dealer_loop_terminates (g : BlackjackGame) (c1 c2 : Card)
    (hhand : g.dealerHand = [c1, c2]) (h1 : 1 ≤ c1.value) (h2 : 1 ≤ c2.value)
    (hdeck : ∀ c ∈ g.deck.cards, 1 ≤ c.value) :
    (∀ s : BlackjackGame, s.dealerNeedsCard = true ↔ calculateHand s.dealerHand < 17) ∧
    ∃ g' drawn, g.dealerLoop 15 = some g' ∧
      (∀ n, 15 ≤ n → g.dealerLoop n = some g') ∧
      g'.dealerHand = g.dealerHand ++ drawn ∧ drawn.length ≤ 15 ∧
      17 ≤ calculateHand g'.dealerHand ∧ calculateHand g'.dealerHand ≤ 26 ∧
      (17 ≤ calculateHand g.dealerHand → g' = g) ∧
      (calculateHand g.dealerHand ≤ 16 → 1 ≤ drawn.length) := by
  refine ⟨fun s => by simp [BlackjackGame.dealerNeedsCard], ?_⟩
  have hv1 := hardValue_bounds c1
  have hv2 := hardValue_bounds c2
  have hsum : hardSum g.dealerHand = hardValue c1 + hardValue c2 := by
    rw [hhand]; simp [hardSum]
  have hb := calculateHand_bounds g.dealerHand
  have hlo1 := hv1.2 h1
  have hlo2 := hv2.2 h2
  obtain ⟨g', drawn, hloop, hd, hlen, hlo, hhi, hone⟩ :=
    dealerLoop_spec 15 g hdeck (by omega) (by rcases hb.2 with h | h <;> omega)
  refine ⟨g', drawn, hloop, dealerLoop_mono 15 g g' hloop, hd, hlen, hlo, hhi, fun h17 => ?_,
    hone⟩
  have := dealerLoop_of_stands 15 g h17
  rw [hloop] at this
  exact Option.some.inj this

/-- C13 on a dealer holding 10, 6 with a 5 on top of the shoe: the loop ends. -/
theorem dealer_loop_terminates_witness :
    dealerTable.dealerHand = [heart 10, heart 6] ∧
    (∀ c ∈ dealerTable.deck.cards, 1 ≤ c.value) ∧
    ∃ g' drawn, dealerTable.dealerLoop 15 = some g' ∧
      (∀ n, 15 ≤ n → dealerTable.dealerLoop n = some g') ∧
      g'.dealerHand = dealerTable.dealerHand ++ drawn ∧ drawn.length ≤ 15 ∧
      17 ≤ calculateHand g'.dealerHand ∧ calculateHand g'.dealerHand ≤ 26 ∧
      (17 ≤ calculateHand dealerTable.dealerHand → g' = dealerTable) ∧
      (calculateHand dealerTable.dealerHand ≤ 16 → 1 ≤ drawn.length) :=
  ⟨by decide, by decide,
    (dealer_loop_terminates dealerTable (heart 10) (heart 6) (by decide) (by decide)
      (by decide) (by decide)).2⟩

/-- C14: the split-limit invariant. In every state reached from a new game by any sequence
of calls (`startNewHand`, `hit`, `stand`, `doubleDown`, `splitHand`, and the dealer's two
methods), returning or throwing, `splitCount` is at most 3, the split-hand sequence when
present holds between 2 and 4 hands and `currentHandIndex` points into it; `splitCount` is
the number of `splitHand` calls that returned, so a `splitHand` call made after three of
them throws SplitLimitReached and changes nothing. -/
theorem split_limit_invariant (rnd : List Nat) (acts : List Action) :
    ((BlackjackGame.new rnd).run acts).splitCount ≤ 3 ∧
    (∀ hands, ((BlackjackGame.new rnd).run acts).playerHands = some hands →
      2 ≤ hands.length ∧ hands.length ≤ 4 ∧
      ((BlackjackGame.new rnd).run acts).currentHandIndex < hands.length) ∧
    ((BlackjackGame.new rnd).run acts).splitCount
      = successfulSplits (BlackjackGame.new rnd) acts ∧
    (3 ≤ successfulSplits (BlackjackGame.new rnd) acts →
      ((BlackjackGame.new rnd).run acts).splitHand
        = ((BlackjackGame.new rnd).run acts, Except.error GameError.splitLimitReached)) := by
  obtain ⟨hi0, hf0⟩ := invariant_new rnd
  have hi := (invariant_run acts _ hi0 hf0).1
  have hcount := run_splitCount acts _ hi0 hf0
  have hzero : (BlackjackGame.new rnd).splitCount = 0 := rfl
  rw [hzero, Nat.zero_add] at hcount
  have hi' := (splitInvariant_iff _).1 hi
  refine ⟨hi'.1, fun hands hh => ?_, hcount, fun h3 => ?_⟩
  · obtain ⟨h2, hle, hlt⟩ := hi'.2.2 hands hh
    exact ⟨h2, by have := hi'.1; omega, hlt⟩
  · exact splitHand_limit _ (by omega)

/-- C14 on the new game of the empty tape after one `splitHand` call (which throws, the
game being idle): no split is counted. -/
theorem split_limit_invariant_witness :
    ((BlackjackGame.new []).run [Action.splitHand]).splitCount ≤ 3 ∧
    ((BlackjackGame.new []).run [Action.splitHand]).splitCount
      = successfulSplits (BlackjackGame.new []) [Action.splitHand] :=
  ⟨(split_limit_invariant [] [Action.splitHand]).1,
   (split_limit_invariant [] [Action.splitHand]).2.2.1⟩

/-- C15, evaluated on the code: `startNewHand` resets `playerHands` and `currentHandIndex`
but never assigns `splitCount`, so the count of an earlier round is carried over. In
`secondRound` a hand has just been dealt (status `playing`, no split hands) and
`splitCount` is 1, where 0 is expected. In general `startNewHand` leaves `splitCount` as
it was, whether it returns or throws. -/
theorem startNewHand_keeps_splitCount :
    secondRound.gameStatus = GameStatus.playing ∧
    secondRound.playerHands = none ∧
    secondRound.playerHand = [heart 5, heart 6] ∧
    secondRound.splitCount = 1 ∧
    (∀ (g : BlackjackGame) (bet : Int), (g.startNewHand bet).1.splitCount = g.splitCount) := by
  refine ⟨by decide, by decide, by decide, by decide, fun g bet => ?_⟩
  by_cases h : 0 < bet ∧ bet ≤ g.currency
  · rw [startNewHand_fst g bet h.1 h.2]; exact (dealInitial_frame g bet).2.2.2.2.2.1
  · rw [startNewHand_rejected g bet h]

/-- C22: table selection in `calculateBestMove`. For card values and a dealer up-card from
2 to 11 (Ace = 11) a move is always recommended: the move of `getPairStrategy` on equal
cards; otherwise, when one card is an Ace, the move of `getSoftTotalStrategy` on the sum
(which lies in 13..21 and is not reduced); otherwise the move of `getHardTotalStrategy` on
the sum. A pair of Aces gives split, a hard 11 double and a hard 17 stand against every
dealer up-card, and split is never recommended for two different cards. -/
theorem advisor_selection (c1 c2 d : Int) (h1 : 2 ≤ c1 ∧ c1 ≤ 11) (h2 : 2 ≤ c2 ∧ c2 ≤ 11)
    (hd : 2 ≤ d ∧ d ≤ 11) :
    (∃ r, calculateBestMove c1 c2 d = Except.ok (some r)) ∧
    (c1 = c2 → recommendedMove c1 c2 d = some (getPairStrategy c1 d).move) ∧
    (c1 ≠ c2 → (c1 = 11 ∨ c2 = 11) →
      13 ≤ c1 + c2 ∧ c1 + c2 ≤ 21 ∧
      recommendedMove c1 c2 d = (getSoftTotalStrategy (c1 + c2) d).map Advice.move) ∧
    (c1 ≠ c2 → c1 ≠ 11 → c2 ≠ 11 →
      recommendedMove c1 c2 d = some (getHardTotalStrategy (c1 + c2) d).move) ∧
    recommendedMove 11 11 d = some Move.split ∧
    (c1 ≠ c2 → c1 ≠ 11 → c2 ≠ 11 → c1 + c2 = 11 →
      recommendedMove c1 c2 d = some Move.double) ∧
    (c1 ≠ c2 → c1 ≠ 11 → c2 ≠ 11 → c1 + c2 = 17 →
      recommendedMove c1 c2 d = some Move.stand) ∧
    (c1 ≠ c2 → recommendedMove c1 c2 d ≠ some Move.split) := by
  have hrec := recommendedMove_eq c1 c2 d (by omega) (by omega) (by omega)
  have hsoft : c1 ≠ c2 → (c1 = 11 ∨ c2 = 11) →
      recommendedMove c1 c2 d = (getSoftTotalStrategy (c1 + c2) d).map Advice.move := by
    intro hne ha
    have hle : ¬ c1 + c2 > 21 := by omega
    rw [hrec, if_neg hne, if_pos ha, if_neg hle]
  have hhard : c1 ≠ c2 → c1 ≠ 11 → c2 ≠ 11 →
      recommendedMove c1 c2 d = some (getHardTotalStrategy (c1 + c2) d).move := by
    intro hne ha hb
    have hno : ¬ (c1 = 11 ∨ c2 = 11) := by omega
    rw [hrec, if_neg hne, if_neg hno]
  refine ⟨?_, fun he => by rw [hrec, if_pos he], fun hne ha => ⟨by omega, by omega, hsoft hne ha⟩,
    hhard, ?_, fun hne ha hb h11 => ?_, fun hne ha hb h17 => ?_, fun hne => ?_⟩
  · have hsome : ∃ m, recommendedMove c1 c2 d = some m := by
      by_cases he : c1 = c2
      · exact ⟨_, by rw [hrec, if_pos he]⟩
      · by_cases ha : c1 = 11 ∨ c2 = 11
        · obtain ⟨a, hsa⟩ := (soft_table (c1 + c2) d).1
          exact ⟨a.move, by rw [hsoft he ha, hsa]; rfl⟩
        · exact ⟨_, hhard he (by omega) (by omega)⟩
    obtain ⟨m, hm⟩ := hsome
    unfold recommendedMove at hm
    cases hc : calculateBestMove c1 c2 d with
    | error e => rw [hc] at hm; simp at hm
    | ok o =>
      cases o with
      | none => rw [hc] at hm; simp at hm
      | some r => exact ⟨r, rfl⟩
  · rw [recommendedMove_eq 11 11 d (by decide) (by decide) (by omega), if_pos rfl,
      getPairStrategy_move, if_pos rfl]
  · rw [hhard hne ha hb, (hard_table (c1 + c2) d).2.2.2.2.2.1 h11]
  · rw [hhard hne ha hb, (hard_table (c1 + c2) d).1 (by omega)]
  · by_cases ha : c1 = 11 ∨ c2 = 11
    · rw [hsoft hne ha]; exact soft_never_split _ _
    · rw [hhard hne (by omega) (by omega)]
      intro h
      exact hard_never_split _ _ (Option.some.inj h)

/-- C22 on a pair of Aces against a dealer 6: split. -/
theorem advisor_selection_witness :
    ((2 : Int) ≤ 11 ∧ (11 : Int) ≤ 11) ∧ ((2 : Int) ≤ 6 ∧ (6 : Int) ≤ 11) ∧
    recommendedMove 11 11 6 = some Move.split :=
  ⟨by decide, by decide,
    (advisor_selection 11 11 6 (by decide) (by decide) (by decide)).2.2.2.2.1⟩

/-- C23: the pair table. For every dealer up-card `d`, `getPairStrategy` returns: Aces
split; 10s stand; 9s stand if `d` is 7, 10 or 11 (Ace), else split; 8s split; 7s split if
`d ≤ 7`, else hit; 6s split if `d ≤ 6`, else hit; 5s double if `d ≤ 9`, else hit; 4s split
if `d` is 5 or 6, else hit; 3s and 2s split if `d ≤ 7`, else hit. -/
theorem pair_table (d : Int) :
    (getPairStrategy 11 d).move = Move.split ∧
    (getPairStrategy 10 d).move = Move.stand ∧
    ((d = 7 ∨ d = 10 ∨ d = 11) → (getPairStrategy 9 d).move = Move.stand) ∧
    (d ≠ 7 → d ≠ 10 → d ≠ 11 → (getPairStrategy 9 d).move = Move.split) ∧
    (getPairStrategy 8 d).move = Move.split ∧
    (d ≤ 7 → (getPairStrategy 7 d).move = Move.split) ∧
    (7 < d → (getPairStrategy 7 d).move = Move.hit) ∧
    (d ≤ 6 → (getPairStrategy 6 d).move = Move.split) ∧
    (6 < d → (getPairStrategy 6 d).move = Move.hit) ∧
    (d ≤ 9 → (getPairStrategy 5 d).move = Move.double) ∧
    (9 < d → (getPairStrategy 5 d).move = Move.hit) ∧
    ((d = 5 ∨ d = 6) → (getPairStrategy 4 d).move = Move.split) ∧
    (d ≠ 5 → d ≠ 6 → (getPairStrategy 4 d).move = Move.hit) ∧
    (d ≤ 7 → (getPairStrategy 3 d).move = Move.split ∧ (getPairStrategy 2 d).move = Move.split) ∧
    (7 < d → (getPairStrategy 3 d).move = Move.hit ∧ (getPairStrategy 2 d).move = Move.hit) := by
  refine ⟨?_, ?_, ?_, ?_, ?_, ?_, ?_, ?_, ?_, ?_, ?_, ?_, ?_, ?_, ?_⟩
  · rw [getPairStrategy_move]; norm_num
  · rw [getPairStrategy_move]; norm_num
  · intro h; rw [getPairStrategy_move]; norm_num [h]
  · intro h1 h2 h3; rw [getPairStrategy_move]; norm_num [h1, h2, h3]
  · rw [getPairStrategy_move]; norm_num
  · intro h; rw [getPairStrategy_move]; norm_num [h]
  · intro h; rw [getPairStrategy_move]; norm_num [h]
  · intro h; rw [getPairStrategy_move]; norm_num [h]
  · intro h; rw [getPairStrategy_move]; norm_num [h]
  · intro h; rw [getPairStrategy_move]; norm_num [h]
  · intro h; rw [getPairStrategy_move]; norm_num [h]
  · intro h; rw [getPairStrategy_move]; norm_num [h]
  · intro h1 h2; rw [getPairStrategy_move]; norm_num [h1, h2]
  · intro h; rw [getPairStrategy_move, getPairStrategy_move]; norm_num [h]
  · intro h; rw [getPairStrategy_move, getPairStrategy_move]; norm_num [h]

/-- C23 on a pair of 9s against a dealer 10: stand. -/
theorem pair_table_witness : (getPairStrategy 9 10).move = Move.stand :=
  (pair_table 10).2.2.1 (Or.inr (Or.inl rfl))

/-- C24: the tables keyed by the total. For every integer total `t` and dealer up-card
`d`, `getSoftTotalStrategy` returns a defined advice with move: stand for `t ≥ 19` except
double at `t = 19`, `d = 6`; at 18 hit if `d ≥ 9`, stand if `d` is 7 or 8, double if
`d ≤ 6`; at 17 double if `3 ≤ d ≤ 6`, else hit; at 16 or less double if `4 ≤ d ≤ 6`, else
hit. `getHardTotalStrategy` returns: stand for `t ≥ 17`; for 13..16 stand if `d ≤ 6`, else
hit; at 12 stand if `4 ≤ d ≤ 6`, else hit; at 11 double; at 10 hit if `d ≥ 10`, else
double; at 9 double if `3 ≤ d ≤ 6`, else hit; at 8 or less hit. -/
theorem total_tables (t d : Int) :
    ((∃ a, getSoftTotalStrategy t d = some a) ∧
      (19 ≤ t → ¬ (t = 19 ∧ d = 6) →
        (getSoftTotalStrategy t d).map Advice.move = some Move.stand) ∧
      (t = 19 → d = 6 → (getSoftTotalStrategy t d).map Advice.move = some Move.double) ∧
      (t = 18 → 9 ≤ d → (getSoftTotalStrategy t d).map Advice.move = some Move.hit) ∧
      (t = 18 → (d = 7 ∨ d = 8) →
        (getSoftTotalStrategy t d).map Advice.move = some Move.stand) ∧
      (t = 18 → d ≤ 6 → (getSoftTotalStrategy t d).map Advice.move = some Move.double) ∧
      (t = 17 → 3 ≤ d → d ≤ 6 →
        (getSoftTotalStrategy t d).map Advice.move = some Move.double) ∧
      (t = 17 → (d < 3 ∨ 6 < d) → (getSoftTotalStrategy t d).map Advice.move = some Move.hit) ∧
      (t ≤ 16 → 4 ≤ d → d ≤ 6 →
        (getSoftTotalStrategy t d).map Advice.move = some Move.double) ∧
      (t ≤ 16 → (d < 4 ∨ 6 < d) →
        (getSoftTotalStrategy t d).map Advice.move = some Move.hit)) ∧
    ((17 ≤ t → (getHardTotalStrategy t d).move = Move.stand) ∧
      (13 ≤ t → t ≤ 16 → d ≤ 6 → (getHardTotalStrategy t d).move = Move.stand) ∧
      (13 ≤ t → t ≤ 16 → 6 < d → (getHardTotalStrategy t d).move = Move.hit) ∧
      (t = 12 → 4 ≤ d → d ≤ 6 → (getHardTotalStrategy t d).move = Move.stand) ∧
      (t = 12 → (d < 4 ∨ 6 < d) → (getHardTotalStrategy t d).move = Move.hit) ∧
      (t = 11 → (getHardTotalStrategy t d).move = Move.double) ∧
      (t = 10 → 10 ≤ d → (getHardTotalStrategy t d).move = Move.hit) ∧
      (t = 10 → d < 10 → (getHardTotalStrategy t d).move = Move.double) ∧
      (t = 9 → 3 ≤ d → d ≤ 6 → (getHardTotalStrategy t d).move = Move.double) ∧
      (t = 9 → (d < 3 ∨ 6 < d) → (getHardTotalStrategy t d).move = Move.hit) ∧
      (t ≤ 8 → (getHardTotalStrategy t d).move = Move.hit)) :=
  ⟨soft_table t d, hard_table t d⟩

/-- C24 on a soft 18 against a dealer 9 (hit) and a hard 12 against a dealer 4 (stand). -/
theorem total_tables_witness :
    (getSoftTotalStrategy 18 9).map Advice.move = some Move.hit ∧
    (getHardTotalStrategy 12 4).move = Move.stand :=
  ⟨(total_tables 18 9).1.2.2.2.1 rfl (by decide),
   (total_tables 12 4).2.2.2.2.1 rfl (by decide) (by decide)⟩

/-- C25, evaluated on the code: a double down that busts a split hand ends the whole
round. On `splitDoubleTable` (hands 8, King and 8, Queen, the first one active, a 10 on
top of the shoe) `doubleDown` busts the first hand and sets the status to `complete` with
`currentHandIndex` still 0, so the second hand is never played, while `hit` in the same
state busts the same hand, moves to hand 1 and keeps the status `playing`. In general a
successful `doubleDown` that busts a split hand sets `complete` and keeps the index,
however many hands remain. -/
theorem doubleDown_bust_ends_round :
    splitDoubleTable.gameStatus = GameStatus.playing ∧
    splitDoubleTable.playerHands
      = some [[heart 8, heart 13], [Card.mk 8 Suit.Spades, heart 12]] ∧
    splitDoubleTable.currentHandIndex = 0 ∧
    splitDoubleTable.doubleDown.outcome = some Outcome.bust ∧
    splitDoubleTable.doubleDown.1.gameStatus = GameStatus.complete ∧
    splitDoubleTable.doubleDown.1.currentHandIndex = 0 ∧
    splitDoubleTable.hit.outcome = some Outcome.bust ∧
    splitDoubleTable.hit.1.gameStatus = GameStatus.playing ∧
    splitDoubleTable.hit.1.currentHandIndex = 1 ∧
    (∀ (g : BlackjackGame) (hands : List (List Card)) (hand : List Card),
      g.gameStatus = GameStatus.playing → g.currentBet ≤ g.currency →
      g.playerHands = some hands → hands[g.currentHandIndex]? = some hand →
      21 < calculateHand (hand ++ [g.draw.1]) →
        g.doubleDown.1.gameStatus = GameStatus.complete ∧
        g.doubleDown.1.currentHandIndex = g.currentHandIndex) := by
  refine ⟨by decide, by decide, by decide, by decide, by decide, by decide, by decide,
    by decide, by decide, fun g hands hand hs hf hh hi hb => ?_⟩
  rw [doubleDown_split g hs hf hands hand hh hi, if_pos hb]
  exact ⟨rfl, rfl⟩

/-- C26, evaluated on the code: `finalizeDealerTurn` has no status test and credits the
bankroll each time it is called. On the round `pushAfterDouble` (status `dealer_turn`, bet
200 after the double, 20 against 20) the first call returns the stake and sets `complete`
(bankroll 1000); a second call, made in status `complete`, credits the stake again
(bankroll 1200). In general what it credits does not depend on the status. -/
theorem finalizeDealerTurn_credits_again :
    pushAfterDouble.gameStatus = GameStatus.dealer_turn ∧
    pushAfterDouble.finalizeDealerTurn.1.gameStatus = GameStatus.complete ∧
    pushAfterDouble.finalizeDealerTurn.1.currency = 1000 ∧
    (BlackjackGame.finalizeDealerTurn pushAfterDouble.finalizeDealerTurn.1).1.currency
      = 1200 ∧
    (∀ (g : BlackjackGame) (st : GameStatus),
      (BlackjackGame.finalizeDealerTurn { g with gameStatus := st }).1.currency
        = g.finalizeDealerTurn.1.currency) := by
  refine ⟨by decide, by decide, by decide, by decide, fun g st => ?_⟩
  rw [finalizeDealerTurn_fst, finalizeDealerTurn_fst]

/-- C21: `Deck.shuffle` is an unbiased permutation. On a shoe of `n` distinct cards the
map from the sequences of index choices (the choice at index `i` being at most `i`, for
`i` from `n - 1` down to 1) to the resulting orders is a bijection onto the permutations of
the shoe: every result is a permutation, two valid sequences with the same result are
equal, and every permutation is the result of a valid sequence. There are `n!` valid
sequences (listed without repetition by `choiceSequences`) and each order is produced by
exactly one of them, so uniform independent choices make the `n!` orders equally likely. -/
theorem shuffle_unbiased (d : Deck) (hnd : d.cards.Nodup) :
    (∀ js, (d.shuffle js).1.cards.Perm d.cards) ∧
    (∀ js js', validChoices (d.cards.length - 1) js = true →
      validChoices (d.cards.length - 1) js' = true →
      (d.shuffle js).1.cards = (d.shuffle js').1.cards → js = js') ∧
    (∀ t, t.Perm d.cards →
      ∃ js, validChoices (d.cards.length - 1) js = true ∧ (d.shuffle js).1.cards = t) ∧
    (∀ js, js ∈ choiceSequences (d.cards.length - 1) ↔
      validChoices (d.cards.length - 1) js = true) ∧
    (choiceSequences (d.cards.length - 1)).Nodup ∧
    (choiceSequences (d.cards.length - 1)).length = d.cards.length.factorial ∧
    (∀ t, t.Perm d.cards →
      (choiceSequences (d.cards.length - 1)).countP
        (fun js => decide ((d.shuffle js).1.cards = t)) = 1) := by
  have hidx : d.cards.length - 1 = 0 ∨ d.cards.length - 1 < d.cards.length := by omega
  refine ⟨shuffle_perm d, fun js js' h h' heq => ?_, fun t hperm => ?_, mem_choiceSequences _,
    choiceSequences_nodup _, ?_, choiceSequences_count d hnd⟩
  · exact shuffleFrom_injective _ d.cards js js' hnd hidx h h' heq
  · exact shuffleFrom_surjective _ d.cards t hnd hidx hperm (fun k hk => by
      have h1 : t[k]? = none := List.getElem?_eq_none (by rw [hperm.length_eq]; omega)
      have h2 : d.cards[k]? = none := List.getElem?_eq_none (by omega)
      rw [h1, h2])
  · rw [choiceSequences_length]
    cases hl : d.cards.length with
    | zero => rfl
    | succ n => rfl


/-- C21 on the 52 fresh cards: there are 52! sequences of choices and exactly one of them
reverses the shoe. -/
theorem shuffle_unbiased_witness :
    freshCards.Nodup ∧
    (choiceSequences (freshCards.length - 1)).length = freshCards.length.factorial ∧
    (choiceSequences (freshCards.length - 1)).countP
      (fun js => decide (((Deck.mk freshCards).shuffle js).1.cards = freshCards.reverse)) = 1 :=
  ⟨freshCards_nodup,
    (shuffle_unbiased (Deck.mk freshCards) freshCards_nodup).2.2.2.2.2.1,
    (shuffle_unbiased (Deck.mk freshCards) freshCards_nodup).2.2.2.2.2.2 freshCards.reverse
      (List.reverse_perm freshCards)⟩

end Blackjack
